import Mathlib

/-! Kilonova: a shallow embedding of the test-archive import and export
(`archive/test/archive.go`, `archive/test/generator.go`), of the language
registry (`eval/languages.go`), of the legacy custom checker
(`eval/checkers/custom_legacy.go`) and of the choice of a statement variant
(`web/handlers.go`).

Go values are embedded as follows.

* Go `string` is a list of characters (`Str`).
* Go `int` is a mathematical integer kept inside the 64-bit two's-complement
  range; the arithmetic on scores is passed through `wrap64`. Lengths and loop
  counters, bounded by the number of archive entries, are left unwrapped.
* A Go `map[int]V` is an association list with update-in-place; a `range` over
  a map visits the keys in an order chosen by the runtime, which is an explicit
  argument (`MapOrder`) of the functions that iterate.
* A `*zip.File` is a record of its name, its directory flag and what reading it
  yields; a nil pointer is `none`.
* The storage collaborator (`sudoapi.BaseAPI`) is an oracle deciding, from the
  calls made so far, whether the next call fails; the calls are logged.
* A run-time panic (integer division by zero, nil `*zip.File`) is an outcome of
  its own, next to returning nil or an error.
* The sandbox of the checker (`eval.Sandbox`) and the read side of the store
  used by the export are oracles of the same kind; what the export writes is
  the list of zip entries with their contents.
-/

namespace Kilonova

/-! ## Go primitives -/

/-- Go `string`, as its sequence of characters. -/
abbrev Str := List Char

/-- Smallest value of a Go `int` on a 64-bit platform. -/
def minInt64 : Int := -9223372036854775808

/-- Largest value of a Go `int` on a 64-bit platform. -/
def maxInt64 : Int := 9223372036854775807

/-- Reduction of a mathematical integer to the 64-bit two's-complement range. -/
def wrap64 (x : Int) : Int :=
  (x + 9223372036854775808) % 18446744073709551616 - 9223372036854775808

/-- Go `a + b` on `int`. -/
def goAdd (a b : Int) : Int := wrap64 (a + b)

/-- Go `a - b` on `int`. -/
def goSub (a b : Int) : Int := wrap64 (a - b)

/-- Go `a / b` on `int` for `b ≠ 0`: truncated division. -/
def goDiv (a b : Int) : Int := wrap64 (Int.tdiv a b)

/-- Go `a % b` on `int` for `b ≠ 0`: remainder of truncated division. -/
def goMod (a b : Int) : Int := Int.tmod a b

/-! ## Go maps with integer keys -/

/-- The two-valued lookup `v, ok := m[k]`. -/
def mapLookup {V : Type} : List (Int × V) → Int → Option V
  | [], _ => none
  | (k, v) :: rest, key => if k = key then some v else mapLookup rest key

/-- The lookup `m[k]`, which yields the zero value for an absent key. -/
def mapGet {V : Type} [Inhabited V] (m : List (Int × V)) (k : Int) : V :=
  (mapLookup m k).getD default

/-- The assignment `m[k] = v`. -/
def mapSet {V : Type} : List (Int × V) → Int → V → List (Int × V)
  | [], key, val => [(key, val)]
  | (k, v) :: rest, key, val =>
    if k = key then (k, val) :: rest else (k, v) :: mapSet rest key val

/-- The key set of a map, in storage order. -/
def mapKeys {V : Type} (m : List (Int × V)) : List Int := m.map Prod.fst

/-! ## Library functions used by the importer (`fmt`, `strconv`, `path`, `strings`) -/

/-- The `isSpace` table of package `fmt`. -/
def isSpace (c : Char) : Bool :=
  let n := c.toNat
  (0x09 ≤ n && n ≤ 0x0d) || n = 0x20 || n = 0x85 || n = 0xa0 || n = 0x1680 ||
  (0x2000 ≤ n && n ≤ 0x200a) || n = 0x2028 || n = 0x2029 || n = 0x202f ||
  n = 0x205f || n = 0x3000

/-- An ASCII decimal digit. -/
def isDigit (c : Char) : Bool := 48 ≤ c.toNat && c.toNat ≤ 57

/-- `(*ss).SkipSpace` of a `Sscanf` call (newlines are not spaces there):
the input left after the leading blanks, `none` when a newline is met. -/
def skipSpace : Str → Option Str
  | [] => some []
  | c :: cs =>
    if c = '\n' then none
    else if isSpace c then skipSpace cs
    else some (c :: cs)

/-- Value of a string of decimal digits. -/
def decimalValue (ds : Str) : Nat :=
  ds.foldl (fun acc c => acc * 10 + (c.toNat - 48)) 0

/-- Range check of `strconv.ParseInt(_, 10, 64)` on sign and magnitude. -/
def signedInRange (neg : Bool) (v : Nat) : Option Int :=
  if neg then (if v ≤ 9223372036854775808 then some (-(v : Int)) else none)
  else (if v ≤ 9223372036854775807 then some (v : Int) else none)

/-- The token part of `(*ss).scanInt` for the verb `%d`: `scanNumber` accepts
the characters of `decimalDigits` (`0` to `9`) and stops at any other
character; an empty run is the error "expected integer". The run `tok` is
handed to `strconv.ParseInt`, which rejects values outside the 64-bit range. -/
def scanDigits (neg : Bool) (r : Str) : Option (Int × Str) :=
  let tok := r.takeWhile isDigit
  let rest := r.dropWhile isDigit
  if tok = [] then none
  else (signedInRange neg (decimalValue tok)).map (fun v => (v, rest))

/-- The verb `%d` of `fmt.Sscanf` scanning into an `int`: skip blanks, accept
one sign, read the token. Returns the value and the unread input. -/
def scanInt (s : Str) : Option (Int × Str) :=
  match skipSpace s with
  | none => none
  | some [] => none
  | some (c :: cs) =>
    if c = '-' then scanDigits true cs
    else if c = '+' then scanDigits false cs
    else scanDigits false (c :: cs)

/-- Blanks other than newline, as consumed by a newline of the format. -/
def dropBlanks : Str → Str
  | [] => []
  | c :: cs => if isSpace c && c != '\n' then dropBlanks cs else c :: cs

/-- The call `fmt.Sscanf(line, "%d %d\n", &testID, &score)`: `some` of the two
integers when it returns no error. -/
def parseScoreLine (line : Str) : Option (Int × Int) :=
  match scanInt line with
  | none => none
  | some (_, []) => none
  | some (testID, c :: r1) =>
    if isSpace c && c != '\n' then
      match scanInt r1 with
      | none => none
      | some (score, r2) =>
        match dropBlanks r2 with
        | [] => some (testID, score)
        | d :: _ => if d = '\n' then some (testID, score) else none
    else none

/-- The call `fmt.Sscanf(name, "%d-", &tid)`: `some tid` when it returns no error. -/
def parseTestPrefix (name : Str) : Option Int :=
  match scanInt name with
  | some (tid, c :: _) => if c = '-' then some tid else none
  | _ => none

/-- The function `strconv.Atoi`: optional sign, then decimal digits only. -/
def Atoi (s : Str) : Option Int :=
  let body (neg : Bool) (ds : Str) : Option Int :=
    if ds = [] then none
    else if ds.all isDigit then signedInRange neg (decimalValue ds)
    else none
  match s with
  | '-' :: ds => body true ds
  | '+' :: ds => body false ds
  | ds => body false ds

/-- The function `strings.HasSuffix`. -/
def HasSuffix (s suffix : Str) : Bool := suffix.isSuffixOf s

/-- The function `strings.TrimSuffix`. -/
def TrimSuffix (s suffix : Str) : Str :=
  if HasSuffix s suffix then s.take (s.length - suffix.length) else s

/-- The function `path.Base`. -/
def pathBase (p : Str) : Str :=
  if p = [] then ['.']
  else
    let stripped := p.reverse.dropWhile (fun c => c = '/')
    let last := (stripped.takeWhile (fun c => c != '/')).reverse
    if last = [] then ['/'] else last

/-- The function `path.Ext`: the suffix starting at the last dot of the last
path element, empty when that element has no dot. -/
def pathExt (p : Str) : Str :=
  let rev := p.reverse
  let tail := rev.takeWhile (fun c => c != '.' && c != '/')
  match rev.dropWhile (fun c => c != '.' && c != '/') with
  | c :: _ => if c = '.' then '.' :: tail.reverse else []
  | [] => []

/-- The call `strings.Split(s, ".")`. -/
def splitDot : Str → List Str
  | [] => [[]]
  | c :: cs =>
    if c = '.' then [] :: splitDot cs
    else
      match splitDot cs with
      | [] => [[c]]
      | h :: t => (c :: h) :: t

/-- Digits of a natural number, most significant first (`fuel` bounds the length). -/
def natDigits : Nat → Nat → Str → Str
  | 0, _, acc => acc
  | fuel + 1, n, acc =>
    let acc1 := Char.ofNat (48 + n % 10) :: acc
    if n / 10 = 0 then acc1 else natDigits fuel (n / 10) acc1

/-- The function `strconv.Itoa`, which is also what the verb `%d` prints. -/
def Itoa (n : Int) : Str :=
  match n with
  | Int.ofNat m => natDigits (m + 1) m []
  | Int.negSucc m => '-' :: natDigits (m + 2) (m + 1) []

/-! ## Data model (`archive.go`, lines 20-61) -/

/-- The type `*kilonova.StatusError`. `Statusf` and `WrapError` are the two
constructors this file calls (the wrapped cause is not kept); `external` is an
error value handed back by a collaborator (storage, properties parser), a
different pointer from every error built here. -/
inductive StatusError where
  | Statusf (code : Nat) (text : Str)
  | WrapError (text : Str)
  | external (code : Nat) (text : Str)
  deriving DecidableEq, Repr

/-- What reading a zip entry yields: `unreadable` when `Open` fails, otherwise
the lines a `bufio.Scanner` produces and whether it stopped on an error. -/
inductive ZipBody where
  | unreadable
  | readable (lines : List Str) (scanErr : Bool)
  deriving DecidableEq, Repr

/-- The type `zip.File`, as far as the importer looks at it. -/
structure ZipFile where
  Name : Str
  IsDir : Bool
  Body : ZipBody
  deriving DecidableEq, Repr

/-- The struct `archiveTest`. -/
structure archiveTest where
  InFile : Option ZipFile
  OutFile : Option ZipFile
  Score : Int
  deriving DecidableEq, Repr

instance : Inhabited archiveTest := ⟨⟨none, none, 0⟩⟩

/-- The struct `Subtask`. -/
structure Subtask where
  Score : Int
  Tests : List Int
  deriving DecidableEq, Repr

instance : Inhabited Subtask := ⟨⟨0, []⟩⟩

/-- The struct `Properties`. A `float64` is kept as its bit pattern: the
importer only copies it. A nil map or nil pointer is `none`. -/
structure Properties where
  Subtasks : Option (List (Int × Subtask))
  TimeLimit : Option Nat
  MemoryLimit : Option Int
  Author : Option Str
  Source : Option Str
  ConsoleInput : Option Bool
  TestName : Option Str
  DefaultPoints : Option Int
  SubtaskedTests : List Int
  deriving DecidableEq, Repr

/-- The struct `ArchiveCtx`. -/
structure ArchiveCtx where
  tests : List (Int × archiveTest)
  scoredTests : List Int
  props : Option Properties
  deriving DecidableEq, Repr

/-- The constructor `NewArchiveCtx`. -/
def NewArchiveCtx : ArchiveCtx := ⟨[], [], none⟩

/-- The error value `ErrBadTestFile`. -/
def ErrBadTestFile : StatusError := .Statusf 400 "Bad test score file".toList

/-- The error value `ErrBadArchive`. -/
def ErrBadArchive : StatusError := .Statusf 400 "Bad archive".toList

/-! ## Per-entry processing (`archive.go`, lines 63-149) -/

/-- The scanner loop of `ProcessScoreFile` (lines 72-96) over the lines still
to be read. The score is stored before the duplicate check, so the context
returned with `ErrBadTestFile` already carries it. -/
def scoreLoop : ArchiveCtx → List Str → Option StatusError × ArchiveCtx
  | ctx, [] => (none, ctx)
  | ctx, line :: rest =>
    if line = [] then scoreLoop ctx rest
    else
      match parseScoreLine line with
      | none => scoreLoop ctx rest
      | some (testID, score) =>
        let test := mapGet ctx.tests testID
        let ctx1 := { ctx with tests := mapSet ctx.tests testID { test with Score := score } }
        if testID ∈ ctx.scoredTests then (some ErrBadTestFile, ctx1)
        else scoreLoop { ctx1 with scoredTests := ctx1.scoredTests ++ [testID] } rest

/-- The function `ProcessScoreFile`. -/
def ProcessScoreFile (ctx : ArchiveCtx) (file : ZipFile) : Option StatusError × ArchiveCtx :=
  match file.Body with
  | .unreadable => (some (.Statusf 500 "Unknown error".toList), ctx)
  | .readable lines scanErr =>
    match scoreLoop ctx lines with
    | (some e, ctx1) => (some e, ctx1)
    | (none, ctx1) =>
      if scanErr then (some (.WrapError "Score file read error".toList), ctx1)
      else (none, ctx1)

/-- What the properties parser makes of an entry: an error, nothing, or a
`Properties` value. -/
abbrev PropsParser := ZipFile → Except StatusError (Option Properties)

/-- Modelled from the spec: `ProcessPropertiesFile` is called by
`ProcessArchiveFile` but its body is not part of the sources at hand. Section
4.5 says a `.properties` entry is structured metadata "parsed by an external
collaborator and injected into the ArchiveContext": the parser is a parameter
and its result replaces `props`; nothing else of the context is touched. -/
def ProcessPropertiesFile (parse : PropsParser) (ctx : ArchiveCtx) (file : ZipFile) :
    Option StatusError × ArchiveCtx :=
  match parse file with
  | .error e => (some e, ctx)
  | .ok none => (none, ctx)
  | .ok (some p) => (none, { ctx with props := some p })

/-- Lines 116-128 of `ProcessArchiveFile`: the test number of a data file, from
a leading `<number>-` or else from the last dot-separated token before the
extension; `none` when the entry is dropped with `return nil`. -/
def resolveTestNumber (name : Str) : Option Int :=
  match parseTestPrefix name with
  | some tid => some tid
  | none =>
    let nm := splitDot (TrimSuffix name (pathExt name))
    match nm.getLast? with
    | none => none
    | some tok => Atoi tok

/-- Lines 130-138 of `ProcessArchiveFile`: registration of an input half. -/
def registerInput (ctx : ArchiveCtx) (tid : Int) (file : ZipFile) :
    Option StatusError × ArchiveCtx :=
  let tf := mapGet ctx.tests tid
  if tf.InFile ≠ none then
    (some (.Statusf 400 ("Multiple input files for test ".toList ++ Itoa tid)), ctx)
  else (none, { ctx with tests := mapSet ctx.tests tid { tf with InFile := some file } })

/-- Lines 139-147 of `ProcessArchiveFile`: registration of an output half. -/
def registerOutput (ctx : ArchiveCtx) (tid : Int) (file : ZipFile) :
    Option StatusError × ArchiveCtx :=
  let tf := mapGet ctx.tests tid
  if tf.OutFile ≠ none then
    (some (.Statusf 400 ("Multiple output files for test ".toList ++ Itoa tid)), ctx)
  else (none, { ctx with tests := mapSet ctx.tests tid { tf with OutFile := some file } })

/-- The function `ProcessArchiveFile`. -/
def ProcessArchiveFile (parse : PropsParser) (ctx : ArchiveCtx) (file : ZipFile) :
    Option StatusError × ArchiveCtx :=
  let name := pathBase file.Name
  if HasSuffix name ".txt".toList then ProcessScoreFile ctx file
  else if HasSuffix name ".properties".toList then ProcessPropertiesFile parse ctx file
  else
    match resolveTestNumber name with
    | none => (none, ctx)
    | some tid =>
      let r1 :=
        if HasSuffix name ".in".toList then registerInput ctx tid file else (none, ctx)
      match r1 with
      | (some e, ctx1) => (some e, ctx1)
      | (none, ctx1) =>
        if HasSuffix name ".out".toList || HasSuffix name ".ok".toList ||
            HasSuffix name ".sol".toList then
          registerOutput ctx1 tid file
        else (none, ctx1)

/-! ## The storage collaborator -/

/-- The fields of `kilonova.ProblemUpdate` written by the importer. -/
structure ProblemUpdate where
  MemoryLimit : Option Int
  TimeLimit : Option Nat
  DefaultPoints : Option Int
  SourceCredits : Option Str
  AuthorCredits : Option Str
  ConsoleInput : Option Bool
  TestName : Option Str
  deriving DecidableEq, Repr

/-- A call made on `sudoapi.BaseAPI`, with the arguments that matter. -/
inductive StoreCall where
  | OrphanTests (pbID : Int)
  | CreateTest (pbID visibleID score : Int)
  | SaveTestInput (testID : Int) (f : ZipFile)
  | SaveTestOutput (testID : Int) (f : ZipFile)
  | UpdateProblem (pbID : Int) (upd : ProblemUpdate)
  | DeleteSubTasks (pbID : Int)
  | CreateSubTask (pbID visibleID score : Int) (tests : List Int)
  deriving DecidableEq, Repr

/-- The collaborator `*sudoapi.BaseAPI`: `fail history call` is the error (code
and text) with which `call` fails after `history`, `none` when it succeeds;
`newID history` is the identifier `CreateTest` writes into `test.ID`. -/
structure BaseAPI where
  fail : List StoreCall → StoreCall → Option (Nat × Str)
  newID : List StoreCall → Int

/-- The order in which each `range` over a map visits the keys: the loops of
lines 169, 187, 228 and 306. -/
structure MapOrder where
  check : List Int → List Int
  collect : List Int → List Int
  create : List Int → List Int
  subtasks : List Int → List Int

/-- A `range` visits every key exactly once. -/
def MapOrder.Valid (o : MapOrder) : Prop :=
  ∀ l : List Int, (o.check l).Perm l ∧ (o.collect l).Perm l ∧ (o.create l).Perm l ∧
    (o.subtasks l).Perm l

/-- How a call ends: it returns (nil or an error) or the goroutine panics. -/
inductive Outcome where
  | returned (err : Option StatusError)
  | panicked
  deriving DecidableEq, Repr

/-! ## `ProcessZipTestArchive` (`archive.go`, lines 151-330) -/

/-- Lines 154-162: the loop over the archive entries. -/
def scanArchive (parse : PropsParser) : ArchiveCtx → List ZipFile → Option StatusError × ArchiveCtx
  | ctx, [] => (none, ctx)
  | ctx, file :: rest =>
    if file.IsDir then scanArchive parse ctx rest
    else
      match ProcessArchiveFile parse ctx file with
      | (some e, ctx1) => (some e, ctx1)
      | (none, ctx1) => scanArchive parse ctx1 rest

/-- The condition of line 164. -/
def subtaskMismatch (ctx : ArchiveCtx) : Bool :=
  match ctx.props with
  | none => false
  | some p =>
    match p.Subtasks with
    | none => false
    | some _ => p.SubtaskedTests.length != ctx.tests.length

/-- The error of line 166. -/
def errMismatch : StatusError :=
  .Statusf 400
    "Mismatched number of tests in archive and tests that correspond to at least one subtask".toList

/-- The error of line 171. -/
def errMissingHalf (k : Int) : StatusError :=
  .Statusf 400 ("Missing input or output file for test ".toList ++ Itoa k)

/-- Lines 169-173: the first test, in visiting order, that lacks a half. -/
def findMissingHalf (tests : List (Int × archiveTest)) : List Int → Option Int
  | [] => none
  | k :: ks =>
    let v := mapGet tests k
    if v.InFile = none ∨ v.OutFile = none then some k else findMissingHalf tests ks

/-- Lines 178-181: `totalScore` after subtracting the listed explicit scores. -/
def remainingScore (tests : List (Int × archiveTest)) : List Int → Int → Int
  | [], total => total
  | t :: ts, total => remainingScore tests ts (goSub total (mapGet tests t).Score)

/-- Lines 186-199: the unscored test numbers, sorted. -/
def unscoredIDs (visit : List Int) (scoredTests : List Int) : List Int :=
  (visit.filter (fun id => decide (id ∉ scoredTests))).insertionSort (fun a b => a ≤ b)

/-- Lines 204-216: the assignment loop; `k` counts the tests given a score. -/
def assignLoop (perTest toSub : Int) :
    List (Int × archiveTest) → List Int → Int → List (Int × archiveTest)
  | tests, [], _ => tests
  | tests, i :: rest, k =>
    if (mapGet tests i).Score > 0 then assignLoop perTest toSub tests rest k
    else
      let tst := mapGet tests i
      let score := if k < toSub then goSub perTest 1 else perTest
      assignLoop perTest toSub (mapSet tests i { tst with Score := score }) rest (k + 1)

/-- Lines 175-217: score inference. The lengths, `n`, `toSub` and the counter
`k` are bounded by twice the number of map entries, far below `2^63`, and are
left unwrapped; the arithmetic on scores wraps. `none` is the run-time panic
of an integer division by zero. -/
def inferScores (ord : MapOrder) (ctx : ArchiveCtx) : Option ArchiveCtx :=
  if ctx.scoredTests.length ≠ ctx.tests.length then
    let totalScore := remainingScore ctx.tests ctx.scoredTests 100
    let testIDs := unscoredIDs (ord.collect (mapKeys ctx.tests)) ctx.scoredTests
    let n : Int := (ctx.tests.length : Int) - (ctx.scoredTests.length : Int)
    if n = 0 then none
    else
      let perTest := goAdd (goDiv totalScore n) 1
      let toSub := n - goMod totalScore n
      some { ctx with tests := assignLoop perTest toSub ctx.tests testIDs 0 }
  else some ctx

/-- Lines 228-260: creation of the tests. The result is `none` when the loop
runs to its end, together with the calls made and the map `createdTests` (test
number to stored identifier). Opening a nil `*zip.File` panics. -/
def createLoop (base : BaseAPI) (pbID : Int) (tests : List (Int × archiveTest)) :
    List Int → List StoreCall → List (Int × Int) →
    Option Outcome × List StoreCall × List (Int × Int)
  | [], tr, created => (none, tr, created)
  | testID :: rest, tr, created =>
    let v := mapGet tests testID
    let call := StoreCall.CreateTest pbID testID v.Score
    match base.fail tr call with
    | some e => (some (.returned (some (.external e.1 e.2))), tr ++ [call], created)
    | none =>
      let id := base.newID tr
      let tr1 := tr ++ [call]
      let created1 := mapSet created testID id
      match v.InFile with
      | none => (some .panicked, tr1, created1)
      | some inFile =>
        if inFile.Body = .unreadable then
          (some (.returned (some (.WrapError "Couldn't open() input file".toList))), tr1, created1)
        else
          match base.fail tr1 (.SaveTestInput id inFile) with
          | some _ =>
            (some (.returned (some (.WrapError "Couldn't create test input".toList))),
              tr1 ++ [.SaveTestInput id inFile], created1)
          | none =>
            let tr2 := tr1 ++ [.SaveTestInput id inFile]
            match v.OutFile with
            | none => (some .panicked, tr2, created1)
            | some outFile =>
              if outFile.Body = .unreadable then
                (some (.returned (some (.WrapError "Couldn't open() output file".toList))),
                  tr2, created1)
              else
                match base.fail tr2 (.SaveTestOutput id outFile) with
                | some _ =>
                  (some (.returned (some (.WrapError "Couldn't create test output".toList))),
                    tr2 ++ [.SaveTestOutput id outFile], created1)
                | none =>
                  createLoop base pbID tests rest (tr2 ++ [.SaveTestOutput id outFile]) created1

/-- Lines 263-292: the partial update and whether any field was supplied. -/
def buildUpdate (p : Properties) : Bool × ProblemUpdate :=
  (p.MemoryLimit.isSome || p.TimeLimit.isSome || p.DefaultPoints.isSome || p.Source.isSome ||
      p.Author.isSome || p.ConsoleInput.isSome || p.TestName.isSome,
    { MemoryLimit := p.MemoryLimit, TimeLimit := p.TimeLimit, DefaultPoints := p.DefaultPoints,
      SourceCredits := p.Source, AuthorCredits := p.Author, ConsoleInput := p.ConsoleInput,
      TestName := p.TestName })

/-- The error of line 315. -/
def errTestNotFound (test : Int) : StatusError :=
  .Statusf 400 ("Test ".toList ++ Itoa test ++
    " not found in added tests. Aborting subtask creation".toList)

/-- Lines 313-319: archive test numbers to stored identifiers; the first
unknown test number is the error. -/
def resolveTests (created : List (Int × Int)) : List Int → List Int → Except Int (List Int)
  | [], out => .ok out
  | test :: rest, out =>
    match mapLookup created test with
    | none => .error test
    | some id => resolveTests created rest (out ++ [id])

/-- Lines 306-325: creation of the subtasks, in visiting order. -/
def subtaskLoop (base : BaseAPI) (pbID : Int) (stks : List (Int × Subtask))
    (created : List (Int × Int)) : List Int → List StoreCall → Option StatusError × List StoreCall
  | [], tr => (none, tr)
  | stkId :: rest, tr =>
    let stk := mapGet stks stkId
    match resolveTests created stk.Tests [] with
    | .error test => (some (errTestNotFound test), tr)
    | .ok ids =>
      let call := StoreCall.CreateSubTask pbID stkId stk.Score ids
      match base.fail tr call with
      | some _ => (some (.WrapError "Couldn't create subtask".toList), tr ++ [call])
      | none => subtaskLoop base pbID stks created rest (tr ++ [call])

/-- Lines 262-327: what is done with the parsed properties. -/
def applyProps (ord : MapOrder) (base : BaseAPI) (pbID : Int) (p : Properties)
    (created : List (Int × Int)) (tr : List StoreCall) : Option StatusError × List StoreCall :=
  let upd := buildUpdate p
  let r1 : Option StatusError × List StoreCall :=
    if upd.1 then
      match base.fail tr (.UpdateProblem pbID upd.2) with
      | some _ =>
        (some (.WrapError "Couldn't update problem medatada".toList),
          tr ++ [.UpdateProblem pbID upd.2])
      | none => (none, tr ++ [.UpdateProblem pbID upd.2])
    else (none, tr)
  match r1 with
  | (some e, tr1) => (some e, tr1)
  | (none, tr1) =>
    match p.Subtasks with
    | none => (none, tr1)
    | some stks =>
      match base.fail tr1 (.DeleteSubTasks pbID) with
      | some _ =>
        (some (.WrapError "Couldn't delete existing subtasks".toList),
          tr1 ++ [.DeleteSubTasks pbID])
      | none =>
        subtaskLoop base pbID stks created (ord.subtasks (mapKeys stks))
          (tr1 ++ [.DeleteSubTasks pbID])

/-- Lines 219-329: everything after score inference, on the inferred context. -/
def commitArchive (ord : MapOrder) (base : BaseAPI) (pbID : Int) (ctx : ArchiveCtx) :
    Outcome × List StoreCall :=
  match base.fail [] (.OrphanTests pbID) with
  | some e => (.returned (some (.external e.1 e.2)), [.OrphanTests pbID])
  | none =>
    match createLoop base pbID ctx.tests (ord.create (mapKeys ctx.tests))
        [.OrphanTests pbID] [] with
    | (some out, tr, _) => (out, tr)
    | (none, tr, created) =>
      match ctx.props with
      | none => (.returned none, tr)
      | some p =>
        let r := applyProps ord base pbID p created tr
        (.returned r.1, r.2)

/-- Lines 164-329 of `ProcessZipTestArchive`: the work done on the context
left by the scan. -/
def finishArchive (ord : MapOrder) (base : BaseAPI) (pbID : Int) (aCtx : ArchiveCtx) :
    Outcome × List StoreCall :=
  if subtaskMismatch aCtx then (.returned (some errMismatch), [])
  else
    match findMissingHalf aCtx.tests (ord.check (mapKeys aCtx.tests)) with
    | some k => (.returned (some (errMissingHalf k)), [])
    | none =>
      match inferScores ord aCtx with
      | none => (.panicked, [])
      | some ctx1 => commitArchive ord base pbID ctx1

/-- The function `ProcessZipTestArchive`: how the call ends and the storage
calls it made, for the entries `ar` of the archive and the problem `pbID`. -/
def ProcessZipTestArchive (parse : PropsParser) (ord : MapOrder) (base : BaseAPI)
    (pbID : Int) (ar : List ZipFile) : Outcome × List StoreCall :=
  match scanArchive parse NewArchiveCtx ar with
  | (some e, _) => (.returned (some e), [])
  | (none, aCtx) => finishArchive ord base pbID aCtx

/-! ## Vocabulary of the statements -/

/-- Sum of the scores of all the tests of a map. -/
def scoreSum (tests : List (Int × archiveTest)) : Int :=
  (tests.map (fun p => p.2.Score)).sum

/-- Sum of the scores of the explicitly scored tests. -/
def explicitSum (ctx : ArchiveCtx) : Int :=
  (ctx.scoredTests.map (fun t => (mapGet ctx.tests t).Score)).sum

/-- The `(VisibleID, Score)` pair of a `CreateTest` call. -/
def createArgs : StoreCall → Option (Int × Int)
  | .CreateTest _ visibleID score => some (visibleID, score)
  | _ => none

/-- The scores passed to `CreateTest`, in call order. -/
def createdScores (tr : List StoreCall) : List Int :=
  (tr.filterMap createArgs).map Prod.snd

/-- Consistency of a context: map keys are distinct, no test number is scored
twice, scored tests are in the map, unscored tests have score zero and every
score is a 64-bit value. -/
structure CtxInv (ctx : ArchiveCtx) : Prop where
  keysNodup : (mapKeys ctx.tests).Nodup
  scoredNodup : ctx.scoredTests.Nodup
  scoredSub : ∀ t ∈ ctx.scoredTests, t ∈ mapKeys ctx.tests
  unscoredZero : ∀ k, k ∉ ctx.scoredTests → (mapGet ctx.tests k).Score = 0
  inRange : ∀ k, minInt64 ≤ (mapGet ctx.tests k).Score ∧ (mapGet ctx.tests k).Score ≤ maxInt64

/-- Both halves of test `k` are registered. -/
def hasBothHalves (tests : List (Int × archiveTest)) (k : Int) : Prop :=
  (mapGet tests k).InFile ≠ none ∧ (mapGet tests k).OutFile ≠ none

/-- A data entry: not a directory, readable, no lines of interest. -/
def dataFile (name : String) : ZipFile := ⟨name.toList, false, .readable [] false⟩

/-- A text entry with the given lines, read without error. -/
def textFile (name : String) (lines : List String) : ZipFile :=
  ⟨name.toList, false, .readable (lines.map String.toList) false⟩

/-- A properties parser for archives without metadata. -/
def noProps : PropsParser := fun _ => .ok none

/-- Map iteration in storage order. -/
def storageOrder : MapOrder := ⟨id, id, id, id⟩

/-- Map iteration in reverse storage order. -/
def reverseOrder : MapOrder := ⟨List.reverse, List.reverse, List.reverse, List.reverse⟩

/-- A storage collaborator whose calls all succeed; identifiers count the calls. -/
def okBase : BaseAPI := ⟨fun _ _ => none, fun history => history.length⟩

instance (tests : List (Int × archiveTest)) (k : Int) : Decidable (hasBothHalves tests k) := by
  unfold hasBothHalves; infer_instance

/-- Four complete tests, test 1 explicitly scored 37. -/
def sampleArchive : List ZipFile :=
  [dataFile "1-a.in", dataFile "1-a.ok", dataFile "2-a.in", dataFile "2-a.ok",
   dataFile "3-a.in", dataFile "3-a.ok", dataFile "4-a.in", dataFile "4-a.ok",
   textFile "tests.txt" ["1 37"]]

/-- Four complete tests, test 1 explicitly scored with the smallest 64-bit integer. -/
def overflowArchive : List ZipFile :=
  [dataFile "1-a.in", dataFile "1-a.ok", dataFile "2-a.in", dataFile "2-a.ok",
   dataFile "3-a.in", dataFile "3-a.ok", dataFile "4-a.in", dataFile "4-a.ok",
   textFile "tests.txt" ["1 -9223372036854775808"]]

/-- The context left by the scan of an archive without metadata. -/
def scannedCtx (ar : List ZipFile) : ArchiveCtx := (scanArchive noProps NewArchiveCtx ar).2

/-- The entries of `sampleArchive` in another order: scores first, outputs
before inputs, tests from 4 down to 1. -/
def shuffledArchive : List ZipFile :=
  [textFile "tests.txt" ["1 37"],
   dataFile "4-a.ok", dataFile "4-a.in", dataFile "3-a.ok", dataFile "3-a.in",
   dataFile "2-a.ok", dataFile "2-a.in", dataFile "1-a.ok", dataFile "1-a.in"]

/-- Four complete tests, test 1 explicitly scored 40. -/
def fortyArchive : List ZipFile :=
  [dataFile "1-a.in", dataFile "1-a.ok", dataFile "2-a.in", dataFile "2-a.ok",
   dataFile "3-a.in", dataFile "3-a.ok", dataFile "4-a.in", dataFile "4-a.ok",
   textFile "tests.txt" ["1 40"]]

/-- A line is well formed when `Sscanf` reads two integers from it. -/
def wellFormedLine (line : Str) : Bool := (parseScoreLine line).isSome

/-- A score file with two lines both scoring test 3. -/
def twiceThree : ZipFile := textFile "tests.txt" ["3 40", "", "3 60"]

/-- An outcome that can only come from the commit phase (lines 219-329): a
panic, success, an error of the storage collaborator, a wrapped error, or the
unresolved subtask reference of line 315. -/
def CommitOutcome (o : Outcome) : Prop :=
  o = .panicked ∨ o = .returned none ∨ (∃ c t, o = .returned (some (.external c t))) ∨
    (∃ t, o = .returned (some (.WrapError t))) ∨ (∃ t, o = .returned (some (errTestNotFound t)))

/-- Properties with one subtask of weight 100 over tests 1 and 2. -/
def subtaskProps : Properties :=
  { Subtasks := some [(1, ⟨100, [1, 2]⟩)], TimeLimit := none, MemoryLimit := none,
    Author := none, Source := none, ConsoleInput := none, TestName := none,
    DefaultPoints := none, SubtaskedTests := [1, 2] }

/-- A parser that reads `subtaskProps` from every entry named `grader.properties`. -/
def sampleParser : PropsParser := fun file =>
  if pathBase file.Name = "grader.properties".toList then .ok (some subtaskProps)
  else .ok none

/-- The metadata entry from which `sampleParser` reads `subtaskProps`. -/
def graderProperties : ZipFile :=
  textFile "grader.properties" ["groups=1;2", "weights=100"]

/-- Test 1 complete, test 2 known only from a score line. -/
def scoreOnlyArchive : List ZipFile :=
  [dataFile "1-a.in", dataFile "1-a.ok", textFile "tests.txt" ["2 50"]]

/-- Test 1 without output, and a subtask over tests 1 and 2. -/
def lonelyInputArchive : List ZipFile := [dataFile "1-a.in", graderProperties]

/-- The context after `1-a.in` and `1-a.ok` were processed. -/
def oneTestCtx : ArchiveCtx :=
  (scanArchive noProps NewArchiveCtx [dataFile "1-a.in", dataFile "1-a.ok"]).2

/-- A decimal integer as written: an optional minus sign and the digits `ds`. -/
def decimalText (neg : Bool) (ds : Str) : Str := (if neg then ['-'] else []) ++ ds

/-- The integer that `decimalText neg ds` denotes. -/
def decimalNumber (neg : Bool) (ds : Str) : Int :=
  if neg then -(decimalValue ds : Int) else (decimalValue ds : Int)

/-- Two maps register the same input and output halves for every test number. -/
def sameHalves (a b : List (Int × archiveTest)) : Prop :=
  ∀ k, (mapGet a k).InFile = (mapGet b k).InFile ∧ (mapGet a k).OutFile = (mapGet b k).OutFile

/-- Two maps give the same score to every test number. -/
def sameScores (a b : List (Int × archiveTest)) : Prop :=
  ∀ k, (mapGet a k).Score = (mapGet b k).Score

/-- Tests 1 and 2 complete, and a subtask over tests 1 and 2. -/
def coveredArchive : List ZipFile :=
  [dataFile "1-a.in", dataFile "1-a.ok", dataFile "2-a.in", dataFile "2-a.ok", graderProperties]

/-- Properties with subtask 1 over tests 1 and 2 and subtask 2 over tests 2 and 7. -/
def strayProps : Properties :=
  { Subtasks := some [(1, ⟨60, [1, 2]⟩), (2, ⟨40, [2, 7]⟩)], TimeLimit := none,
    MemoryLimit := none, Author := none, Source := none, ConsoleInput := none,
    TestName := none, DefaultPoints := none, SubtaskedTests := [1, 2, 7] }

/-- A parser that reads `strayProps` from every entry named `grader.properties`. -/
def strayParser : PropsParser := fun file =>
  if pathBase file.Name = "grader.properties".toList then .ok (some strayProps)
  else .ok none

/-- Tests 1, 2 and 3 complete; the metadata of `strayParser` mention test 7. -/
def strayArchive : List ZipFile :=
  [dataFile "1-a.in", dataFile "1-a.ok", dataFile "2-a.in", dataFile "2-a.ok",
   dataFile "3-a.in", dataFile "3-a.ok",
   textFile "grader.properties" ["groups=1;2,2;7", "weights=60,40"]]

/-! ## The language registry (`eval/languages.go`) -/

/-- The struct `Directory`. -/
structure Directory where
  In : Str
  Out : Str
  Opts : Str
  Removes : Bool
  Verbatim : Bool
  deriving DecidableEq, Repr

/-- The struct `Language`; a `map[string]string` is an association list. -/
structure Language where
  Disabled : Bool
  Extensions : List Str
  Compiled : Bool
  PrintableName : Str
  InternalName : Str
  CompileCommand : List Str
  RunCommand : List Str
  BuildEnv : List (Str × Str)
  RunEnv : List (Str × Str)
  Mounts : List Directory
  SourceName : Str
  CompiledName : Str
  deriving DecidableEq, Repr

/-- A list of Go string literals. -/
def strs (l : List String) : List Str := l.map String.toList

/-- The constant `MagicReplace`. -/
def MagicReplace : String := "<REPLACE>"

/-- The mount rule `Directory{In: "/etc"}`. -/
def etcMount : Directory := ⟨"/etc".toList, [], [], false, false⟩

/-- The GNU C++ entries of `Langs` differ in key, standard and last extension only. -/
def cppLanguage (key printable std lastExt : String) : Language :=
  { Disabled := false,
    Extensions := strs [".cpp", ".c++", ".cc", ".cxx", lastExt],
    Compiled := true,
    PrintableName := printable.toList,
    InternalName := key.toList,
    CompileCommand := strs ["g++", "-fuse-ld=mold", std, "-O2", "-s", "-static", "-DKNOVA",
      "-DONLINE_JUDGE", MagicReplace, "-o", "/box/output"],
    RunCommand := strs ["/box/output"],
    BuildEnv := [], RunEnv := [],
    Mounts := [etcMount],
    SourceName := "/box/main.cpp".toList,
    CompiledName := "/box/output".toList }

/-- The map `Langs`, in the order of the source text. -/
def Langs : List (Str × Language) :=
  [ ("c".toList,
      { Disabled := false, Extensions := strs [".c"], Compiled := true,
        PrintableName := "C".toList, InternalName := "c".toList,
        CompileCommand := strs ["gcc", "-fuse-ld=mold", "-std=c11", "-O2", "-lm", "-s",
          "-static", "-DKNOVA", "-DONLINE_JUDGE", MagicReplace, "-o", "/box/output"],
        RunCommand := strs ["/box/output"],
        BuildEnv := [], RunEnv := [], Mounts := [etcMount],
        SourceName := "/box/main.c".toList, CompiledName := "/box/output".toList }),
    ("cpp".toList, cppLanguage "cpp" "C++11" "-std=c++11" ".cpp11"),
    ("cpp14".toList, cppLanguage "cpp14" "C++14" "-std=c++14" ".cpp14"),
    ("cpp17".toList, cppLanguage "cpp17" "C++17" "-std=c++17" ".cpp17"),
    ("cpp20".toList, cppLanguage "cpp20" "C++20" "-std=c++20" ".cpp20"),
    ("pascal".toList,
      { Disabled := false, Extensions := strs [".pas"], Compiled := true,
        PrintableName := "Pascal".toList, InternalName := "pascal".toList,
        CompileCommand := strs ["fpc", "-O2", "-XSst", "-Mobjfpc", "-vw", "-dKNOVA",
          "-dONLINE_JUDGE", MagicReplace, "-o/box/output"],
        RunCommand := strs ["/box/output"],
        BuildEnv := [], RunEnv := [], Mounts := [etcMount],
        SourceName := "/box/main.pas".toList, CompiledName := "/box/output".toList }),
    ("golang".toList,
      { Disabled := false, Extensions := strs [".go"], Compiled := true,
        PrintableName := "Go".toList, InternalName := "golang".toList,
        CompileCommand := strs ["/usr/bin/go", "build", MagicReplace],
        RunCommand := strs ["/box/main"],
        BuildEnv := [("GOMAXPROCS".toList, "1".toList), ("CGO_ENABLED".toList, "0".toList),
          ("GOCACHE".toList, "/go/cache".toList), ("GOPATH".toList, "/box".toList),
          ("GO111MODULE".toList, "off".toList)],
        RunEnv := [("GOMAXPROCS".toList, "1".toList)],
        Mounts := [⟨"/go".toList, [], "tmp".toList, false, true⟩],
        SourceName := "/box/main.go".toList, CompiledName := "/box/main".toList }),
    ("haskell".toList,
      { Disabled := true, Extensions := strs [".hs", ".lhs"], Compiled := true,
        PrintableName := "Haskell".toList, InternalName := "haskell".toList,
        CompileCommand := strs ["ghc", "-o", "/box/output", MagicReplace],
        RunCommand := strs ["/box/output"],
        BuildEnv := [], RunEnv := [], Mounts := [],
        SourceName := "/box/main.hs".toList, CompiledName := "/box/output".toList }),
    ("java".toList,
      { Disabled := true, Extensions := strs [".java"], Compiled := true,
        PrintableName := "Java".toList, InternalName := "java".toList,
        CompileCommand := strs ["javac", MagicReplace],
        RunCommand := strs ["java", "Main"],
        BuildEnv := [], RunEnv := [], Mounts := [etcMount],
        SourceName := "/Main.java".toList, CompiledName := "/Main.class".toList }),
    ("python3".toList,
      { Disabled := false, Extensions := strs [".py", ".py3"], Compiled := false,
        PrintableName := "Python 3".toList, InternalName := "python3".toList,
        CompileCommand := [],
        RunCommand := strs ["python3", "/box/main.py"],
        BuildEnv := [], RunEnv := [], Mounts := [],
        SourceName := "/box/main.py".toList, CompiledName := "/box/main.py".toList }),
    ("outputOnly".toList,
      { Disabled := false, Extensions := strs [".output_only"], Compiled := false,
        PrintableName := "Output Only".toList, InternalName := "outputOnly".toList,
        CompileCommand := [],
        RunCommand := strs ["cat", "/box/output"],
        BuildEnv := [], RunEnv := [], Mounts := [],
        SourceName := "/box/output_src".toList, CompiledName := "/box/output".toList }) ]

/-- The two-valued lookup `lang, ok := Langs[key]` in a map with string keys. -/
def langLookup : List (Str × Language) → Str → Option Language
  | [], _ => none
  | (k, v) :: rest, key => if k = key then some v else langLookup rest key

/-- The function `GetLangByFilename`; `visit` is the order in which the `range`
over `Langs` yields the entries. -/
def GetLangByFilename (visit : List (Str × Language)) (filename : Str) : Str :=
  let fileExt := pathExt filename
  if fileExt = [] then []
  else
    match visit.find? (fun kv => decide (fileExt ∈ kv.2.Extensions)) with
    | some kv => kv.1
    | none => []

/-! ## The legacy custom checker (`eval/checkers/custom_legacy.go`) -/

/-- The function `strings.TrimSpace`; `unicode.IsSpace` and the `isSpace` of
`fmt` accept the same code points. -/
def TrimSpace (s : Str) : Str :=
  ((s.dropWhile isSpace).reverse.dropWhile isSpace).reverse

/-- The call `fmt.Fscanf(&out, "%d ", &job.score)` on a buffer holding `out`:
the integer stored through the pointer, if the verb got that far, and the
unread rest of the buffer when the call returns no error. The blank of the
format accepts end of input or one blank other than a newline, and then
consumes the blanks up to the next newline. -/
def fscanfScore (out : Str) : Option Int × Option Str :=
  match scanInt out with
  | none => (none, none)
  | some (v, []) => (some v, some [])
  | some (v, c :: rest) =>
    if isSpace c && c != '\n' then (some v, some (dropBlanks rest))
    else (some v, none)

/-- A call made on the sandbox. `CopyInBox` keeps the two arguments of
`path.Join` apart. -/
inductive BoxCall where
  | WriteFile (path : Str) (content : Str) (mode : Nat)
  | CopyInBox (dir : Str) (file : Str) (dest : Str)
  | RunCommand (argv : List Str) (memoryLimit wallTimeLimit maxProcs : Nat)
  deriving DecidableEq, Repr

/-- The interface `eval.Sandbox` with `eval.CopyInBox`: `fail history call`
tells whether `call` returns an error after `history`; `stdout history` is what
the command run after `history` writes to the configured `Stdout`. -/
structure Sandbox where
  fail : List BoxCall → BoxCall → Bool
  stdout : List BoxCall → Str

/-- What `Execute` takes from outside its file: the order in which `Langs` is
visited, `eval.MakeGoodCommand` (`none` is an error), the constant `ErrOut` and
`config.Eval.CompilePath`. -/
structure CheckerEnv where
  visit : List (Str × Language)
  MakeGoodCommand : List Str → Option (List Str)
  ErrOut : Str
  CompilePath : Str

/-- The struct `legacyCustomCheckerTask`: checker file name, submission id, the
contents of the three readers, and the two fields filled by `Execute`. -/
structure legacyCustomCheckerTask where
  filename : Str
  subID : Int
  pOut : Str
  cIn : Str
  cOut : Str
  score : Int
  output : Str
  deriving DecidableEq, Repr

/-- The result of `Execute`: the returned error, the task and the sandbox calls. -/
structure ExecResult where
  err : Option Str
  job : legacyCustomCheckerTask
  calls : List BoxCall
  deriving DecidableEq, Repr

/-- The task after `job.output = ErrOut`. -/
def failedTask (env : CheckerEnv) (job : legacyCustomCheckerTask) : legacyCustomCheckerTask :=
  { job with output := env.ErrOut }

/-- Line 35: `box.WriteFile("/box/program.out", job.pOut, 0644)`. -/
def writeProgramOut (job : legacyCustomCheckerTask) : BoxCall :=
  .WriteFile "/box/program.out".toList job.pOut 420

/-- Line 39: `box.WriteFile("/box/correct.in", job.cIn, 0644)`. -/
def writeCorrectIn (job : legacyCustomCheckerTask) : BoxCall :=
  .WriteFile "/box/correct.in".toList job.cIn 420

/-- Line 43: `box.WriteFile("/box/correct.out", job.cOut, 0644)`. -/
def writeCorrectOut (job : legacyCustomCheckerTask) : BoxCall :=
  .WriteFile "/box/correct.out".toList job.cOut 420

/-- Line 47: the copy of the compiled checker `<-sub.ID>.bin` into the box. -/
def copyChecker (env : CheckerEnv) (job : legacyCustomCheckerTask) (lang : Language) : BoxCall :=
  .CopyInBox env.CompilePath (Itoa (goSub 0 job.subID) ++ ".bin".toList) lang.CompiledName

/-- Lines 57-71: the run of the checker with its three arguments and limits. -/
def runChecker (goodCmd : List Str) : BoxCall :=
  .RunCommand (goodCmd ++ strs ["/box/program.out", "/box/correct.out", "/box/correct.in"])
    (512 * 1024) 20 2

/-- Lines 76-82: the task after the captured stdout `out` was scanned. -/
def scoredTask (job : legacyCustomCheckerTask) (out : Str) : legacyCustomCheckerTask :=
  match fscanfScore out with
  | (stored, none) =>
    { job with score := stored.getD job.score, output := "Wrong checker output".toList }
  | (stored, some rest) => { job with score := stored.getD job.score, output := TrimSpace rest }

/-- The method `legacyCustomCheckerTask.Execute`. -/
def Execute (env : CheckerEnv) (box : Sandbox) (job : legacyCustomCheckerTask) : ExecResult :=
  match langLookup Langs (GetLangByFilename env.visit job.filename) with
  | none => ⟨none, failedTask env job, []⟩
  | some lang =>
    let w1 := writeProgramOut job
    let w2 := writeCorrectIn job
    let w3 := writeCorrectOut job
    let cp := copyChecker env job lang
    if box.fail [] w1 then ⟨none, failedTask env job, [w1]⟩
    else if box.fail [w1] w2 then ⟨none, failedTask env job, [w1, w2]⟩
    else if box.fail [w1, w2] w3 then ⟨none, failedTask env job, [w1, w2, w3]⟩
    else if box.fail [w1, w2, w3] cp then ⟨none, failedTask env job, [w1, w2, w3, cp]⟩
    else
      match env.MakeGoodCommand lang.RunCommand with
      | none => ⟨none, failedTask env job, [w1, w2, w3, cp]⟩
      | some goodCmd =>
        let run := runChecker goodCmd
        if box.fail [w1, w2, w3, cp] run then
          ⟨none, failedTask env job, [w1, w2, w3, cp, run]⟩
        else
          ⟨none, scoredTask job (box.stdout [w1, w2, w3, cp, run]), [w1, w2, w3, cp, run]⟩

/-- A checker environment: `Langs` visited in source order, commands kept as
they are, a marker text for `ErrOut`. -/
def sampleCheckerEnv : CheckerEnv :=
  ⟨Langs, fun cmd => some cmd, "Internal grader error".toList, "/tmp/checkers".toList⟩

/-- A sandbox whose calls all succeed and whose command prints `out`. -/
def printingBox (out : String) : Sandbox := ⟨fun _ _ => false, fun _ => out.toList⟩

/-- A sandbox whose second `WriteFile` fails. -/
def brokenBox : Sandbox :=
  ⟨fun history _ => decide (history.length = 1), fun _ => "100 fine".toList⟩

/-- A fresh task for the checker `checker.cpp` of submission 17. -/
def sampleTask : legacyCustomCheckerTask :=
  ⟨"checker.cpp".toList, 17, "4\n".toList, "2 2\n".toList, "4\n".toList, 0, []⟩

/-- A fresh task whose checker has no known extension. -/
def strangeTask : legacyCustomCheckerTask :=
  ⟨"checker.xyz".toList, 17, "4\n".toList, "2 2\n".toList, "4\n".toList, 0, []⟩

/-! ## Export (`archive.go`, lines 332-451, and `generator.go`) -/

/-- The fields of `kilonova.Test` the export reads. -/
structure Test where
  ID : Int
  VisibleID : Int
  Score : Int
  deriving DecidableEq, Repr

instance : Inhabited Test := ⟨⟨0, 0, 0⟩⟩

/-- The fields of `kilonova.SubTask` the export reads. -/
structure SubTask where
  VisibleID : Int
  Score : Int
  Tests : List Int
  deriving DecidableEq, Repr

/-- The fields of `kilonova.Problem` the export reads; `TimeLimit` is a
`float64`, kept as its bit pattern. -/
structure Problem where
  ID : Int
  TestName : Str
  TimeLimit : Nat
  MemoryLimit : Int
  DefaultPoints : Int
  AuthorCredits : Str
  SourceCredits : Str
  ConsoleInput : Bool
  SourceSize : Int
  ScoringStrategy : Str
  deriving DecidableEq, Repr

/-- The fields of `kilonova.Attachment` the export reads. -/
structure Attachment where
  ID : Int
  Name : Str
  Visible : Bool
  Private : Bool
  Exec : Bool
  deriving DecidableEq, Repr

/-- An entry of the zip archive being written: its name and what was written
into it. -/
structure WrittenEntry where
  Name : Str
  Content : Str
  deriving DecidableEq, Repr

/-- What the export takes from outside its file. The read side of
`*sudoapi.BaseAPI`: `Tests`, `TestInput`, `TestOutput`, `SubTasks`,
`ProblemAttachments`, `AttachmentData`, `ProblemTags` (an error is a code and a
text, or `none` for a plain `error`). The `zip.Writer`: `createFails` and
`copyFails` tell, from the entries written so far and the name of the new one,
whether `Create` or the copy into the entry fails. Library and package values:
`slug.Make`, the verb `%f` on the time limit and on `MemoryLimit/1024.0`, the
JSON encoding of the attachment properties, the verb `%q` and the constant
`kilonova.DefaultSourceSize`. -/
structure ExportEnv where
  Tests : Except (Nat × Str) (List Test)
  TestInput : Int → Option Str
  TestOutput : Int → Option Str
  SubTasks : Except (Nat × Str) (List SubTask)
  ProblemAttachments : Except (Nat × Str) (List Attachment)
  AttachmentData : Int → Option Str
  ProblemTags : Except (Nat × Str) (List Str)
  createFails : List WrittenEntry → Str → Bool
  copyFails : List WrittenEntry → Str → Bool
  slugMake : Str → Str
  formatTime : Nat → Str
  formatMemory : Int → Str
  encodeProps : Bool → Bool → Bool → Option Str
  quote : Str → Str
  DefaultSourceSize : Int

/-- The call `strings.Join(parts, sep)`. -/
def joinStrs (sep : Str) : List Str → Str
  | [] => []
  | [x] => x
  | x :: y :: rest => x ++ sep ++ joinStrs sep (y :: rest)

/-- Lines 341-344: the test name used in the entry names. -/
def exportTestName (env : ExportEnv) (pb : Problem) : Str :=
  let testName := TrimSpace pb.TestName
  if testName = [] then env.slugMake testName else testName

/-- The name `fmt.Sprintf("%d-%s.in", test.VisibleID, testName)`. -/
def inputName (testName : Str) (test : Test) : Str :=
  Itoa test.VisibleID ++ "-".toList ++ testName ++ ".in".toList

/-- The name `fmt.Sprintf("%d-%s.ok", test.VisibleID, testName)`. -/
def outputName (testName : Str) (test : Test) : Str :=
  Itoa test.VisibleID ++ "-".toList ++ testName ++ ".ok".toList

/-- Lines 347-382 (the same loop in `generator.go`, lines 32-67): the two
entries of every test. On a failure the entries completed so far are returned;
what a failed copy left behind is not kept. -/
def writeTests (env : ExportEnv) (testName : Str) :
    List Test → List WrittenEntry → Option StatusError × List WrittenEntry
  | [], es => (none, es)
  | test :: rest, es =>
    if env.createFails es (inputName testName test) then
      (some (.WrapError "Couldn't create archive file".toList), es)
    else
      match env.TestInput test.ID with
      | none => (some (.WrapError "Couldn't get test input".toList), es)
      | some input =>
        if env.copyFails es (inputName testName test) then
          (some (.WrapError "Couldn't save test input file".toList), es)
        else
          let es1 := es ++ [⟨inputName testName test, input⟩]
          if env.createFails es1 (outputName testName test) then
            (some (.WrapError "Couldn't create archive file".toList), es1)
          else
            match env.TestOutput test.ID with
            | none => (some (.WrapError "Couldn't get test output".toList), es1)
            | some output =>
              if env.copyFails es1 (outputName testName test) then
                (some (.WrapError "Couldn't save test output file".toList), es1)
              else writeTests env testName rest (es1 ++ [⟨outputName testName test, output⟩])

/-- One `fmt.Fprintf(testFile, "%d %d\n", test.VisibleID, test.Score)`. -/
def scoreLine (test : Test) : Str :=
  Itoa test.VisibleID ++ ' ' :: Itoa test.Score

/-- Lines 389-391: the content of `tests.txt`. The source ignores the result
of `Fprintf`; the writes are taken to succeed. -/
def scoreContent : List Test → Str
  | [] => []
  | test :: rest => scoreLine test ++ '\n' :: scoreContent rest

/-- Lines 410-413: the map `tmap` from test id to test. -/
def buildTmap : List Test → List (Int × Test) → List (Int × Test)
  | [], tmap => tmap
  | test :: rest, tmap => buildTmap rest (mapSet tmap test.ID test)

/-- Lines 419-430: the text of one group; `first` tells whether the loop index
is still 0. A test id missing from `tmap` adds nothing after its separator. -/
def groupText (tmap : List (Int × Test)) : List Int → Bool → Str → Str
  | [], _, group => group
  | t :: rest, first, group =>
    let g1 := if first then group else group ++ [';']
    let g2 :=
      match mapLookup tmap t with
      | none => g1
      | some tt => g1 ++ Itoa tt.VisibleID
    groupText tmap rest false g2

/-- Lines 415-433: the slice `groups`. -/
def groupTexts (tests : List Test) (subtasks : List SubTask) : List Str :=
  subtasks.map (fun st => groupText (buildTmap tests []) st.Tests true [])

/-- Lines 416-433: the slice `weights`. -/
def weightTexts (subtasks : List SubTask) : List Str :=
  subtasks.map (fun st => Itoa st.Score)

/-- The value written after `groups=`. -/
def groupsValue (tests : List Test) (subtasks : List SubTask) : Str :=
  joinStrs [','] (groupTexts tests subtasks)

/-- The value written after `weights=`. -/
def weightsValue (subtasks : List SubTask) : Str :=
  joinStrs [','] (weightTexts subtasks)

/-- The verb `%t`. -/
def formatBool (b : Bool) : Str := if b then "true".toList else "false".toList

/-- Lines 434-448 of `archive.go`: the content of `grader.properties`. -/
def propsContent (env : ExportEnv) (pb : Problem) (testName : Str) (tests : List Test)
    (subtasks : List SubTask) : Str :=
  "groups=".toList ++ groupsValue tests subtasks ++ ['\n'] ++
  "weights=".toList ++ weightsValue subtasks ++ ['\n'] ++
  "time=".toList ++ env.formatTime pb.TimeLimit ++ ['\n'] ++
  "memory=".toList ++ env.formatMemory pb.MemoryLimit ++ ['\n'] ++
  (if pb.DefaultPoints ≠ 0 then "default_score=".toList ++ Itoa pb.DefaultPoints ++ ['\n']
    else []) ++
  (if pb.AuthorCredits ≠ [] then "author=".toList ++ pb.AuthorCredits ++ ['\n'] else []) ++
  (if pb.SourceCredits ≠ [] then "source=".toList ++ pb.SourceCredits ++ ['\n'] else []) ++
  "console_input=".toList ++ formatBool pb.ConsoleInput ++ ['\n'] ++
  "test_name=".toList ++ testName ++ ['\n']

/-- The function `GenerateArchive` of `archive.go`: the returned error and the
entries written. -/
def GenerateArchive (env : ExportEnv) (pb : Problem) :
    Option StatusError × List WrittenEntry :=
  match env.Tests with
  | .error e => (some (.external e.1 e.2), [])
  | .ok tests =>
    let testName := exportTestName env pb
    match writeTests env testName tests [] with
    | (some e, es) => (some e, es)
    | (none, es) =>
      if env.createFails es "tests.txt".toList then
        (some (.WrapError "Couldn't create archive tests.txt file".toList), es)
      else
        let es1 := es ++ [⟨"tests.txt".toList, scoreContent tests⟩]
        match env.SubTasks with
        | .error e => (some (.external e.1 e.2), es1)
        | .ok subtasks =>
          if subtasks.length = 0 then (none, es1)
          else if env.createFails es1 "grader.properties".toList then
            (some (.WrapError "Couldn't create archive grader.properties file".toList), es1)
          else
            (none, es1 ++
              [⟨"grader.properties".toList, propsContent env pb testName tests subtasks⟩])

namespace Generator

/-- Lines 74-97 of `generator.go`: the two entries of every attachment. -/
def writeAttachments (env : ExportEnv) :
    List Attachment → List WrittenEntry → Option StatusError × List WrittenEntry
  | [], es => (none, es)
  | att :: rest, es =>
    let propsName := "attachments/".toList ++ att.Name ++ ".att_props".toList
    let dataName := "attachments/".toList ++ att.Name
    if env.createFails es propsName then
      (some (.WrapError "Couldn't create archive attachment props file".toList), es)
    else
      match env.encodeProps att.Visible att.Private att.Exec with
      | none => (some (.WrapError "Couldn't encode attachment props".toList), es)
      | some json =>
        let es1 := es ++ [⟨propsName, json⟩]
        if env.createFails es1 dataName then
          (some (.WrapError "Couldn't create attachment file".toList), es1)
        else
          match env.AttachmentData att.ID with
          | none => (some (.WrapError "Couldn't get attachment data".toList), es1)
          | some data =>
            if env.copyFails es1 dataName then
              (some (.WrapError "Couldn't save attachment file".toList), es1)
            else writeAttachments env rest (es1 ++ [⟨dataName, data⟩])

/-- Lines 120-159 of `generator.go`: what is written into `grader.properties`
before the tags are asked for. The `source_size` property is written without a
line end. -/
def propsHead (env : ExportEnv) (pb : Problem) (testName : Str) (tests : List Test)
    (subtasks : List SubTask) : Str :=
  (if subtasks.length ≠ 0 then
      "groups=".toList ++ groupsValue tests subtasks ++ ['\n'] ++
      "weights=".toList ++ weightsValue subtasks ++ ['\n']
    else []) ++
  "time=".toList ++ env.formatTime pb.TimeLimit ++ ['\n'] ++
  "memory=".toList ++ env.formatMemory pb.MemoryLimit ++ ['\n'] ++
  (if pb.DefaultPoints ≠ 0 then "default_score=".toList ++ Itoa pb.DefaultPoints ++ ['\n']
    else []) ++
  (if pb.SourceSize ≠ env.DefaultSourceSize then "source_size=".toList ++ Itoa pb.SourceSize
    else []) ++
  "console_input=".toList ++ formatBool pb.ConsoleInput ++ ['\n'] ++
  "test_name=".toList ++ testName ++ ['\n'] ++
  "scoring_strategy=".toList ++ pb.ScoringStrategy ++ ['\n']

/-- Lines 166-176 of `generator.go`: what a full export adds after the tags
were obtained. -/
def propsTail (env : ExportEnv) (pb : Problem) (tags : List Str) : Str :=
  (if tags.length > 0 then
      "tags=".toList ++ joinStrs [','] (tags.map env.quote) ++ ['\n']
    else []) ++
  (if pb.SourceCredits ≠ [] then "source=".toList ++ pb.SourceCredits ++ ['\n'] else [])

/-- The function `GenerateArchive` of `generator.go`. An entry under
construction when an error is returned is kept with what was written so far. -/
def GenerateArchive (env : ExportEnv) (pb : Problem) (brief : Bool) :
    Option StatusError × List WrittenEntry :=
  match env.Tests with
  | .error e => (some (.external e.1 e.2), [])
  | .ok tests =>
    let testName := exportTestName env pb
    match writeTests env testName tests [] with
    | (some e, es) => (some e, es)
    | (none, es) =>
      let r1 : Option StatusError × List WrittenEntry :=
        if brief then (none, es)
        else
          match env.ProblemAttachments with
          | .error _ => (some (.WrapError "Couldn't get attachments".toList), es)
          | .ok atts => writeAttachments env atts es
      match r1 with
      | (some e, es1) => (some e, es1)
      | (none, es1) =>
        if env.createFails es1 "tests.txt".toList then
          (some (.WrapError "Couldn't create archive tests.txt file".toList), es1)
        else
          let es2 := es1 ++ [⟨"tests.txt".toList, scoreContent tests⟩]
          if env.createFails es2 "grader.properties".toList then
            (some (.WrapError "Couldn't create archive grader.properties file".toList), es2)
          else
            match env.SubTasks with
            | .error e => (some (.external e.1 e.2), es2 ++ [⟨"grader.properties".toList, []⟩])
            | .ok subtasks =>
              let head := propsHead env pb testName tests subtasks
              if brief then (none, es2 ++ [⟨"grader.properties".toList, head⟩])
              else
                match env.ProblemTags with
                | .error e =>
                  (some (.external e.1 e.2), es2 ++ [⟨"grader.properties".toList, head⟩])
                | .ok tags =>
                  (none, es2 ++ [⟨"grader.properties".toList, head ++ propsTail env pb tags⟩])

end Generator

/-! ## An exported archive as the importer sees it -/

/-- The pieces of a text between line feeds (`strings.Split(s, "\n")`). -/
def splitLines : Str → List Str
  | [] => [[]]
  | c :: cs =>
    if c = '\n' then [] :: splitLines cs
    else
      match splitLines cs with
      | [] => [[c]]
      | h :: t => (c :: h) :: t

/-- The helper `dropCR` of `bufio`. -/
def dropCR (line : Str) : Str :=
  if line.getLast? = some '\r' then line.dropLast else line

/-- The lines `bufio.Scanner` yields with `bufio.ScanLines`: the text is cut at
line feeds, one trailing carriage return is dropped from each line and an
empty last piece is no line. The limit on the line length is not modelled. -/
def scanLines (s : Str) : List Str :=
  let pieces := splitLines s
  (if pieces.getLast? = some [] then pieces.dropLast else pieces).map dropCR

/-- The `*zip.File` read back from a written entry: a name ending in `/` is a
directory. -/
def asZipFile (e : WrittenEntry) : ZipFile :=
  ⟨e.Name, e.Name.getLast? = some '/', .readable (scanLines e.Content) false⟩

/-- An export environment for the tests and subtasks given: every read and
every write succeeds, the data of test `id` are `in<id>` and `out<id>`, and
the two `%f` texts are those of the limits of `sampleProblem`. -/
def sampleExport (tests : List Test) (subtasks : List SubTask) : ExportEnv :=
  { Tests := .ok tests,
    TestInput := fun id => some ("in".toList ++ Itoa id),
    TestOutput := fun id => some ("out".toList ++ Itoa id),
    SubTasks := .ok subtasks,
    ProblemAttachments := .ok [],
    AttachmentData := fun _ => some [],
    ProblemTags := .ok [],
    createFails := fun _ _ => false,
    copyFails := fun _ _ => false,
    slugMake := fun _ => [],
    formatTime := fun _ => "1.000000".toList,
    formatMemory := fun _ => "64.000000".toList,
    encodeProps := fun _ _ _ => some "{}\n".toList,
    quote := fun s => '"' :: s ++ ['"'],
    DefaultSourceSize := 10000 }

/-- A problem with test name `sum`, a time limit of one second (the bit pattern
of `1.0`), 65536 KB of memory and the source size given. -/
def sampleProblem (sourceSize : Int) : Problem :=
  { ID := 1, TestName := " sum ".toList, TimeLimit := 4607182418800017408, MemoryLimit := 65536,
    DefaultPoints := 0, AuthorCredits := [], SourceCredits := [], ConsoleInput := false,
    SourceSize := sourceSize, ScoringStrategy := "sum_subtasks".toList }

/-- Tests with visible ids 1, 2, 3 (stored under 11, 12, 13) and scores 40, 30, 30. -/
def threeTests : List Test := [⟨11, 1, 40⟩, ⟨12, 2, 30⟩, ⟨13, 3, 30⟩]

/-- The two entries per test that `writeTests` adds when nothing fails. -/
def dataEntries (env : ExportEnv) (testName : Str) (tests : List Test) : List WrittenEntry :=
  tests.flatMap (fun test =>
    [⟨inputName testName test, (env.TestInput test.ID).getD []⟩,
     ⟨outputName testName test, (env.TestOutput test.ID).getD []⟩])

/-- The entry `tests.txt` of an export. -/
def scoreEntry (tests : List Test) : WrittenEntry := ⟨"tests.txt".toList, scoreContent tests⟩

/-- Tests with visible ids 2 and 1, listed in that order. -/
def unsortedTests : List Test := [⟨12, 2, 30⟩, ⟨11, 1, 40⟩]

/-- The pieces of a text between occurrences of one separator character
(`strings.Split` with a separator of one character). -/
def splitChar (sep : Char) : Str → List Str
  | [] => [[]]
  | c :: cs =>
    if c = sep then [] :: splitChar sep cs
    else
      match splitChar sep cs with
      | [] => [[c]]
      | h :: t => (c :: h) :: t

/-- One subtask of weight 70 over the tests with ids 11 and 12. -/
def sampleSubTasks : List SubTask := [⟨1, 70, [11, 12]⟩]

/-- One subtask of weight 70 whose third member, 99, is the id of no test. -/
def gappedSubTasks : List SubTask := [⟨1, 70, [11, 12, 99]⟩]

/-- What an export writes for the tests: the two entries of every test, then
`tests.txt`. -/
def testEntries (env : ExportEnv) (testName : Str) (tests : List Test) : List WrittenEntry :=
  dataEntries env testName tests ++ [scoreEntry tests]

/-- The sample problem with the test name `a/b`. -/
def slashProblem : Problem := { sampleProblem 10000 with TestName := "a/b".toList }

/-! ## Reading the subtasks back from `grader.properties` -/

/-- The value of the first line that starts with `key`, which includes the
`=` sign. -/
def propertyValue (key : Str) : List Str → Option Str
  | [] => none
  | line :: rest =>
    if key.isPrefixOf line then some (line.drop key.length) else propertyValue key rest

/-- The numbers of a list written with the separator `sep`; `none` when a
piece is no number. -/
def parseNumbers (sep : Char) (value : Str) : Option (List Int) :=
  (splitChar sep value).mapM Atoi

/-- Subtasks numbered from `first` on, one per group, with the weight at the
same position. -/
def numberSubtasks : Int → List (List Int) → List Int → List (Int × Subtask)
  | first, group :: groups, weight :: weights =>
    (first, ⟨weight, group⟩) :: numberSubtasks (first + 1) groups weights
  | _, _, _ => []

/-- The distinct numbers of a list, in the order of their first occurrence. -/
def distinctNumbers : List Int → List Int → List Int
  | [], seen => seen
  | x :: rest, seen => distinctNumbers rest (if x ∈ seen then seen else seen ++ [x])

/-- Modelled from the spec: the parser of `.properties` entries is the
"external collaborator" of section 4.5 and its code is not part of the sources
at hand. Sections 4.6 and 6 give the wire format (`groups=` is a comma-joined
list of groups, each the semicolon-joined numbers of its tests; `weights=` is
the parallel comma-joined list of scores) and section 4.5 says that the tests
counted against the discovered tests are those "referenced across all
subtasks". This model reads the two keys only: subtask `i` (from 1) gets the
`i`-th group and the `i`-th weight, `SubtaskedTests` holds the distinct test
numbers of all groups, and the scalar keys are left unset. A file without
`groups=` carries no subtask data; a piece that is no number is reported as
`ErrBadArchive`. -/
def parseGroups : PropsParser := fun file =>
  match file.Body with
  | .unreadable => .error ErrBadArchive
  | .readable lines _ =>
    let noSubtasks : Properties :=
      { Subtasks := none, TimeLimit := none, MemoryLimit := none, Author := none,
        Source := none, ConsoleInput := none, TestName := none, DefaultPoints := none,
        SubtaskedTests := [] }
    match propertyValue "groups=".toList lines with
    | none => .ok (some noSubtasks)
    | some groupsText =>
      match (splitChar ',' groupsText).mapM (parseNumbers ';'),
          parseNumbers ',' ((propertyValue "weights=".toList lines).getD []) with
      | some groups, some weights =>
        .ok (some { noSubtasks with
          Subtasks := some (numberSubtasks 1 groups weights),
          SubtaskedTests := distinctNumbers groups.flatten [] })
      | _, _ => .error ErrBadArchive

/-- The `(Score, Tests)` pair of a `CreateSubTask` call. -/
def subtaskArgs : StoreCall → Option (Int × List Int)
  | .CreateSubTask _ _ score tests => some (score, tests)
  | _ => none

/-- The visible ids of the member tests of a subtask, looked up in the test
map of the export. -/
def memberVisibleIDs (tests : List Test) (st : SubTask) : List Int :=
  st.Tests.filterMap (fun id => (mapLookup (buildTmap tests []) id).map (fun t => t.VisibleID))

/-- The entry `grader.properties` of `GenerateArchive` (`archive.go`). -/
def propsEntry (env : ExportEnv) (pb : Problem) (tests : List Test)
    (subtasks : List SubTask) : WrittenEntry :=
  ⟨"grader.properties".toList, propsContent env pb (exportTestName env pb) tests subtasks⟩

/-- Two subtasks that cover the three tests: weight 70 over the tests with ids
11 and 12, weight 30 over the test with id 13. -/
def coveringSubTasks : List SubTask := [⟨1, 70, [11, 12]⟩, ⟨2, 30, [13]⟩]

/-- The archive exported for `threeTests` and the subtasks given, as the
importer sees it. -/
def exportedArchive (subtasks : List SubTask) : List ZipFile :=
  (GenerateArchive (sampleExport threeTests subtasks) (sampleProblem 10000)).2.map asZipFile

/-! ## Vocabulary for the language registry -/

instance : Inhabited Language := ⟨⟨false, [], false, [], [], [], [], [], [], [], [], []⟩⟩

/-- The one-valued lookup `Langs[key]`: the zero `Language` for an absent key. -/
def langGet (key : Str) : Language := (langLookup Langs key).getD default

/-! ## Statement variants (`web/handlers.go`, lines 265-289) -/

/-- The fields of `kilonova.StatementVariant` that are read. -/
structure StatementVariant where
  Language : Str
  Format : Str
  deriving DecidableEq, Repr

/-- The method `Web.appropriateDescriptionVariant`; its receiver and the
parameters `pb` and `user` are not used by the body. The third loop tests the
language, as the second does. -/
def appropriateDescriptionVariant (variants : List StatementVariant) (prefLang prefFormat : Str) :
    Str × Str :=
  match variants with
  | [] => ([], [])
  | first :: _ =>
    match variants.find? (fun v => decide (v.Language = prefLang ∧ v.Format = prefFormat)) with
    | some v => (v.Language, v.Format)
    | none =>
      match variants.find? (fun v => decide (v.Language = prefLang)) with
      | some v => (v.Language, v.Format)
      | none =>
        match variants.find? (fun v => decide (v.Language = prefLang)) with
        | some v => (v.Language, v.Format)
        | none => (first.Language, first.Format)

/-- An English PDF statement followed by a Romanian Markdown statement. -/
def sampleVariants : List StatementVariant :=
  [⟨"en".toList, "pdf".toList⟩, ⟨"ro".toList, "md".toList⟩]

/-! ## Vocabulary for the inferred scores and for call sequences -/

/-- The sum, over the tests of `before` that are not explicitly scored, of
their scores in `after`. -/
def unscoredSum (before after : ArchiveCtx) : Int :=
  (((mapKeys before.tests).filter (fun id => decide (id ∉ before.scoredTests))).map
    (fun id => (mapGet after.tests id).Score)).sum

/-- Four complete tests, test 1 scored 120. -/
def overdrawnArchive : List ZipFile :=
  [dataFile "1-a.in", dataFile "1-a.ok", dataFile "2-a.in", dataFile "2-a.ok",
   dataFile "3-a.in", dataFile "3-a.ok", dataFile "4-a.in", dataFile "4-a.ok",
   textFile "tests.txt" ["1 120"]]

/-- One call on an archive context. -/
inductive ArchiveCall where
  | archiveFile (file : ZipFile)
  | scoreFile (file : ZipFile)
  deriving DecidableEq, Repr

/-- A sequence of `ProcessArchiveFile` and `ProcessScoreFile` calls on one
context, up to the first call that returns an error. -/
def runCalls (parse : PropsParser) : ArchiveCtx → List ArchiveCall → Option StatusError × ArchiveCtx
  | ctx, [] => (none, ctx)
  | ctx, call :: rest =>
    let r :=
      match call with
      | .archiveFile file => ProcessArchiveFile parse ctx file
      | .scoreFile file => ProcessScoreFile ctx file
    match r with
    | (some e, ctx1) => (some e, ctx1)
    | (none, ctx1) => runCalls parse ctx1 rest

/-- Two data files, a score file given directly, and one more data file. -/
def sampleCalls : List ArchiveCall :=
  [.archiveFile (dataFile "1-a.in"), .archiveFile (dataFile "1-a.ok"),
   .scoreFile (textFile "scores" ["1 40", "2 10"]), .archiveFile (dataFile "3-a.in")]

/-! ## The text of a score file under `bufio.Scanner` -/

/-- The constant `bufio.MaxScanTokenSize`, the size to which the buffer of a
`bufio.Scanner` grows at most. -/
def MaxScanTokenSize : Nat := 64 * 1024

/-- The length of a text in bytes, in UTF-8. -/
def byteLength (s : Str) : Nat := (s.map Char.utf8Size).sum

/-- The loop of `rawLines`: `cur` is the line being read, reversed, and `acc`
the lines already cut, last first. -/
def cutLines : Str → Str → List Str → List Str
  | [], cur, acc => (if cur = [] then acc else cur.reverse :: acc).reverse
  | c :: cs, cur, acc =>
    if c = '\n' then cutLines cs [] (cur.reverse :: acc) else cutLines cs (c :: cur) acc

/-- The raw lines of a text, as `bufio.ScanLines` cuts it: the pieces between
line feeds, an empty piece after the last line feed being no line. A trailing
carriage return is still part of the raw line. -/
def rawLines (content : Str) : List Str := cutLines content [] []

/-- A `bufio.Scanner` with `ScanLines` and the default buffer over the raw
lines still to be read: the lines yielded and whether `Err()` is non-nil at
the end. A raw line is a token when the buffer shows its end before being full,
that is when the line has fewer than `MaxScanTokenSize` bytes; one trailing
carriage return is then dropped. At the first longer line `Scan` sets
`ErrTooLong` and returns false, and the rest of the text is not read. -/
def scanBounded : List Str → List Str × Bool
  | [] => ([], false)
  | l :: rest =>
    if MaxScanTokenSize ≤ byteLength l then ([], true)
    else (dropCR l :: (scanBounded rest).1, (scanBounded rest).2)

/-- What reading a zip entry with the text `content` yields, when the entry
opens and the reads themselves do not fail. -/
def textBody (content : Str) : ZipBody :=
  .readable (scanBounded (rawLines content)).1 (scanBounded (rawLines content)).2

/-- The text made of the lines `ls`, each ended by a line feed. -/
def unlines (ls : List Str) : Str := (ls.map (fun l => l ++ ['\n'])).flatten

/-- The text `content` without the lines that `ProcessScoreFile` would find
empty or malformed once the scanner has dropped a trailing carriage return. -/
def dropBadLines (content : Str) : Str :=
  unlines ((rawLines content).filter (fun l => wellFormedLine (dropCR l)))

/-- A score text with blank and garbled lines around two scores. -/
def garbledText : Str :=
  "\n# scores\n1 40\r\n2\nx 3\n2 60 points\n2 60\n \n".toList

/-- A line of 65536 letters, one byte each. -/
def longLine : Str := List.replicate 65536 'x'

/-- The score text with the three lines `1 40`, `longLine` and `2 60`. -/
def overlongScores : Str := unlines ["1 40".toList, longLine, "2 60".toList]

/-! # Theorems -/

/-! ## Facts about Go maps -/

theorem mapLookup_mapSet {V : Type} (m : List (Int × V)) (k k2 : Int) (v : V) :
    mapLookup (mapSet m k v) k2 = if k = k2 then some v else mapLookup m k2 := by
  induction m with
  | nil => simp [mapSet, mapLookup]
  | cons p rest ih =>
    obtain ⟨a, b⟩ := p
    by_cases h : a = k
    · subst h
      by_cases h2 : a = k2 <;> simp [mapSet, mapLookup, h2]
    · by_cases h2 : a = k2
      · subst h2
        have : ¬ k = a := fun e => h e.symm
        simp [mapSet, mapLookup, h, this]
      · simp [mapSet, mapLookup, h, h2, ih]

theorem mapGet_mapSet {V : Type} [Inhabited V] (m : List (Int × V)) (k k2 : Int) (v : V) :
    mapGet (mapSet m k v) k2 = if k = k2 then v else mapGet m k2 := by
  unfold mapGet
  rw [mapLookup_mapSet]
  split <;> rfl

theorem mapLookup_eq_none {V : Type} (m : List (Int × V)) (k : Int) :
    mapLookup m k = none ↔ k ∉ mapKeys m := by
  induction m with
  | nil => simp [mapLookup, mapKeys]
  | cons p rest ih =>
    obtain ⟨a, b⟩ := p
    by_cases h : a = k
    · simp [mapLookup, mapKeys, h]
    · have h2 : ¬ k = a := fun e => h e.symm
      simpa [mapLookup, mapKeys, h, h2] using ih

theorem mapKeys_mapSet {V : Type} (m : List (Int × V)) (k : Int) (v : V) :
    mapKeys (mapSet m k v) = if k ∈ mapKeys m then mapKeys m else mapKeys m ++ [k] := by
  induction m with
  | nil => simp [mapSet, mapKeys]
  | cons p rest ih =>
    obtain ⟨a, b⟩ := p
    by_cases h : a = k
    · simp [mapSet, mapKeys, h]
    · have h2 : ¬ k = a := fun e => h e.symm
      simp only [mapKeys] at ih
      by_cases h3 : k ∈ List.map Prod.fst rest
      · simp [mapSet, mapKeys, h, h2, h3, ih]
      · simp [mapSet, mapKeys, h, h2, h3, ih]

theorem mem_mapKeys_mapSet {V : Type} (m : List (Int × V)) (k k2 : Int) (v : V) :
    k2 ∈ mapKeys (mapSet m k v) ↔ k2 = k ∨ k2 ∈ mapKeys m := by
  rw [mapKeys_mapSet]
  split
  · constructor
    · intro h; exact Or.inr h
    · rintro (h | h)
      · subst h; assumption
      · exact h
  · simp [or_comm]

theorem nodup_mapKeys_mapSet {V : Type} (m : List (Int × V)) (k : Int) (v : V)
    (h : (mapKeys m).Nodup) : (mapKeys (mapSet m k v)).Nodup := by
  rw [mapKeys_mapSet]
  split
  · exact h
  · rename_i hk
    exact List.Nodup.append h (List.nodup_singleton k) (by simpa using hk)

theorem length_mapKeys {V : Type} (m : List (Int × V)) : (mapKeys m).length = m.length := by
  simp [mapKeys]


theorem signedInRange_range {neg : Bool} {v : Nat} {x : Int} (h : signedInRange neg v = some x) :
    minInt64 ≤ x ∧ x ≤ maxInt64 := by
  unfold signedInRange at h
  unfold minInt64 maxInt64
  split at h
  · split at h
    · cases h; omega
    · cases h
  · split at h
    · cases h; omega
    · cases h

theorem scanDigits_range {neg : Bool} {r : Str} {x : Int} {rest : Str}
    (h : scanDigits neg r = some (x, rest)) : minInt64 ≤ x ∧ x ≤ maxInt64 := by
  unfold scanDigits at h
  simp only at h
  split at h
  · cases h
  · cases h2 : signedInRange neg (decimalValue (List.takeWhile isDigit r)) with
    | none => simp [h2] at h
    | some y =>
      simp [h2] at h
      rw [← h.1]
      exact signedInRange_range h2

theorem scanInt_range {s : Str} {x : Int} {rest : Str} (h : scanInt s = some (x, rest)) :
    minInt64 ≤ x ∧ x ≤ maxInt64 := by
  unfold scanInt at h
  split at h
  · cases h
  · cases h
  · split at h
    · exact scanDigits_range h
    · split at h
      · exact scanDigits_range h
      · exact scanDigits_range h

theorem parseScoreLine_range {line : Str} {a b : Int} (h : parseScoreLine line = some (a, b)) :
    (minInt64 ≤ a ∧ a ≤ maxInt64) ∧ (minInt64 ≤ b ∧ b ≤ maxInt64) := by
  unfold parseScoreLine at h
  split at h
  · cases h
  · cases h
  · rename_i tid c r1 h1
    split at h
    · split at h
      · cases h
      · rename_i sc r2 h2
        have ha := scanInt_range h1
        have hb := scanInt_range h2
        split at h
        · cases h; exact ⟨ha, hb⟩
        · split at h
          · cases h; exact ⟨ha, hb⟩
          · cases h
    · cases h

theorem CtxInv_new : CtxInv NewArchiveCtx := by
  refine ⟨?_, ?_, ?_, ?_, ?_⟩ <;> simp [NewArchiveCtx, mapKeys, mapGet, mapLookup, minInt64, maxInt64]
  · rfl
  · decide

theorem scoreLoop_inv (lines : List Str) : ∀ (ctx ctx2 : ArchiveCtx), CtxInv ctx →
    scoreLoop ctx lines = (none, ctx2) → CtxInv ctx2 := by
  induction lines with
  | nil =>
    intro ctx ctx2 hinv h
    simp [scoreLoop] at h
    subst h; exact hinv
  | cons line rest ih =>
    intro ctx ctx2 hinv h
    unfold scoreLoop at h
    split at h
    · exact ih ctx ctx2 hinv h
    · split at h
      · exact ih ctx ctx2 hinv h
      · rename_i testID score hp
        simp only at h
        split at h
        · cases h
        · rename_i hnot
          refine ih _ ctx2 ?_ h
          have hr := (parseScoreLine_range hp).2
          refine ⟨?_, ?_, ?_, ?_, ?_⟩
          · exact nodup_mapKeys_mapSet _ _ _ hinv.keysNodup
          · exact List.Nodup.append hinv.scoredNodup (List.nodup_singleton _) (by simpa using hnot)
          · intro t ht
            simp only [List.mem_append, List.mem_singleton] at ht
            rw [mem_mapKeys_mapSet]
            rcases ht with ht | ht
            · exact Or.inr (hinv.scoredSub t ht)
            · exact Or.inl ht
          · intro k hk
            simp only [List.mem_append, List.mem_singleton, not_or] at hk
            simp only [mapGet_mapSet]
            rw [if_neg (fun e => hk.2 e.symm)]
            exact hinv.unscoredZero k hk.1
          · intro k
            simp only [mapGet_mapSet]
            split
            · exact hr
            · exact hinv.inRange k

theorem ProcessScoreFile_inv {ctx ctx2 : ArchiveCtx} {file : ZipFile} (hinv : CtxInv ctx)
    (h : ProcessScoreFile ctx file = (none, ctx2)) : CtxInv ctx2 := by
  unfold ProcessScoreFile at h
  split at h
  · cases h
  · rename_i lines scanErr hb
    split at h
    · cases h
    · rename_i ctx1 hl
      split at h
      · cases h
      · cases h
        exact scoreLoop_inv lines ctx _ hinv hl

theorem registerInput_inv {ctx ctx2 : ArchiveCtx} {tid : Int} {file : ZipFile} (hinv : CtxInv ctx)
    (h : registerInput ctx tid file = (none, ctx2)) : CtxInv ctx2 := by
  unfold registerInput at h
  simp only at h
  split at h
  · cases h
  · cases h
    refine ⟨nodup_mapKeys_mapSet _ _ _ hinv.keysNodup, hinv.scoredNodup, ?_, ?_, ?_⟩
    · intro t ht
      rw [mem_mapKeys_mapSet]
      exact Or.inr (hinv.scoredSub t ht)
    · intro k hk
      simp only [mapGet_mapSet]
      split
      · rename_i e; subst e; exact hinv.unscoredZero _ hk
      · exact hinv.unscoredZero k hk
    · intro k
      simp only [mapGet_mapSet]
      split
      · rename_i e; subst e; exact hinv.inRange _
      · exact hinv.inRange k

theorem registerOutput_inv {ctx ctx2 : ArchiveCtx} {tid : Int} {file : ZipFile} (hinv : CtxInv ctx)
    (h : registerOutput ctx tid file = (none, ctx2)) : CtxInv ctx2 := by
  unfold registerOutput at h
  simp only at h
  split at h
  · cases h
  · cases h
    refine ⟨nodup_mapKeys_mapSet _ _ _ hinv.keysNodup, hinv.scoredNodup, ?_, ?_, ?_⟩
    · intro t ht
      rw [mem_mapKeys_mapSet]
      exact Or.inr (hinv.scoredSub t ht)
    · intro k hk
      simp only [mapGet_mapSet]
      split
      · rename_i e; subst e; exact hinv.unscoredZero _ hk
      · exact hinv.unscoredZero k hk
    · intro k
      simp only [mapGet_mapSet]
      split
      · rename_i e; subst e; exact hinv.inRange _
      · exact hinv.inRange k

theorem ProcessPropertiesFile_tests {parse : PropsParser} {ctx : ArchiveCtx} {file : ZipFile} :
    (ProcessPropertiesFile parse ctx file).2.tests = ctx.tests ∧
    (ProcessPropertiesFile parse ctx file).2.scoredTests = ctx.scoredTests := by
  unfold ProcessPropertiesFile
  split <;> simp

theorem ProcessArchiveFile_inv {parse : PropsParser} {ctx ctx2 : ArchiveCtx} {file : ZipFile}
    (hinv : CtxInv ctx) (h : ProcessArchiveFile parse ctx file = (none, ctx2)) : CtxInv ctx2 := by
  unfold ProcessArchiveFile at h
  simp only at h
  split at h
  · exact ProcessScoreFile_inv hinv h
  · split at h
    · have ht := @ProcessPropertiesFile_tests parse ctx file
      rw [h] at ht
      simp only at ht
      exact ⟨by rw [ht.1]; exact hinv.keysNodup, by rw [ht.2]; exact hinv.scoredNodup,
        by rw [ht.1, ht.2]; exact hinv.scoredSub, by rw [ht.1, ht.2]; exact hinv.unscoredZero,
        by rw [ht.1]; exact hinv.inRange⟩
    · split at h
      · cases h; exact hinv
      · rename_i tid htid
        split at h
        · cases h
        · rename_i ctx1 h1
          have hinv1 : CtxInv ctx1 := by
            split at h1
            · exact registerInput_inv hinv h1
            · cases h1; exact hinv
          split at h
          · exact registerOutput_inv hinv1 h
          · cases h; exact hinv1

theorem scanArchive_inv {parse : PropsParser} (ar : List ZipFile) : ∀ (ctx ctx2 : ArchiveCtx),
    CtxInv ctx → scanArchive parse ctx ar = (none, ctx2) → CtxInv ctx2 := by
  induction ar with
  | nil =>
    intro ctx ctx2 hinv h
    simp [scanArchive] at h
    subst h; exact hinv
  | cons f rest ih =>
    intro ctx ctx2 hinv h
    unfold scanArchive at h
    split at h
    · exact ih ctx ctx2 hinv h
    · split at h
      · cases h
      · rename_i ctx1 h1
        exact ih ctx1 ctx2 (ProcessArchiveFile_inv hinv h1) h


/-! ## Facts about 64-bit arithmetic -/

theorem wrap64_of_range {x : Int} (h1 : minInt64 ≤ x) (h2 : x ≤ maxInt64) : wrap64 x = x := by
  unfold wrap64; unfold minInt64 at h1; unfold maxInt64 at h2; omega

theorem wrap64_range (x : Int) : minInt64 ≤ wrap64 x ∧ wrap64 x ≤ maxInt64 := by
  unfold wrap64 minInt64 maxInt64; omega

theorem wrap64_sub_wrap (a b : Int) : wrap64 (wrap64 a - b) = wrap64 (a - b) := by
  unfold wrap64; omega

theorem remainingScore_eq (tests : List (Int × archiveTest)) (l : List Int) :
    ∀ total : Int, minInt64 ≤ total → total ≤ maxInt64 →
      remainingScore tests l total =
        wrap64 (total - (l.map (fun t => (mapGet tests t).Score)).sum) := by
  induction l with
  | nil =>
    intro total h1 h2
    simp [remainingScore, wrap64_of_range h1 h2]
  | cons t ts ih =>
    intro total _ _
    have hr := wrap64_range (total - (mapGet tests t).Score)
    simp only [remainingScore, goSub, List.map_cons, List.sum_cons]
    rw [ih _ hr.1 hr.2, wrap64_sub_wrap]
    congr 1
    ring

/-! ## Facts about the assignment loop -/

theorem scoreSum_mapSet (m : List (Int × archiveTest)) (k : Int) (v : archiveTest) :
    scoreSum (mapSet m k v) = scoreSum m - (mapGet m k).Score + v.Score := by
  induction m with
  | nil => simp [mapSet, scoreSum, mapGet, mapLookup]; rfl
  | cons p rest ih =>
    obtain ⟨a, b⟩ := p
    by_cases h : a = k
    · simp [mapSet, scoreSum, mapGet, mapLookup, h]
      ring
    · simp only [scoreSum, mapGet] at ih
      simp [mapSet, scoreSum, mapGet, mapLookup, h, ih]
      ring

theorem assignLoop_sum (perTest toSub : Int) (ids : List Int) :
    ∀ (tests : List (Int × archiveTest)) (k : Int), ids.Nodup →
      (∀ i ∈ ids, (mapGet tests i).Score = 0) →
      scoreSum (assignLoop perTest toSub tests ids k) =
        scoreSum tests + min (ids.length : Int) (max 0 (toSub - k)) * goSub perTest 1 +
          ((ids.length : Int) - min (ids.length : Int) (max 0 (toSub - k))) * perTest := by
  induction ids with
  | nil => intro tests k _ _; simp [assignLoop]
  | cons i rest ih =>
    intro tests k hnd hz
    have hi : (mapGet tests i).Score = 0 := hz i (List.mem_cons_self _ _)
    have hnd2 := List.nodup_cons.mp hnd
    unfold assignLoop
    rw [if_neg (by rw [hi]; decide)]
    simp only
    rw [ih _ (k + 1) hnd2.2]
    · rw [scoreSum_mapSet, hi]
      simp only [List.length_cons, Nat.cast_add, Nat.cast_one]
      by_cases hk : k < toSub
      · rw [if_pos hk]
        have e1 : min ((rest.length : Int) + 1) (max 0 (toSub - k)) =
            min (rest.length : Int) (max 0 (toSub - (k + 1))) + 1 := by omega
        rw [e1]; ring
      · rw [if_neg hk]
        have e1 : min ((rest.length : Int) + 1) (max 0 (toSub - k)) = 0 := by omega
        have e2 : min (rest.length : Int) (max 0 (toSub - (k + 1))) = 0 := by omega
        rw [e1, e2]; ring
    · intro j hj
      rw [mapGet_mapSet, if_neg (by rintro rfl; exact hnd2.1 hj)]
      exact hz j (List.mem_cons_of_mem _ hj)


/-! ## Facts about scored and unscored tests -/

theorem scoreSum_eq_keys (m : List (Int × archiveTest)) (h : (mapKeys m).Nodup) :
    scoreSum m = ((mapKeys m).map (fun k => (mapGet m k).Score)).sum := by
  induction m with
  | nil => simp [scoreSum, mapKeys]
  | cons p rest ih =>
    obtain ⟨a, b⟩ := p
    simp only [mapKeys, List.map_cons, List.nodup_cons] at h
    have ih2 := ih h.2
    simp only [scoreSum, mapKeys, List.map_cons, List.sum_cons, List.map_map] at ih2 ⊢
    rw [ih2]
    congr 1
    · simp [mapGet, mapLookup]
    · congr 1
      apply List.map_congr_left
      intro p hp
      have hne : ¬ a = p.1 := by
        intro e
        apply h.1
        rw [e]
        exact List.mem_map_of_mem Prod.fst hp
      simp [mapGet, mapLookup, hne]

theorem filter_scored_perm {ctx : ArchiveCtx} (hinv : CtxInv ctx) :
    ((mapKeys ctx.tests).filter (fun id => decide (id ∈ ctx.scoredTests))).Perm ctx.scoredTests := by
  rw [List.perm_ext_iff_of_nodup (hinv.keysNodup.filter _) hinv.scoredNodup]
  intro a
  simp only [List.mem_filter, decide_eq_true_eq]
  constructor
  · exact fun h => h.2
  · exact fun h => ⟨hinv.scoredSub a h, h⟩

theorem keys_split_perm (ctx : ArchiveCtx) :
    (((mapKeys ctx.tests).filter (fun id => decide (id ∈ ctx.scoredTests))) ++
      ((mapKeys ctx.tests).filter (fun id => decide (id ∉ ctx.scoredTests)))).Perm
      (mapKeys ctx.tests) := by
  have h := List.filter_append_perm (fun id => decide (id ∈ ctx.scoredTests)) (mapKeys ctx.tests)
  have e : (fun x : Int => !decide (x ∈ ctx.scoredTests)) =
      (fun id => decide (id ∉ ctx.scoredTests)) := by
    funext x; simp
  rw [e] at h
  exact h

theorem scoreSum_eq_explicitSum {ctx : ArchiveCtx} (hinv : CtxInv ctx) :
    scoreSum ctx.tests = explicitSum ctx := by
  rw [scoreSum_eq_keys _ hinv.keysNodup]
  have h1 := ((keys_split_perm ctx).map (fun k => (mapGet ctx.tests k).Score)).sum_eq
  rw [← h1, List.map_append, List.sum_append]
  have h2 := ((filter_scored_perm hinv).map (fun k => (mapGet ctx.tests k).Score)).sum_eq
  rw [h2]
  have h3 : (List.map (fun k => (mapGet ctx.tests k).Score)
      (List.filter (fun id => decide (id ∉ ctx.scoredTests)) (mapKeys ctx.tests))).sum = 0 := by
    apply List.sum_eq_zero
    intro x hx
    simp only [List.mem_map, List.mem_filter, decide_eq_true_eq] at hx
    obtain ⟨k, ⟨_, hk⟩, rfl⟩ := hx
    exact hinv.unscoredZero k hk
  rw [h3]
  simp [explicitSum]

theorem unscoredIDs_perm (visit scored : List Int) :
    (unscoredIDs visit scored).Perm (visit.filter (fun id => decide (id ∉ scored))) :=
  List.perm_insertionSort _ _

theorem unscoredIDs_facts {ctx : ArchiveCtx} (hinv : CtxInv ctx) {visit : List Int}
    (hv : visit.Perm (mapKeys ctx.tests)) :
    (unscoredIDs visit ctx.scoredTests).Nodup ∧
    (∀ i, i ∈ unscoredIDs visit ctx.scoredTests ↔ (i ∈ mapKeys ctx.tests ∧ i ∉ ctx.scoredTests)) ∧
    ((unscoredIDs visit ctx.scoredTests).length : Int) =
      (ctx.tests.length : Int) - (ctx.scoredTests.length : Int) := by
  have hp := unscoredIDs_perm visit ctx.scoredTests
  have hp2 : (unscoredIDs visit ctx.scoredTests).Perm
      ((mapKeys ctx.tests).filter (fun id => decide (id ∉ ctx.scoredTests))) :=
    hp.trans (hv.filter _)
  refine ⟨?_, ?_, ?_⟩
  · exact hp2.nodup_iff.mpr (hinv.keysNodup.filter _)
  · intro i
    rw [hp2.mem_iff]
    simp
  · have h1 := (keys_split_perm ctx).length_eq
    have h2 := (filter_scored_perm hinv).length_eq
    have h3 := hp2.length_eq
    rw [List.length_append, h2, ← h3, length_mapKeys] at h1
    omega


/-! ## Score inference -/

theorem inferScores_eq (ord : MapOrder) (ctx : ArchiveCtx)
    (hstrict : ctx.scoredTests.length < ctx.tests.length) :
    inferScores ord ctx = some { ctx with tests :=
      (assignLoop
        (goAdd (goDiv (remainingScore ctx.tests ctx.scoredTests 100)
          ((ctx.tests.length : Int) - (ctx.scoredTests.length : Int))) 1)
        (((ctx.tests.length : Int) - (ctx.scoredTests.length : Int)) -
          goMod (remainingScore ctx.tests ctx.scoredTests 100)
            ((ctx.tests.length : Int) - (ctx.scoredTests.length : Int)))
        ctx.tests (unscoredIDs (ord.collect (mapKeys ctx.tests)) ctx.scoredTests) 0) } := by
  unfold inferScores
  rw [if_pos (by omega)]
  simp only
  rw [if_neg (by omega)]

theorem split_total (r n : Int) (h0 : 0 ≤ r) (hr : r ≤ maxInt64) (hn : 0 < n) :
    min n (max 0 ((n - goMod r n) - 0)) * goSub (goAdd (goDiv r n) 1) 1 +
      (n - min n (max 0 ((n - goMod r n) - 0))) * goAdd (goDiv r n) 1 = r := by
  have hq : Int.tdiv r n = r / n := Int.tdiv_eq_ediv h0 (le_of_lt hn)
  have hm : Int.tmod r n = r % n := Int.tmod_eq_emod h0 (le_of_lt hn)
  have hm0 : 0 ≤ r % n := Int.emod_nonneg r (ne_of_gt hn)
  have hm1 : r % n < n := Int.emod_lt_of_pos r hn
  have hq0 : 0 ≤ r / n := Int.ediv_nonneg h0 (le_of_lt hn)
  have hqr : r / n ≤ r := Int.ediv_le_self n h0
  have hdm : n * (r / n) + r % n = r := Int.ediv_add_emod r n
  unfold maxInt64 at hr
  have hdiv : goDiv r n = r / n := by
    unfold goDiv
    rw [hq]
    exact wrap64_of_range (by unfold minInt64; omega) (by unfold maxInt64; omega)
  have hsub : goSub (goAdd (r / n) 1) 1 = r / n := by
    unfold goSub goAdd
    rw [wrap64_sub_wrap]
    have : r / n + 1 - 1 = r / n := by ring
    rw [this]
    exact wrap64_of_range (by unfold minInt64; omega) (by unfold maxInt64; omega)
  rw [hdiv, hsub]
  unfold goMod
  rw [hm]
  have e1 : min n (max 0 ((n - r % n) - 0)) = n - r % n := by omega
  rw [e1]
  by_cases hz : r % n = 0
  · rw [hz] at hdm ⊢
    simp only [sub_zero, sub_self, zero_mul, add_zero]
    linarith
  · have hn2 : 2 ≤ n := by omega
    have hq2 : r / n ≤ 4611686018427387903 := by
      by_contra hc
      have : 4611686018427387904 ≤ r / n := by omega
      have h3 : n * 4611686018427387904 ≤ n * (r / n) := Int.mul_le_mul_of_nonneg_left this (le_of_lt hn)
      omega
    have hadd : goAdd (r / n) 1 = r / n + 1 := by
      unfold goAdd
      exact wrap64_of_range (by unfold minInt64; omega) (by unfold maxInt64; omega)
    rw [hadd]
    have : (n - r % n) * (r / n) + (n - (n - r % n)) * (r / n + 1) = n * (r / n) + r % n := by ring
    rw [this, hdm]

theorem inferScores_total {ord : MapOrder} {ctx : ArchiveCtx} (hinv : CtxInv ctx)
    (hord : ord.Valid) (hstrict : ctx.scoredTests.length < ctx.tests.length)
    (hle : explicitSum ctx ≤ 100) (hge : 100 - maxInt64 ≤ explicitSum ctx) :
    ∃ ctx1, inferScores ord ctx = some ctx1 ∧ scoreSum ctx1.tests = 100 ∧
      ctx1.props = ctx.props := by
  refine ⟨_, inferScores_eq ord ctx hstrict, ?_, rfl⟩
  simp only
  have hf := unscoredIDs_facts hinv (hord (mapKeys ctx.tests)).2.1
  have hrem : remainingScore ctx.tests ctx.scoredTests 100 = 100 - explicitSum ctx := by
    rw [remainingScore_eq _ _ 100 (by decide) (by decide)]
    unfold explicitSum at hle hge ⊢
    exact wrap64_of_range (by unfold minInt64; unfold maxInt64 at hge; omega)
      (by unfold maxInt64 at hge ⊢; omega)
  rw [assignLoop_sum _ _ _ _ _ hf.1
    (fun i hi => hinv.unscoredZero i ((hf.2.1 i).mp hi).2)]
  rw [hf.2.2, add_assoc, split_total _ _ (by rw [hrem]; omega) (by rw [hrem]; omega) (by omega)]
  rw [hrem, scoreSum_eq_explicitSum hinv]
  ring


/-! ## The storage calls of a run -/

theorem assignLoop_nodup (perTest toSub : Int) (ids : List Int) :
    ∀ (tests : List (Int × archiveTest)) (k : Int), (mapKeys tests).Nodup →
      (mapKeys (assignLoop perTest toSub tests ids k)).Nodup := by
  induction ids with
  | nil => intro tests k h; simpa [assignLoop] using h
  | cons i rest ih =>
    intro tests k h
    unfold assignLoop
    split
    · exact ih tests k h
    · exact ih _ _ (nodup_mapKeys_mapSet _ _ _ h)

theorem inferScores_nodup {ord : MapOrder} {ctx ctx1 : ArchiveCtx}
    (h : inferScores ord ctx = some ctx1) (hk : (mapKeys ctx.tests).Nodup) :
    (mapKeys ctx1.tests).Nodup := by
  unfold inferScores at h
  split at h
  · simp only at h
    split at h
    · cases h
    · cases h
      exact assignLoop_nodup _ _ _ _ _ hk
  · cases h; exact hk

theorem createLoop_calls (base : BaseAPI) (pbID : Int) (tests : List (Int × archiveTest))
    (order : List Int) : ∀ (tr : List StoreCall) (created : List (Int × Int))
      (tr2 : List StoreCall) (created2 : List (Int × Int)),
      createLoop base pbID tests order tr created = (none, tr2, created2) →
      tr2.filterMap createArgs =
        tr.filterMap createArgs ++ order.map (fun k => (k, (mapGet tests k).Score)) := by
  induction order with
  | nil =>
    intro tr created tr2 created2 h
    simp only [createLoop, Prod.mk.injEq, true_and] at h
    simp [h.1]
  | cons testID rest ih =>
    intro tr created tr2 created2 h
    unfold createLoop at h
    simp only at h
    split at h
    · cases h
    · split at h
      · cases h
      · split at h
        · cases h
        · split at h
          · cases h
          · split at h
            · cases h
            · split at h
              · cases h
              · split at h
                · cases h
                · have := ih _ _ _ _ h
                  rw [this]
                  simp [List.filterMap_append, createArgs]

theorem createLoop_stops (base : BaseAPI) (pbID : Int) (tests : List (Int × archiveTest))
    (order : List Int) : ∀ (tr : List StoreCall) (created : List (Int × Int)),
      (createLoop base pbID tests order tr created).1 ≠ some (.returned none) := by
  induction order with
  | nil => intro tr created; simp [createLoop]
  | cons testID rest ih =>
    intro tr created
    unfold createLoop
    simp only
    split
    · simp
    · split
      · simp
      · split
        · simp
        · split
          · simp
          · split
            · simp
            · split
              · simp
              · split
                · simp
                · exact ih _ _

theorem subtaskLoop_calls (base : BaseAPI) (pbID : Int) (stks : List (Int × Subtask))
    (created : List (Int × Int)) (order : List Int) : ∀ (tr : List StoreCall),
      (subtaskLoop base pbID stks created order tr).2.filterMap createArgs =
        tr.filterMap createArgs := by
  induction order with
  | nil => intro tr; simp [subtaskLoop]
  | cons stkId rest ih =>
    intro tr
    unfold subtaskLoop
    simp only
    split
    · rfl
    · split
      · simp [List.filterMap_append, createArgs]
      · rw [ih]
        simp [List.filterMap_append, createArgs]

theorem applyProps_calls (ord : MapOrder) (base : BaseAPI) (pbID : Int) (p : Properties)
    (created : List (Int × Int)) (tr : List StoreCall) :
    (applyProps ord base pbID p created tr).2.filterMap createArgs =
      tr.filterMap createArgs := by
  unfold applyProps
  simp only
  split
  · rename_i e tr1 h1
    split at h1
    · split at h1
      · cases h1; simp [List.filterMap_append, createArgs]
      · cases h1
    · cases h1
  · rename_i tr1 h1
    have htr1 : tr1.filterMap createArgs = tr.filterMap createArgs := by
      split at h1
      · split at h1
        · cases h1
        · cases h1; simp [List.filterMap_append, createArgs]
      · cases h1; rfl
    split
    · exact htr1
    · split
      · simp [List.filterMap_append, createArgs, htr1]
      · rw [subtaskLoop_calls]
        simp [List.filterMap_append, createArgs, htr1]

theorem commitArchive_calls {ord : MapOrder} {base : BaseAPI} {pbID : Int} {ctx : ArchiveCtx}
    {tr : List StoreCall} (h : commitArchive ord base pbID ctx = (.returned none, tr)) :
    tr.filterMap createArgs =
      (ord.create (mapKeys ctx.tests)).map (fun k => (k, (mapGet ctx.tests k).Score)) := by
  unfold commitArchive at h
  split at h
  · cases h
  · split at h
    · rename_i out tr1 cr hc
      simp only [Prod.mk.injEq] at h
      have := createLoop_stops base pbID ctx.tests (ord.create (mapKeys ctx.tests))
        [.OrphanTests pbID] []
      rw [hc, h.1] at this
      exact absurd rfl this
    · rename_i tr1 created hc
      have h1 := createLoop_calls _ _ _ _ _ _ _ _ hc
      simp only [List.filterMap_cons, createArgs, List.filterMap_nil, List.nil_append] at h1
      split at h
      · cases h; exact h1
      · simp only [Prod.mk.injEq] at h
        rw [← h.2, applyProps_calls, h1]


/-! ## The distribution of the leftover points -/

theorem mapGet_of_not_mem {V : Type} [Inhabited V] (m : List (Int × V)) (k : Int)
    (h : k ∉ mapKeys m) : mapGet m k = default := by
  unfold mapGet
  rw [(mapLookup_eq_none m k).mpr h]
  rfl

theorem assignLoop_other (perTest toSub : Int) (ids : List Int) :
    ∀ (tests : List (Int × archiveTest)) (k0 : Int) (key : Int), key ∉ ids →
      (∀ i ∈ ids, (mapGet tests i).Score = 0) → ids.Nodup →
      mapGet (assignLoop perTest toSub tests ids k0) key = mapGet tests key := by
  induction ids with
  | nil => intro tests k0 key _ _ _; simp [assignLoop]
  | cons i rest ih =>
    intro tests k0 key hkey hz hnd
    have hi : (mapGet tests i).Score = 0 := hz i (List.mem_cons_self _ _)
    have hnd2 := List.nodup_cons.mp hnd
    simp only [List.mem_cons, not_or] at hkey
    unfold assignLoop
    rw [if_neg (by rw [hi]; decide)]
    simp only
    rw [ih _ _ key hkey.2 _ hnd2.2]
    · rw [mapGet_mapSet, if_neg (fun e => hkey.1 e.symm)]
    · intro j hj
      rw [mapGet_mapSet, if_neg (by rintro rfl; exact hnd2.1 hj)]
      exact hz j (List.mem_cons_of_mem _ hj)

theorem assignLoop_position (perTest toSub : Int) (ids : List Int) :
    ∀ (tests : List (Int × archiveTest)) (k0 : Int), ids.Nodup →
      (∀ i ∈ ids, (mapGet tests i).Score = 0) →
      ∀ (j : Nat) (i : Int), ids[j]? = some i →
        (mapGet (assignLoop perTest toSub tests ids k0) i).Score =
          if k0 + (j : Int) < toSub then goSub perTest 1 else perTest := by
  induction ids with
  | nil => intro tests k0 _ _ j i h; simp at h
  | cons a rest ih =>
    intro tests k0 hnd hz j i hj
    have ha : (mapGet tests a).Score = 0 := hz a (List.mem_cons_self _ _)
    have hnd2 := List.nodup_cons.mp hnd
    have hz2 : ∀ x ∈ rest, (mapGet (mapSet tests a
        { mapGet tests a with
          Score := if k0 < toSub then goSub perTest 1 else perTest }) x).Score = 0 := by
      intro x hx
      rw [mapGet_mapSet, if_neg (by rintro rfl; exact hnd2.1 hx)]
      exact hz x (List.mem_cons_of_mem _ hx)
    unfold assignLoop
    rw [if_neg (by rw [ha]; decide)]
    simp only
    cases j with
    | zero =>
      simp only [List.getElem?_cons_zero, Option.some.injEq] at hj
      subst hj
      rw [assignLoop_other _ _ _ _ _ _ hnd2.1 hz2 hnd2.2, mapGet_mapSet, if_pos rfl]
      simp
    | succ j2 =>
      simp only [List.getElem?_cons_succ] at hj
      rw [ih _ (k0 + 1) hnd2.2 hz2 j2 i hj]
      have e : k0 + 1 + (j2 : Int) = k0 + ((j2 + 1 : Nat) : Int) := by push_cast; ring
      rw [e]

theorem assignLoop_keys (perTest toSub : Int) (ids : List Int) :
    ∀ (tests : List (Int × archiveTest)) (k0 : Int), (∀ i ∈ ids, i ∈ mapKeys tests) →
      mapKeys (assignLoop perTest toSub tests ids k0) = mapKeys tests := by
  induction ids with
  | nil => intro tests k0 _; simp [assignLoop]
  | cons a rest ih =>
    intro tests k0 hsub
    have ha := hsub a (List.mem_cons_self _ _)
    have hk : ∀ v, mapKeys (mapSet tests a v) = mapKeys tests := by
      intro v; rw [mapKeys_mapSet, if_pos ha]
    unfold assignLoop
    split
    · exact ih tests k0 (fun i hi => hsub i (List.mem_cons_of_mem _ hi))
    · simp only
      rw [ih _ _ (by intro i hi; rw [hk]; exact hsub i (List.mem_cons_of_mem _ hi)), hk]

theorem goDiv_of_nonneg {r n : Int} (h0 : 0 ≤ r) (hr : r ≤ maxInt64) (hn : 0 < n) :
    goDiv r n = r / n := by
  have hq : Int.tdiv r n = r / n := Int.tdiv_eq_ediv h0 (le_of_lt hn)
  have hq0 : 0 ≤ r / n := Int.ediv_nonneg h0 (le_of_lt hn)
  have hqr : r / n ≤ r := Int.ediv_le_self n h0
  unfold goDiv
  rw [hq]
  unfold maxInt64 at hr
  exact wrap64_of_range (by unfold minInt64; omega) (by unfold maxInt64; omega)

theorem goMod_of_nonneg {r n : Int} (h0 : 0 ≤ r) (hn : 0 < n) : goMod r n = r % n :=
  Int.tmod_eq_emod h0 (le_of_lt hn)

theorem perTest_minus_one {r n : Int} (h0 : 0 ≤ r) (hr : r ≤ maxInt64) (hn : 0 < n) :
    goSub (goAdd (r / n) 1) 1 = r / n := by
  have hq0 : 0 ≤ r / n := Int.ediv_nonneg h0 (le_of_lt hn)
  have hqr : r / n ≤ r := Int.ediv_le_self n h0
  unfold goSub goAdd
  rw [wrap64_sub_wrap]
  have : r / n + 1 - 1 = r / n := by ring
  rw [this]
  unfold maxInt64 at hr
  exact wrap64_of_range (by unfold minInt64; omega) (by unfold maxInt64; omega)

theorem perTest_of_remainder {r n : Int} (h0 : 0 ≤ r) (hr : r ≤ maxInt64) (hn : 0 < n)
    (hm : r % n ≠ 0) : goAdd (r / n) 1 = r / n + 1 := by
  have hm0 : 0 ≤ r % n := Int.emod_nonneg r (ne_of_gt hn)
  have hm1 : r % n < n := Int.emod_lt_of_pos r hn
  have hq0 : 0 ≤ r / n := Int.ediv_nonneg h0 (le_of_lt hn)
  have hdm : n * (r / n) + r % n = r := Int.ediv_add_emod r n
  unfold maxInt64 at hr
  have hq2 : r / n ≤ 4611686018427387903 := by
    by_contra hc
    have h4 : 4611686018427387904 ≤ r / n := by omega
    have h3 : n * 4611686018427387904 ≤ n * (r / n) :=
      Int.mul_le_mul_of_nonneg_left h4 (le_of_lt hn)
    omega
  unfold goAdd
  exact wrap64_of_range (by unfold minInt64; omega) (by unfold maxInt64; omega)

theorem sorted_ids_unique {ctx : ArchiveCtx} (hinv : CtxInv ctx) {visit ids : List Int}
    (hv : visit.Perm (mapKeys ctx.tests)) (hsorted : ids.Sorted (fun a b => a < b))
    (hmem : ∀ k, k ∈ ids ↔ (k ∈ mapKeys ctx.tests ∧ k ∉ ctx.scoredTests)) :
    unscoredIDs visit ctx.scoredTests = ids := by
  have hf := unscoredIDs_facts hinv hv
  have hnd : ids.Nodup := hsorted.nodup
  have hperm : (unscoredIDs visit ctx.scoredTests).Perm ids := by
    rw [List.perm_ext_iff_of_nodup hf.1 hnd]
    intro a
    rw [hf.2.1 a, hmem a]
  have hs1 : (unscoredIDs visit ctx.scoredTests).Sorted (fun a b => a ≤ b) :=
    List.sorted_insertionSort _ _
  have hs2 : ids.Sorted (fun a b => a ≤ b) := hsorted.imp (fun h => le_of_lt h)
  exact List.eq_of_perm_of_sorted hperm hs1 hs2


theorem remaining_eq_goSub (ctx : ArchiveCtx) :
    remainingScore ctx.tests ctx.scoredTests 100 = goSub 100 (explicitSum ctx) := by
  rw [remainingScore_eq _ _ 100 (by decide) (by decide)]
  rfl

theorem inferScores_spec {ord : MapOrder} {ctx : ArchiveCtx} (hinv : CtxInv ctx)
    (hord : ord.Valid) (hstrict : ctx.scoredTests.length < ctx.tests.length)
    (hrem : 0 ≤ goSub 100 (explicitSum ctx)) {ids : List Int}
    (hsorted : ids.Sorted (fun a b => a < b))
    (hmem : ∀ k, k ∈ ids ↔ (k ∈ mapKeys ctx.tests ∧ k ∉ ctx.scoredTests)) :
    ∃ ctx1, inferScores ord ctx = some ctx1 ∧
      mapKeys ctx1.tests = mapKeys ctx.tests ∧
      (ids.length : Int) = (ctx.tests.length : Int) - (ctx.scoredTests.length : Int) ∧
      (∀ t, t ∉ ids → mapGet ctx1.tests t = mapGet ctx.tests t) ∧
      (∀ (j : Nat) (i : Int), ids[j]? = some i →
        (mapGet ctx1.tests i).Score =
          if (j : Int) < (ids.length : Int) - goSub 100 (explicitSum ctx) % (ids.length : Int)
          then goSub 100 (explicitSum ctx) / (ids.length : Int)
          else goSub 100 (explicitSum ctx) / (ids.length : Int) + 1) := by
  have hv := (hord (mapKeys ctx.tests)).2.1
  have hf := unscoredIDs_facts hinv hv
  have hid := sorted_ids_unique hinv hv hsorted hmem
  rw [hid] at hf
  have hz : ∀ i ∈ ids, (mapGet ctx.tests i).Score = 0 :=
    fun i hi => hinv.unscoredZero i ((hmem i).mp hi).2
  have hn : (0 : Int) < (ids.length : Int) := by rw [hf.2.2]; omega
  have hr := (wrap64_range (100 - explicitSum ctx)).2
  refine ⟨_, inferScores_eq ord ctx hstrict, ?_, hf.2.2, ?_, ?_⟩
  · simp only
    rw [hid]
    exact assignLoop_keys _ _ _ _ _ (fun i hi => ((hmem i).mp hi).1)
  · intro t ht
    simp only
    rw [hid]
    exact assignLoop_other _ _ _ _ _ _ ht hz hf.1
  · intro j i hj
    simp only
    rw [hid, assignLoop_position _ _ _ _ _ hf.1 hz j i hj, remaining_eq_goSub, ← hf.2.2,
      goDiv_of_nonneg hrem hr hn, goMod_of_nonneg hrem hn, perTest_minus_one hrem hr hn]
    simp only [zero_add]
    split
    · rfl
    · rename_i hlt
      have hjn : j < ids.length := by
        by_contra hc
        rw [List.getElem?_eq_none (by omega)] at hj
        cases hj
      have hm : goSub 100 (explicitSum ctx) % (ids.length : Int) ≠ 0 := by
        intro e
        rw [e] at hlt
        omega
      exact perTest_of_remainder hrem hr hn hm


/-! ## Outcomes of the commit phase -/

theorem subtaskLoop_class (base : BaseAPI) (pbID : Int) (stks : List (Int × Subtask))
    (created : List (Int × Int)) (order : List Int) : ∀ tr : List StoreCall,
      CommitOutcome (.returned (subtaskLoop base pbID stks created order tr).1) := by
  induction order with
  | nil => intro tr; right; left; rfl
  | cons stkId rest ih =>
    intro tr
    unfold subtaskLoop
    simp only
    split
    · right; right; right; right; exact ⟨_, rfl⟩
    · split
      · right; right; right; left; exact ⟨_, rfl⟩
      · exact ih _

theorem applyProps_class (ord : MapOrder) (base : BaseAPI) (pbID : Int) (p : Properties)
    (created : List (Int × Int)) (tr : List StoreCall) :
    CommitOutcome (.returned (applyProps ord base pbID p created tr).1) := by
  unfold applyProps
  simp only
  split
  · rename_i e tr1 h1
    split at h1
    · split at h1
      · cases h1; right; right; right; left; exact ⟨_, rfl⟩
      · cases h1
    · cases h1
  · split
    · right; left; rfl
    · split
      · right; right; right; left; exact ⟨_, rfl⟩
      · exact subtaskLoop_class _ _ _ _ _ _

theorem createLoop_class (base : BaseAPI) (pbID : Int) (tests : List (Int × archiveTest))
    (order : List Int) : ∀ (tr : List StoreCall) (created : List (Int × Int)) (o : Outcome),
      (createLoop base pbID tests order tr created).1 = some o → CommitOutcome o := by
  induction order with
  | nil => intro tr created o h; simp [createLoop] at h
  | cons testID rest ih =>
    intro tr created o h
    unfold createLoop at h
    simp only at h
    split at h
    · cases h; right; right; left; exact ⟨_, _, rfl⟩
    · split at h
      · cases h; left; rfl
      · split at h
        · cases h; right; right; right; left; exact ⟨_, rfl⟩
        · split at h
          · cases h; right; right; right; left; exact ⟨_, rfl⟩
          · split at h
            · cases h; left; rfl
            · split at h
              · cases h; right; right; right; left; exact ⟨_, rfl⟩
              · split at h
                · cases h; right; right; right; left; exact ⟨_, rfl⟩
                · exact ih _ _ _ h

theorem commitArchive_class (ord : MapOrder) (base : BaseAPI) (pbID : Int) (ctx : ArchiveCtx) :
    CommitOutcome (commitArchive ord base pbID ctx).1 := by
  unfold commitArchive
  split
  · right; right; left; exact ⟨_, _, rfl⟩
  · split
    · rename_i out tr cr hc
      exact createLoop_class _ _ _ _ _ _ out (by rw [hc])
    · split
      · right; left; rfl
      · exact applyProps_class _ _ _ _ _ _

theorem commitOutcome_ne_missing {o : Outcome} (h : CommitOutcome o) (k : Int) :
    o ≠ .returned (some (errMissingHalf k)) := by
  rcases h with h | h | ⟨c, t, h⟩ | ⟨t, h⟩ | ⟨t, h⟩ <;> subst h
  · simp
  · simp
  · simp [errMissingHalf]
  · simp [errMissingHalf]
  · simp [errMissingHalf, errTestNotFound]

theorem commitOutcome_ne_mismatch {o : Outcome} (h : CommitOutcome o) :
    o ≠ .returned (some errMismatch) := by
  rcases h with h | h | ⟨c, t, h⟩ | ⟨t, h⟩ | ⟨t, h⟩ <;> subst h
  · simp
  · simp
  · simp [errMismatch]
  · simp [errMismatch]
  · simp [errMismatch, errTestNotFound]

theorem errMismatch_ne_missing (k : Int) : errMismatch ≠ errMissingHalf k := by
  simp [errMismatch, errMissingHalf]

theorem findMissingHalf_some (tests : List (Int × archiveTest)) (order : List Int) (k : Int)
    (h : findMissingHalf tests order = some k) : k ∈ order ∧ ¬ hasBothHalves tests k := by
  induction order with
  | nil => simp [findMissingHalf] at h
  | cons a rest ih =>
    unfold findMissingHalf at h
    simp only at h
    split at h
    · rename_i hm
      cases h
      refine ⟨List.mem_cons_self _ _, ?_⟩
      unfold hasBothHalves
      rcases hm with hm | hm <;> simp [hm]
    · have := ih h
      exact ⟨List.mem_cons_of_mem _ this.1, this.2⟩

theorem findMissingHalf_none (tests : List (Int × archiveTest)) (order : List Int)
    (h : findMissingHalf tests order = none) : ∀ k ∈ order, hasBothHalves tests k := by
  induction order with
  | nil => intro k hk; simp at hk
  | cons a rest ih =>
    unfold findMissingHalf at h
    simp only at h
    split at h
    · cases h
    · rename_i hm
      intro k hk
      simp only [List.mem_cons] at hk
      rcases hk with rfl | hk
      · unfold hasBothHalves
        simp only [not_or] at hm
        exact hm
      · exact ih h k hk


/-! ## Scanning a decimal integer -/

theorem digit_not_space {c : Char} (h : isDigit c = true) : isSpace c = false := by
  unfold isDigit at h
  unfold isSpace
  simp only [Bool.and_eq_true, decide_eq_true_eq] at h
  simp only [Bool.or_eq_false_iff, Bool.and_eq_false_imp, decide_eq_true_eq,
    decide_eq_false_iff_not]
  omega

theorem digit_ne {c d : Char} (h : isDigit c = true) (hd : isDigit d = false) : c ≠ d := by
  intro e
  rw [e, hd] at h
  cases h

theorem takeWhile_run (p : Char → Bool) (ds : Str) (c : Char) (rest : Str)
    (hds : ds.all p = true) (hc : p c = false) :
    (ds ++ c :: rest).takeWhile p = ds ∧ (ds ++ c :: rest).dropWhile p = c :: rest := by
  induction ds with
  | nil => simp [List.takeWhile, List.dropWhile, hc]
  | cons d ds ih =>
    simp only [List.all_cons, Bool.and_eq_true] at hds
    have := ih hds.2
    simp [List.takeWhile, List.dropWhile, hds.1, this.1, this.2]

theorem signedInRange_of_range (neg : Bool) (ds : Str)
    (h1 : minInt64 ≤ decimalNumber neg ds) (h2 : decimalNumber neg ds ≤ maxInt64) :
    signedInRange neg (decimalValue ds) = some (decimalNumber neg ds) := by
  unfold decimalNumber minInt64 maxInt64 at *
  unfold signedInRange
  cases neg with
  | true =>
    simp only [if_true] at h1 h2 ⊢
    rw [if_pos (by omega)]
  | false =>
    simp only [Bool.false_eq_true, if_false] at h1 h2 ⊢
    rw [if_pos (by omega)]

theorem scanDigits_run (neg : Bool) (ds : Str) (c : Char) (rest : Str) (hne : ds ≠ [])
    (hds : ds.all isDigit = true) (hc : isDigit c = false)
    (h1 : minInt64 ≤ decimalNumber neg ds) (h2 : decimalNumber neg ds ≤ maxInt64) :
    scanDigits neg (ds ++ c :: rest) = some (decimalNumber neg ds, c :: rest) := by
  have ht := takeWhile_run isDigit ds c rest hds hc
  unfold scanDigits
  simp only [ht.1, ht.2, hne, if_false, signedInRange_of_range neg ds h1 h2,
    Option.map_some']

theorem scanInt_decimal (neg : Bool) (ds : Str) (c : Char) (rest : Str) (hne : ds ≠ [])
    (hds : ds.all isDigit = true) (hc : isDigit c = false)
    (h1 : minInt64 ≤ decimalNumber neg ds) (h2 : decimalNumber neg ds ≤ maxInt64) :
    scanInt (decimalText neg ds ++ c :: rest) = some (decimalNumber neg ds, c :: rest) := by
  cases neg with
  | true =>
    have : decimalText true ds ++ c :: rest = '-' :: (ds ++ c :: rest) := by
      simp [decimalText]
    rw [this]
    unfold scanInt
    have hs : skipSpace ('-' :: (ds ++ c :: rest)) = some ('-' :: (ds ++ c :: rest)) := by
      unfold skipSpace
      rw [if_neg (by decide), if_neg (by decide)]
    rw [hs]
    simp only [if_true]
    exact scanDigits_run true ds c rest hne hds hc h1 h2
  | false =>
    have : decimalText false ds ++ c :: rest = ds ++ c :: rest := by
      simp [decimalText]
    rw [this]
    cases ds with
    | nil => exact absurd rfl hne
    | cons d ds2 =>
      have hd : isDigit d = true := by
        simp only [List.all_cons, Bool.and_eq_true] at hds
        exact hds.1
      unfold scanInt
      have hs : skipSpace (d :: ds2 ++ c :: rest) = some (d :: ds2 ++ c :: rest) := by
        simp only [List.cons_append]
        unfold skipSpace
        rw [if_neg (digit_ne hd (by decide)), digit_not_space hd]
        simp
      rw [hs]
      simp only [List.cons_append]
      rw [if_neg (digit_ne hd (by decide)), if_neg (digit_ne hd (by decide))]
      exact scanDigits_run false (d :: ds2) c rest hne hds hc h1 h2

theorem parseTestPrefix_decimal (neg : Bool) (ds rest : Str) (hne : ds ≠ [])
    (hds : ds.all isDigit = true)
    (h1 : minInt64 ≤ decimalNumber neg ds) (h2 : decimalNumber neg ds ≤ maxInt64) :
    parseTestPrefix (decimalText neg ds ++ '-' :: rest) = some (decimalNumber neg ds) := by
  unfold parseTestPrefix
  rw [scanInt_decimal neg ds '-' rest hne hds (by decide) h1 h2]
  simp

theorem Atoi_decimal (neg : Bool) (ds : Str) (hne : ds ≠ []) (hds : ds.all isDigit = true)
    (h1 : minInt64 ≤ decimalNumber neg ds) (h2 : decimalNumber neg ds ≤ maxInt64) :
    Atoi (decimalText neg ds) = some (decimalNumber neg ds) := by
  cases neg with
  | true =>
    have : decimalText true ds = '-' :: ds := by simp [decimalText]
    rw [this]
    simp only [Atoi, hne, if_false, hds, if_true]
    exact signedInRange_of_range true ds h1 h2
  | false =>
    have : decimalText false ds = ds := by simp [decimalText]
    rw [this]
    cases ds with
    | nil => exact absurd rfl hne
    | cons d ds2 =>
      have hd : isDigit d = true := by
        simp only [List.all_cons, Bool.and_eq_true] at hds
        exact hds.1
      have hm : d ≠ '-' := digit_ne hd (by decide)
      have hp : d ≠ '+' := digit_ne hd (by decide)
      unfold Atoi
      split
      · rename_i heq
        simp only [List.cons.injEq] at heq
        exact absurd heq.1 hm
      · rename_i heq
        simp only [List.cons.injEq] at heq
        exact absurd heq.1 hp
      · simp only [hds, if_true, reduceCtorEq, if_false]
        exact signedInRange_of_range false (d :: ds2) h1 h2


/-! ## Extension and last token of a name -/

theorem pathExt_of_ext (front ext : Str) (hdot : '.' ∉ ext) (hslash : '/' ∉ ext) :
    pathExt (front ++ '.' :: ext) = '.' :: ext := by
  unfold pathExt
  have hrev : (front ++ '.' :: ext).reverse = ext.reverse ++ '.' :: front.reverse := by
    simp
  have hall : ext.reverse.all (fun c => c != '.' && c != '/') = true := by
    rw [List.all_eq_true]
    intro c hc
    rw [List.mem_reverse] at hc
    have h1 : c ≠ '.' := fun e => hdot (e ▸ hc)
    have h2 : c ≠ '/' := fun e => hslash (e ▸ hc)
    simp [h1, h2]
  have ht := takeWhile_run (fun c => c != '.' && c != '/') ext.reverse '.' front.reverse hall
    (by decide)
  simp only [hrev, ht.2, ht.1, if_true, List.reverse_reverse]

theorem TrimSuffix_append (front suffix : Str) : TrimSuffix (front ++ suffix) suffix = front := by
  unfold TrimSuffix HasSuffix
  have : suffix.isSuffixOf (front ++ suffix) = true := by
    rw [List.isSuffixOf_iff_suffix]
    exact List.suffix_append front suffix
  rw [if_pos this]
  simp

theorem splitDot_ne_nil (s : Str) : splitDot s ≠ [] := by
  cases s with
  | nil => simp [splitDot]
  | cons c cs =>
    unfold splitDot
    split
    · simp
    · split <;> simp

theorem splitDot_no_dot (s : Str) (h : '.' ∉ s) : splitDot s = [s] := by
  induction s with
  | nil => rfl
  | cons c cs ih =>
    simp only [List.mem_cons, not_or] at h
    unfold splitDot
    rw [if_neg (fun e => h.1 e.symm), ih h.2]

theorem splitDot_length (s t : Str) : 2 ≤ (splitDot (s ++ '.' :: t)).length := by
  induction s with
  | nil =>
    simp only [List.nil_append]
    unfold splitDot
    rw [if_pos rfl]
    have := splitDot_ne_nil t
    cases hsp : splitDot t with
    | nil => exact absurd hsp this
    | cons a b => simp
  | cons c cs ih =>
    simp only [List.cons_append]
    unfold splitDot
    split
    · simp only [List.length_cons]; omega
    · cases hsp : splitDot (cs ++ '.' :: t) with
      | nil => rw [hsp] at ih; simp at ih
      | cons hd tl => rw [hsp] at ih; simpa using ih

theorem splitDot_getLast (s t : Str) (h : '.' ∉ t) :
    (splitDot (s ++ '.' :: t)).getLast? = some t := by
  induction s with
  | nil =>
    simp only [List.nil_append]
    unfold splitDot
    rw [if_pos rfl, splitDot_no_dot t h]
    rfl
  | cons c cs ih =>
    have hlen := splitDot_length cs t
    simp only [List.cons_append]
    unfold splitDot
    cases hsp : splitDot (cs ++ '.' :: t) with
    | nil => rw [hsp] at hlen; simp at hlen
    | cons hd tl =>
      rw [hsp] at ih hlen
      cases tl with
      | nil => simp at hlen
      | cons x xs =>
        rw [List.getLast?_cons_cons] at ih
        split
        · rw [List.getLast?_cons_cons, List.getLast?_cons_cons]
          exact ih
        · simp only
          rw [List.getLast?_cons_cons]
          exact ih


/-! ## The commit phase on a validated context -/

theorem assignLoop_halves (perTest toSub : Int) (ids : List Int) :
    ∀ (tests : List (Int × archiveTest)) (k0 : Int),
      sameHalves (assignLoop perTest toSub tests ids k0) tests := by
  induction ids with
  | nil => intro tests k0 k; simp [assignLoop]
  | cons i rest ih =>
    intro tests k0
    unfold assignLoop
    split
    · exact ih tests k0
    · intro k
      have h1 := ih (mapSet tests i { mapGet tests i with
        Score := if k0 < toSub then goSub perTest 1 else perTest }) (k0 + 1) k
      simp only
      rw [h1.1, h1.2, mapGet_mapSet]
      split
      · rename_i e; subst e; exact ⟨rfl, rfl⟩
      · exact ⟨rfl, rfl⟩

theorem inferScores_some (ord : MapOrder) (ctx : ArchiveCtx) :
    ∃ ctx1, inferScores ord ctx = some ctx1 ∧ ctx1.props = ctx.props ∧
      sameHalves ctx1.tests ctx.tests ∧
      (ord.Valid → mapKeys ctx1.tests = mapKeys ctx.tests) := by
  unfold inferScores
  split
  · rename_i hne
    simp only
    rw [if_neg (by omega)]
    refine ⟨_, rfl, rfl, assignLoop_halves _ _ _ _ _, ?_⟩
    intro hord
    apply assignLoop_keys
    intro i hi
    have hp := (unscoredIDs_perm (ord.collect (mapKeys ctx.tests)) ctx.scoredTests).mem_iff.mp hi
    rw [List.mem_filter] at hp
    exact (hord (mapKeys ctx.tests)).2.1.mem_iff.mp hp.1
  · exact ⟨ctx, rfl, rfl, fun k => ⟨rfl, rfl⟩, fun _ => rfl⟩

theorem createLoop_no_panic (base : BaseAPI) (pbID : Int) (tests : List (Int × archiveTest))
    (order : List Int) : ∀ (tr : List StoreCall) (created : List (Int × Int)),
      (∀ k ∈ order, hasBothHalves tests k) →
      (createLoop base pbID tests order tr created).1 ≠ some .panicked := by
  induction order with
  | nil => intro tr created _; simp [createLoop]
  | cons testID rest ih =>
    intro tr created hall
    have hh := hall testID (List.mem_cons_self _ _)
    unfold hasBothHalves at hh
    unfold createLoop
    simp only
    split
    · simp
    · split
      · rename_i hin
        exact absurd hin hh.1
      · split
        · simp
        · split
          · simp
          · split
            · rename_i hout
              exact absurd hout hh.2
            · split
              · simp
              · split
                · simp
                · exact ih _ _ (fun k hk => hall k (List.mem_cons_of_mem _ hk))

theorem createLoop_created (base : BaseAPI) (pbID : Int) (tests : List (Int × archiveTest))
    (order : List Int) : ∀ (tr : List StoreCall) (created : List (Int × Int))
      (tr2 : List StoreCall) (created2 : List (Int × Int)),
      createLoop base pbID tests order tr created = (none, tr2, created2) →
      ∀ k ∈ mapKeys created2, k ∈ mapKeys created ∨ k ∈ order := by
  induction order with
  | nil =>
    intro tr created tr2 created2 h k hk
    simp only [createLoop, Prod.mk.injEq, true_and] at h
    rw [← h.2] at hk
    exact Or.inl hk
  | cons testID rest ih =>
    intro tr created tr2 created2 h k hk
    unfold createLoop at h
    simp only at h
    split at h
    · cases h
    · split at h
      · cases h
      · split at h
        · cases h
        · split at h
          · cases h
          · split at h
            · cases h
            · split at h
              · cases h
              · split at h
                · cases h
                · rcases ih _ _ _ _ h k hk with h1 | h1
                  · rw [mem_mapKeys_mapSet] at h1
                    rcases h1 with h1 | h1
                    · right; rw [h1]; exact List.mem_cons_self _ _
                    · left; exact h1
                  · right; exact List.mem_cons_of_mem _ h1

theorem resolveTests_error (created : List (Int × Int)) (tests : List Int) (t : Int)
    (ht : t ∈ tests) (hnone : mapLookup created t = none) :
    ∀ out : List Int, ∃ u, resolveTests created tests out = .error u := by
  induction tests with
  | nil => simp at ht
  | cons a rest ih =>
    intro out
    unfold resolveTests
    cases ha : mapLookup created a with
    | none => exact ⟨a, rfl⟩
    | some id =>
      simp only
      simp only [List.mem_cons] at ht
      rcases ht with ht | ht
      · rw [ht, ha] at hnone; cases hnone
      · exact ih ht _

theorem subtaskLoop_error (base : BaseAPI) (pbID : Int) (stks : List (Int × Subtask))
    (created : List (Int × Int)) (sid : Int)
    (hbad : ∃ u, resolveTests created (mapGet stks sid).Tests [] = .error u)
    (order : List Int) (hsid : sid ∈ order) : ∀ tr : List StoreCall,
      (subtaskLoop base pbID stks created order tr).1 ≠ none := by
  induction order with
  | nil => simp at hsid
  | cons a rest ih =>
    intro tr
    unfold subtaskLoop
    simp only
    split
    · simp
    · rename_i ids hok
      split
      · simp
      · simp only [List.mem_cons] at hsid
        rcases hsid with hsid | hsid
        · obtain ⟨u, hu⟩ := hbad
          rw [hsid, hok] at hu
          cases hu
        · exact ih hsid _

theorem applyProps_error (ord : MapOrder) (base : BaseAPI) (pbID : Int) (p : Properties)
    (created : List (Int × Int)) (tr : List StoreCall) (stks : List (Int × Subtask))
    (sid : Int) (hstks : p.Subtasks = some stks) (hsid : sid ∈ ord.subtasks (mapKeys stks))
    (hbad : ∃ u, resolveTests created (mapGet stks sid).Tests [] = .error u) :
    (applyProps ord base pbID p created tr).1 ≠ none := by
  unfold applyProps
  simp only
  split
  · simp
  · rw [hstks]
    simp only
    split
    · simp
    · exact subtaskLoop_error _ _ _ _ sid hbad _ hsid _


/-! ## Scanning the checker's verdict -/

theorem scanDigits_end (neg : Bool) (ds : Str) (hne : ds ≠ []) (hds : ds.all isDigit = true)
    (h1 : minInt64 ≤ decimalNumber neg ds) (h2 : decimalNumber neg ds ≤ maxInt64) :
    scanDigits neg ds = some (decimalNumber neg ds, []) := by
  have ht : ds.takeWhile isDigit = ds := by
    rw [List.takeWhile_eq_self_iff]
    intro c hc
    exact (List.all_eq_true.mp hds) c hc
  have hd : ds.dropWhile isDigit = [] := by
    rw [List.dropWhile_eq_nil_iff]
    intro c hc
    exact (List.all_eq_true.mp hds) c hc
  unfold scanDigits
  simp only [ht, hd, hne, if_false, signedInRange_of_range neg ds h1 h2,
    Option.map_some']

theorem dropWhile_dropBlanks (t : Str) :
    (dropBlanks t).dropWhile isSpace = t.dropWhile isSpace := by
  induction t with
  | nil => rfl
  | cons c cs ih =>
    unfold dropBlanks
    by_cases h : (isSpace c && c != '\n') = true
    · rw [if_pos h, ih]
      have hc : isSpace c = true := by
        simp only [Bool.and_eq_true] at h
        exact h.1
      simp [List.dropWhile, hc]
    · rw [if_neg h]

theorem TrimSpace_dropBlanks (t : Str) : TrimSpace (dropBlanks t) = TrimSpace t := by
  unfold TrimSpace
  rw [dropWhile_dropBlanks]

theorem fscanfScore_decimal (neg : Bool) (ds t : Str) (hne : ds ≠ [])
    (hds : ds.all isDigit = true)
    (h1 : minInt64 ≤ decimalNumber neg ds) (h2 : decimalNumber neg ds ≤ maxInt64) :
    fscanfScore (decimalText neg ds ++ ' ' :: t) =
      (some (decimalNumber neg ds), some (dropBlanks t)) := by
  unfold fscanfScore
  rw [scanInt_decimal neg ds ' ' t hne hds (by decide) h1 h2]
  simp only
  rw [if_pos (by decide)]

/-! ## Printing an integer -/

theorem digitChar_spec (d : Nat) (h : d < 10) :
    isDigit (Char.ofNat (48 + d)) = true ∧ (Char.ofNat (48 + d)).toNat - 48 = d := by
  interval_cases d <;> exact ⟨by decide, by decide⟩

theorem decimalValue_append (xs : Str) (c : Char) :
    decimalValue (xs ++ [c]) = decimalValue xs * 10 + (c.toNat - 48) := by
  unfold decimalValue
  rw [List.foldl_append]
  rfl

theorem natDigits_spec (fuel : Nat) : ∀ (n : Nat) (acc : Str), n < fuel →
    ∃ ds, natDigits fuel n acc = ds ++ acc ∧ ds ≠ [] ∧ ds.all isDigit = true ∧
      decimalValue ds = n := by
  induction fuel with
  | zero => intro n acc h; omega
  | succ fuel ih =>
    intro n acc hn
    have hd := digitChar_spec (n % 10) (Nat.mod_lt n (by decide))
    unfold natDigits
    simp only
    by_cases h0 : n / 10 = 0
    · rw [if_pos h0]
      refine ⟨[Char.ofNat (48 + n % 10)], rfl, by simp, by simp [hd.1], ?_⟩
      have : n % 10 = n := Nat.mod_eq_of_lt (by omega)
      simp only [decimalValue, List.foldl_cons, List.foldl_nil, zero_mul, zero_add]
      rw [hd.2, this]
    · rw [if_neg h0]
      obtain ⟨ds, h1, h2, h3, h4⟩ := ih (n / 10) (Char.ofNat (48 + n % 10) :: acc) (by omega)
      refine ⟨ds ++ [Char.ofNat (48 + n % 10)], ?_, by simp, ?_, ?_⟩
      · rw [h1]; simp
      · rw [List.all_append, h3]
        simp [hd.1]
      · rw [decimalValue_append, h4, hd.2]
        omega

theorem Itoa_decimal (n : Int) :
    ∃ neg ds, Itoa n = decimalText neg ds ∧ ds ≠ [] ∧ ds.all isDigit = true ∧
      decimalNumber neg ds = n := by
  cases n with
  | ofNat m =>
    obtain ⟨ds, h1, h2, h3, h4⟩ := natDigits_spec (m + 1) m [] (by omega)
    refine ⟨false, ds, ?_, h2, h3, ?_⟩
    · simp only [Itoa, h1, decimalText, List.append_nil, Bool.false_eq_true, if_false,
        List.nil_append]
    · simp only [decimalNumber, Bool.false_eq_true, if_false, h4]
      rfl
  | negSucc m =>
    obtain ⟨ds, h1, h2, h3, h4⟩ := natDigits_spec (m + 2) (m + 1) [] (by omega)
    refine ⟨true, ds, ?_, h2, h3, ?_⟩
    · simp only [Itoa, h1, decimalText, List.append_nil, if_true, List.singleton_append]
    · simp only [decimalNumber, if_true, h4]
      rfl

theorem decimalText_chars (neg : Bool) (ds : Str) (hds : ds.all isDigit = true) :
    ∀ c ∈ decimalText neg ds, isDigit c = true ∨ c = '-' := by
  intro c hc
  unfold decimalText at hc
  rw [List.mem_append] at hc
  rcases hc with hc | hc
  · right
    cases neg with
    | true => simpa using hc
    | false => simp at hc
  · left
    exact (List.all_eq_true.mp hds) c hc

theorem Itoa_chars (n : Int) : ∀ c ∈ Itoa n, isDigit c = true ∨ c = '-' := by
  obtain ⟨neg, ds, h1, _, h3, _⟩ := Itoa_decimal n
  rw [h1]
  exact decimalText_chars neg ds h3

theorem Itoa_ne_nil (n : Int) : Itoa n ≠ [] := by
  obtain ⟨neg, ds, h1, h2, _, _⟩ := Itoa_decimal n
  rw [h1]
  unfold decimalText
  intro h
  rw [List.append_eq_nil] at h
  exact h2 h.2

theorem scanInt_decimal_end (neg : Bool) (ds : Str) (hne : ds ≠ [])
    (hds : ds.all isDigit = true)
    (h1 : minInt64 ≤ decimalNumber neg ds) (h2 : decimalNumber neg ds ≤ maxInt64) :
    scanInt (decimalText neg ds) = some (decimalNumber neg ds, []) := by
  cases neg with
  | true =>
    have : decimalText true ds = '-' :: ds := by simp [decimalText]
    rw [this]
    unfold scanInt
    have hs : skipSpace ('-' :: ds) = some ('-' :: ds) := by
      unfold skipSpace
      rw [if_neg (by decide), if_neg (by decide)]
    rw [hs]
    simp only [if_true]
    exact scanDigits_end true ds hne hds h1 h2
  | false =>
    have : decimalText false ds = ds := by simp [decimalText]
    rw [this]
    cases ds with
    | nil => exact absurd rfl hne
    | cons d ds2 =>
      have hd : isDigit d = true := by
        simp only [List.all_cons, Bool.and_eq_true] at hds
        exact hds.1
      unfold scanInt
      have hs : skipSpace (d :: ds2) = some (d :: ds2) := by
        unfold skipSpace
        rw [if_neg (digit_ne hd (by decide)), digit_not_space hd]
        simp
      rw [hs]
      simp only
      rw [if_neg (digit_ne hd (by decide)), if_neg (digit_ne hd (by decide))]
      exact scanDigits_end false (d :: ds2) hne hds h1 h2

theorem parseScoreLine_printed (v s : Int) (hv1 : minInt64 ≤ v) (hv2 : v ≤ maxInt64)
    (hs1 : minInt64 ≤ s) (hs2 : s ≤ maxInt64) :
    parseScoreLine (Itoa v ++ ' ' :: Itoa s) = some (v, s) := by
  obtain ⟨n1, d1, e1, a1, b1, c1⟩ := Itoa_decimal v
  obtain ⟨n2, d2, e2, a2, b2, c2⟩ := Itoa_decimal s
  unfold parseScoreLine
  rw [e1, scanInt_decimal n1 d1 ' ' _ a1 b1 (by decide) (by rw [c1]; exact hv1)
    (by rw [c1]; exact hv2)]
  simp only
  rw [if_pos (by decide), e2, scanInt_decimal_end n2 d2 a2 b2 (by rw [c2]; exact hs1)
    (by rw [c2]; exact hs2)]
  simp only [dropBlanks, c1, c2]

theorem parseTestPrefix_printed (v : Int) (rest : Str) (hv1 : minInt64 ≤ v)
    (hv2 : v ≤ maxInt64) : parseTestPrefix (Itoa v ++ '-' :: rest) = some v := by
  obtain ⟨n1, d1, e1, a1, b1, c1⟩ := Itoa_decimal v
  rw [e1, parseTestPrefix_decimal n1 d1 rest a1 b1 (by rw [c1]; exact hv1)
    (by rw [c1]; exact hv2), c1]

/-! ## The paths through `Execute` -/

theorem Execute_cases (env : CheckerEnv) (box : Sandbox) (job : legacyCustomCheckerTask) :
    (langLookup Langs (GetLangByFilename env.visit job.filename) = none ∧
      Execute env box job = ⟨none, failedTask env job, []⟩) ∨
    (∃ lang, langLookup Langs (GetLangByFilename env.visit job.filename) = some lang ∧
      box.fail [] (writeProgramOut job) = true ∧
      Execute env box job = ⟨none, failedTask env job, [writeProgramOut job]⟩) ∨
    (∃ lang, langLookup Langs (GetLangByFilename env.visit job.filename) = some lang ∧
      box.fail [] (writeProgramOut job) = false ∧
      box.fail [writeProgramOut job] (writeCorrectIn job) = true ∧
      Execute env box job = ⟨none, failedTask env job, [writeProgramOut job, writeCorrectIn job]⟩) ∨
    (∃ lang, langLookup Langs (GetLangByFilename env.visit job.filename) = some lang ∧
      box.fail [] (writeProgramOut job) = false ∧
      box.fail [writeProgramOut job] (writeCorrectIn job) = false ∧
      box.fail [writeProgramOut job, writeCorrectIn job] (writeCorrectOut job) = true ∧
      Execute env box job = ⟨none, failedTask env job, [writeProgramOut job, writeCorrectIn job, writeCorrectOut job]⟩) ∨
    (∃ lang, langLookup Langs (GetLangByFilename env.visit job.filename) = some lang ∧
      box.fail [] (writeProgramOut job) = false ∧
      box.fail [writeProgramOut job] (writeCorrectIn job) = false ∧
      box.fail [writeProgramOut job, writeCorrectIn job] (writeCorrectOut job) = false ∧
      box.fail [writeProgramOut job, writeCorrectIn job, writeCorrectOut job] (copyChecker env job lang) = true ∧
      Execute env box job = ⟨none, failedTask env job, [writeProgramOut job, writeCorrectIn job, writeCorrectOut job, copyChecker env job lang]⟩) ∨
    (∃ lang, langLookup Langs (GetLangByFilename env.visit job.filename) = some lang ∧
      box.fail [] (writeProgramOut job) = false ∧
      box.fail [writeProgramOut job] (writeCorrectIn job) = false ∧
      box.fail [writeProgramOut job, writeCorrectIn job] (writeCorrectOut job) = false ∧
      box.fail [writeProgramOut job, writeCorrectIn job, writeCorrectOut job] (copyChecker env job lang) = false ∧
      env.MakeGoodCommand lang.RunCommand = none ∧
      Execute env box job = ⟨none, failedTask env job, [writeProgramOut job, writeCorrectIn job, writeCorrectOut job, copyChecker env job lang]⟩) ∨
    (∃ lang goodCmd, langLookup Langs (GetLangByFilename env.visit job.filename) = some lang ∧
      box.fail [] (writeProgramOut job) = false ∧
      box.fail [writeProgramOut job] (writeCorrectIn job) = false ∧
      box.fail [writeProgramOut job, writeCorrectIn job] (writeCorrectOut job) = false ∧
      box.fail [writeProgramOut job, writeCorrectIn job, writeCorrectOut job] (copyChecker env job lang) = false ∧
      env.MakeGoodCommand lang.RunCommand = some goodCmd ∧
      box.fail [writeProgramOut job, writeCorrectIn job, writeCorrectOut job, copyChecker env job lang] (runChecker goodCmd) = true ∧
      Execute env box job = ⟨none, failedTask env job, [writeProgramOut job, writeCorrectIn job, writeCorrectOut job, copyChecker env job lang, runChecker goodCmd]⟩) ∨
    (∃ lang goodCmd, langLookup Langs (GetLangByFilename env.visit job.filename) = some lang ∧
      box.fail [] (writeProgramOut job) = false ∧
      box.fail [writeProgramOut job] (writeCorrectIn job) = false ∧
      box.fail [writeProgramOut job, writeCorrectIn job] (writeCorrectOut job) = false ∧
      box.fail [writeProgramOut job, writeCorrectIn job, writeCorrectOut job] (copyChecker env job lang) = false ∧
      env.MakeGoodCommand lang.RunCommand = some goodCmd ∧
      box.fail [writeProgramOut job, writeCorrectIn job, writeCorrectOut job, copyChecker env job lang] (runChecker goodCmd) = false ∧
      Execute env box job =
        ⟨none, scoredTask job (box.stdout [writeProgramOut job, writeCorrectIn job, writeCorrectOut job, copyChecker env job lang, runChecker goodCmd]), [writeProgramOut job, writeCorrectIn job, writeCorrectOut job, copyChecker env job lang, runChecker goodCmd]⟩) := by
  unfold Execute
  cases hl : langLookup Langs (GetLangByFilename env.visit job.filename) with
  | none => exact Or.inl ⟨rfl, rfl⟩
  | some lang =>
    right
    simp only
    by_cases h1 : box.fail [] (writeProgramOut job) = true
    · exact Or.inl ⟨lang, rfl, h1, by simp [h1]⟩
    · rw [Bool.not_eq_true] at h1
      right
      by_cases h2 : box.fail [writeProgramOut job] (writeCorrectIn job) = true
      · exact Or.inl ⟨lang, rfl, h1, h2, by simp [h1, h2]⟩
      · rw [Bool.not_eq_true] at h2
        right
        by_cases h3 : box.fail [writeProgramOut job, writeCorrectIn job]
            (writeCorrectOut job) = true
        · exact Or.inl ⟨lang, rfl, h1, h2, h3, by simp [h1, h2, h3]⟩
        · rw [Bool.not_eq_true] at h3
          right
          by_cases h4 : box.fail [writeProgramOut job, writeCorrectIn job, writeCorrectOut job]
              (copyChecker env job lang) = true
          · exact Or.inl ⟨lang, rfl, h1, h2, h3, h4, by simp [h1, h2, h3, h4]⟩
          · rw [Bool.not_eq_true] at h4
            right
            cases hc : env.MakeGoodCommand lang.RunCommand with
            | none => exact Or.inl ⟨lang, rfl, h1, h2, h3, h4, hc, by simp [h1, h2, h3, h4, hc]⟩
            | some goodCmd =>
              right
              by_cases h5 : box.fail [writeProgramOut job, writeCorrectIn job,
                  writeCorrectOut job, copyChecker env job lang] (runChecker goodCmd) = true
              · exact Or.inl ⟨lang, goodCmd, rfl, h1, h2, h3, h4, hc, h5,
                  by simp [h1, h2, h3, h4, h5, hc]⟩
              · rw [Bool.not_eq_true] at h5
                exact Or.inr ⟨lang, goodCmd, rfl, h1, h2, h3, h4, hc, h5,
                  by simp [h1, h2, h3, h4, h5, hc]⟩

/-! ## The entries of an exported archive -/

theorem writeTests_entries (env : ExportEnv) (testName : Str) (tests : List Test) :
    ∀ (es es2 : List WrittenEntry), writeTests env testName tests es = (none, es2) →
      es2 = es ++ dataEntries env testName tests := by
  induction tests with
  | nil =>
    intro es es2 h
    simp only [writeTests, Prod.mk.injEq, true_and] at h
    simp [dataEntries, h]
  | cons test rest ih =>
    intro es es2 h
    unfold writeTests at h
    split at h
    · cases h
    · split at h
      · cases h
      · rename_i input hin
        split at h
        · cases h
        · try simp only at h
          split at h
          · cases h
          · split at h
            · cases h
            · rename_i output hout
              split at h
              · cases h
              · rw [ih _ _ h]
                simp [dataEntries, hin, hout]

theorem GenerateArchive_entries (env : ExportEnv) (pb : Problem) (es : List WrittenEntry)
    (h : GenerateArchive env pb = (none, es)) :
    ∃ tests subtasks, env.Tests = .ok tests ∧ env.SubTasks = .ok subtasks ∧
      es = dataEntries env (exportTestName env pb) tests ++ [scoreEntry tests] ++
        (if subtasks.length = 0 then []
          else [⟨"grader.properties".toList,
            propsContent env pb (exportTestName env pb) tests subtasks⟩]) := by
  unfold GenerateArchive at h
  split at h
  · cases h
  · rename_i tests ht
    try simp only at h
    split at h
    · cases h
    · rename_i es1 hw
      have he := writeTests_entries _ _ _ _ _ hw
      simp only [List.nil_append] at he
      split at h
      · cases h
      · try simp only at h
        split at h
        · cases h
        · rename_i subtasks hs
          refine ⟨tests, subtasks, ht, hs, ?_⟩
          split at h
          · rename_i h0
            simp only [Prod.mk.injEq, true_and] at h
            rw [← h, he, if_pos h0]
            simp [scoreEntry]
          · rename_i h0
            split at h
            · cases h
            · simp only [Prod.mk.injEq, true_and] at h
              rw [← h, he, if_neg h0]
              simp [scoreEntry]

theorem Generator_scoreEntry (env : ExportEnv) (pb : Problem) (brief : Bool)
    (es : List WrittenEntry) (tests : List Test) (ht : env.Tests = .ok tests)
    (h : Generator.GenerateArchive env pb brief = (none, es)) : scoreEntry tests ∈ es := by
  unfold Generator.GenerateArchive at h
  rw [ht] at h
  simp only at h
  split at h
  · cases h
  · split at h
    · cases h
    · split at h
      · cases h
      · try simp only at h
        split at h
        · cases h
        · split at h
          · cases h
          · split at h
            · simp only [Prod.mk.injEq, true_and] at h
              rw [← h]
              simp [scoreEntry]
            · split at h
              · cases h
              · simp only [Prod.mk.injEq, true_and] at h
                rw [← h]
                simp [scoreEntry]

/-! ## The lines of `tests.txt` -/

theorem splitLines_line (l rest : Str) (h : '\n' ∉ l) :
    splitLines (l ++ '\n' :: rest) = l :: splitLines rest := by
  induction l with
  | nil => simp [splitLines]
  | cons c cs ih =>
    simp only [List.mem_cons, not_or] at h
    have e : splitLines ((c :: cs) ++ '\n' :: rest) =
        (if c = '\n' then [] :: splitLines (cs ++ '\n' :: rest)
          else match splitLines (cs ++ '\n' :: rest) with
            | [] => [[c]]
            | h :: t => (c :: h) :: t) := rfl
    rw [e, if_neg (fun e => h.1 e.symm), ih h.2]

theorem scoreLine_chars (test : Test) :
    ∀ c ∈ scoreLine test, isDigit c = true ∨ c = '-' ∨ c = ' ' := by
  intro c hc
  unfold scoreLine at hc
  simp only [List.mem_append, List.mem_cons] at hc
  rcases hc with hc | hc | hc
  · rcases Itoa_chars _ c hc with h | h
    · exact Or.inl h
    · exact Or.inr (Or.inl h)
  · exact Or.inr (Or.inr hc)
  · rcases Itoa_chars _ c hc with h | h
    · exact Or.inl h
    · exact Or.inr (Or.inl h)

theorem scoreLine_plain (test : Test) : '\n' ∉ scoreLine test ∧ '\r' ∉ scoreLine test := by
  constructor
  · intro h
    rcases scoreLine_chars test _ h with h | h | h
    · exact absurd h (by decide)
    · exact absurd h (by decide)
    · exact absurd h (by decide)
  · intro h
    rcases scoreLine_chars test _ h with h | h | h
    · exact absurd h (by decide)
    · exact absurd h (by decide)
    · exact absurd h (by decide)

theorem dropCR_plain (l : Str) (h : '\r' ∉ l) : dropCR l = l := by
  unfold dropCR
  rw [if_neg]
  intro hl
  exact h (List.mem_of_getLast?_eq_some hl)

theorem splitLines_scoreContent (tests : List Test) :
    splitLines (scoreContent tests) = tests.map scoreLine ++ [[]] := by
  induction tests with
  | nil => rfl
  | cons test rest ih =>
    simp only [scoreContent, List.map_cons, List.cons_append]
    rw [splitLines_line _ _ (scoreLine_plain test).1, ih]

theorem scanLines_scoreContent (tests : List Test) :
    scanLines (scoreContent tests) = tests.map scoreLine := by
  unfold scanLines
  simp only [splitLines_scoreContent]
  rw [if_pos (by simp), List.dropLast_concat]
  rw [List.map_map]
  apply List.map_congr_left
  intro test _
  exact dropCR_plain _ (scoreLine_plain test).2

/-! ## The `groups=` and `weights=` values -/

theorem splitChar_piece (sep : Char) (l rest : Str) (h : sep ∉ l) :
    splitChar sep (l ++ sep :: rest) = l :: splitChar sep rest := by
  induction l with
  | nil => simp [splitChar]
  | cons c cs ih =>
    simp only [List.mem_cons, not_or] at h
    have e : splitChar sep ((c :: cs) ++ sep :: rest) =
        (if c = sep then [] :: splitChar sep (cs ++ sep :: rest)
          else match splitChar sep (cs ++ sep :: rest) with
            | [] => [[c]]
            | h :: t => (c :: h) :: t) := rfl
    rw [e, if_neg (fun e => h.1 e.symm), ih h.2]

theorem splitChar_last (sep : Char) (l : Str) (h : sep ∉ l) : splitChar sep l = [l] := by
  induction l with
  | nil => rfl
  | cons c cs ih =>
    simp only [List.mem_cons, not_or] at h
    have e : splitChar sep (c :: cs) =
        (if c = sep then [] :: splitChar sep cs
          else match splitChar sep cs with
            | [] => [[c]]
            | h :: t => (c :: h) :: t) := rfl
    rw [e, if_neg (fun e => h.1 e.symm), ih h.2]

theorem splitChar_joinStrs (sep : Char) (ls : List Str) (hne : ls ≠ [])
    (h : ∀ l ∈ ls, sep ∉ l) : splitChar sep (joinStrs [sep] ls) = ls := by
  induction ls with
  | nil => exact absurd rfl hne
  | cons x rest ih =>
    cases rest with
    | nil => exact splitChar_last sep x (h x (by simp))
    | cons y rest2 =>
      have e : joinStrs [sep] (x :: y :: rest2) = x ++ sep :: joinStrs [sep] (y :: rest2) := by
        simp [joinStrs]
      rw [e, splitChar_piece sep x _ (h x (by simp)),
        ih (by simp) (fun l hl => h l (List.mem_cons_of_mem _ hl))]

theorem buildTmap_absent (tests : List Test) :
    ∀ (tmap : List (Int × Test)) (id : Int), id ∉ tests.map (fun t => t.ID) →
      mapLookup (buildTmap tests tmap) id = mapLookup tmap id := by
  induction tests with
  | nil => intro tmap id _; rfl
  | cons t rest ih =>
    intro tmap id h
    simp only [List.map_cons, List.mem_cons, not_or] at h
    simp only [buildTmap]
    rw [ih _ _ h.2, mapLookup_mapSet, if_neg (fun e => h.1 e.symm)]

theorem buildTmap_present (tests : List Test) :
    ∀ (tmap : List (Int × Test)), (tests.map (fun t => t.ID)).Nodup →
      ∀ t ∈ tests, mapLookup (buildTmap tests tmap) t.ID = some t := by
  induction tests with
  | nil => intro _ _ t ht; cases ht
  | cons t0 rest ih =>
    intro tmap hnd t ht
    simp only [List.map_cons, List.nodup_cons] at hnd
    simp only [buildTmap]
    rcases List.mem_cons.mp ht with rfl | hr
    · rw [buildTmap_absent _ _ _ hnd.1, mapLookup_mapSet, if_pos rfl]
    · exact ih _ hnd.2 t hr

theorem groupText_rest (tmap : List (Int × Test)) (vis : Int → Int) (ms : List Int) :
    ∀ (group : Str), (∀ id ∈ ms, ∃ t, mapLookup tmap id = some t ∧ t.VisibleID = vis id) →
      groupText tmap ms false group =
        group ++ (ms.map (fun id => ';' :: Itoa (vis id))).flatten := by
  induction ms with
  | nil => intro group _; simp [groupText]
  | cons m rest ih =>
    intro group h
    obtain ⟨t, ht, hv⟩ := h m (by simp)
    simp only [groupText, ht, Bool.false_eq_true, if_false]
    rw [ih _ (fun id hid => h id (List.mem_cons_of_mem _ hid)), hv]
    simp

theorem joinStrs_flatten (sep : Char) (x : Str) (rest : List Str) :
    joinStrs [sep] (x :: rest) = x ++ (rest.map (fun l => sep :: l)).flatten := by
  induction rest generalizing x with
  | nil => simp [joinStrs]
  | cons y rest2 ih =>
    have e : joinStrs [sep] (x :: y :: rest2) = x ++ sep :: joinStrs [sep] (y :: rest2) := by
      simp [joinStrs]
    rw [e, ih y]
    simp

theorem groupText_join (tmap : List (Int × Test)) (vis : Int → Int) (ms : List Int)
    (h : ∀ id ∈ ms, ∃ t, mapLookup tmap id = some t ∧ t.VisibleID = vis id) :
    groupText tmap ms true [] = joinStrs [';'] (ms.map (fun id => Itoa (vis id))) := by
  cases ms with
  | nil => rfl
  | cons m rest =>
    obtain ⟨t, ht, hv⟩ := h m (by simp)
    simp only [groupText, ht, if_true, List.nil_append, List.map_cons]
    rw [groupText_rest tmap vis rest _ (fun id hid => h id (List.mem_cons_of_mem _ hid)),
      joinStrs_flatten, hv, List.map_map]
    rfl

theorem groupText_chars (tmap : List (Int × Test)) (ms : List Int) :
    ∀ (first : Bool) (group : Str), ',' ∉ group → ',' ∉ groupText tmap ms first group := by
  induction ms with
  | nil => intro _ group h; simpa [groupText] using h
  | cons m rest ih =>
    intro first group h
    simp only [groupText]
    apply ih
    have h1 : ',' ∉ (if first = true then group else group ++ [';']) := by
      split
      · exact h
      · simp only [List.mem_append, List.mem_singleton, not_or]
        exact ⟨h, by decide⟩
    split
    · exact h1
    · simp only [List.mem_append, not_or]
      refine ⟨h1, fun hc => ?_⟩
      rcases Itoa_chars _ _ hc with hd | hd
      · exact absurd hd (by decide)
      · exact absurd hd (by decide)

theorem Itoa_no_comma (n : Int) : ',' ∉ Itoa n := by
  intro hc
  rcases Itoa_chars _ _ hc with hd | hd
  · exact absurd hd (by decide)
  · exact absurd hd (by decide)

/-! ## Map orders used as instances -/

theorem storageOrder_valid : storageOrder.Valid := by
  intro l
  exact ⟨List.Perm.refl _, List.Perm.refl _, List.Perm.refl _, List.Perm.refl _⟩

theorem reverseOrder_valid : reverseOrder.Valid := by
  intro l
  exact ⟨List.reverse_perm l, List.reverse_perm l, List.reverse_perm l, List.reverse_perm l⟩

/-! ## C1: the inferred scores total 100 -/

/-- C1 (amended): for every archive whose scan succeeds, in which strictly fewer
tests are explicitly scored than were discovered and the explicit scores sum to
at most 100 and to at least `100 - maxInt64` (so that the leftover `100 - sum`
fits a 64-bit `int`), the scores of all tests after inference sum to exactly
100; and when the import returns nil, the scores passed to `CreateTest` sum to
exactly 100. -/
theorem inference_total_is_100 (parse : PropsParser) (ord : MapOrder) (base : BaseAPI)
    (pbID : Int) (ar : List ZipFile) (ctx : ArchiveCtx)
    (hscan : scanArchive parse NewArchiveCtx ar = (none, ctx))
    (hord : ord.Valid)
    (hstrict : ctx.scoredTests.length < ctx.tests.length)
    (hle : explicitSum ctx ≤ 100) (hge : 100 - maxInt64 ≤ explicitSum ctx) :
    (∃ ctx1, inferScores ord ctx = some ctx1 ∧ scoreSum ctx1.tests = 100) ∧
    ((ProcessZipTestArchive parse ord base pbID ar).1 = .returned none →
      (createdScores (ProcessZipTestArchive parse ord base pbID ar).2).sum = 100) := by
  have hinv : CtxInv ctx := scanArchive_inv ar _ _ CtxInv_new hscan
  obtain ⟨ctx1, h1, h2, _⟩ := inferScores_total hinv hord hstrict hle hge
  refine ⟨⟨ctx1, h1, h2⟩, ?_⟩
  unfold ProcessZipTestArchive
  rw [hscan]
  simp only
  unfold finishArchive
  by_cases hm : subtaskMismatch ctx = true
  · rw [if_pos hm]; intro hret; cases hret
  · rw [if_neg hm]
    cases hf : findMissingHalf ctx.tests (ord.check (mapKeys ctx.tests)) with
    | some k => intro hret; cases hret
    | none =>
      simp only [h1]
      intro hret
      have hpair : commitArchive ord base pbID ctx1 =
          (.returned none, (commitArchive ord base pbID ctx1).2) := Prod.ext hret rfl
      have hc := commitArchive_calls hpair
      unfold createdScores
      rw [hc, List.map_map]
      have hp := ((hord (mapKeys ctx1.tests)).2.2.1.map
        (Prod.snd ∘ fun k => (k, (mapGet ctx1.tests k).Score))).sum_eq
      rw [hp, ← h2, scoreSum_eq_keys _ (inferScores_nodup h1 hinv.keysNodup)]
      rfl

/-- Instance of `inference_total_is_100`: four tests, test 1 scored 37. -/
theorem inference_total_is_100_witness :
    (scannedCtx sampleArchive).scoredTests.length < (scannedCtx sampleArchive).tests.length ∧
    explicitSum (scannedCtx sampleArchive) ≤ 100 ∧
    ((∃ ctx1, inferScores storageOrder (scannedCtx sampleArchive) = some ctx1 ∧
        scoreSum ctx1.tests = 100) ∧
      ((ProcessZipTestArchive noProps storageOrder okBase 1 sampleArchive).1 = .returned none →
        (createdScores (ProcessZipTestArchive noProps storageOrder okBase 1 sampleArchive).2).sum
          = 100)) :=
  ⟨by decide, by decide,
    inference_total_is_100 noProps storageOrder okBase 1 sampleArchive (scannedCtx sampleArchive)
      (by decide) storageOrder_valid (by decide) (by decide) (by decide)⟩

/-- C1 as stated fails: with tests 1 to 4 complete and test 1 explicitly scored
`-9223372036854775808`, a strict subset is scored and the explicit scores sum
to at most 100, the import returns nil, yet the scores passed to `CreateTest`
sum neither to 100 nor to 100 modulo `2^64`. -/
theorem inference_total_overflow :
    (scanArchive noProps NewArchiveCtx overflowArchive).1 = none ∧
    (∀ k ∈ mapKeys (scannedCtx overflowArchive).tests,
      hasBothHalves (scannedCtx overflowArchive).tests k) ∧
    (scannedCtx overflowArchive).scoredTests.length < (scannedCtx overflowArchive).tests.length ∧
    explicitSum (scannedCtx overflowArchive) ≤ 100 ∧
    ProcessZipTestArchive noProps storageOrder okBase 1 overflowArchive =
      (.returned none,
        [.OrphanTests 1,
         .CreateTest 1 1 (-9223372036854775808),
         .SaveTestInput 1 (dataFile "1-a.in"), .SaveTestOutput 1 (dataFile "1-a.ok"),
         .CreateTest 1 2 (-3074457345618258569),
         .SaveTestInput 4 (dataFile "2-a.in"), .SaveTestOutput 4 (dataFile "2-a.ok"),
         .CreateTest 1 3 (-3074457345618258569),
         .SaveTestInput 7 (dataFile "3-a.in"), .SaveTestOutput 7 (dataFile "3-a.ok"),
         .CreateTest 1 4 (-3074457345618258569),
         .SaveTestInput 10 (dataFile "4-a.in"), .SaveTestOutput 10 (dataFile "4-a.ok")]) ∧
    (createdScores (ProcessZipTestArchive noProps storageOrder okBase 1 overflowArchive).2).sum
      ≠ 100 ∧
    wrap64 (createdScores
      (ProcessZipTestArchive noProps storageOrder okBase 1 overflowArchive).2).sum ≠ 100 := by
  refine ⟨by decide, by decide, by decide, by decide, by decide, by decide, by decide⟩


/-! ## C2: how the leftover is distributed -/

/-- C2 (amended): let `ids` be the unscored test numbers of a scanned archive
in ascending order, `n ≥ 1` their number and `remaining = 100 - sum(explicit
scores)` a number between 0 and `maxInt64`, so that it is a value of Go's `int`.
Then inference succeeds, every explicitly scored test keeps its score, the
unscored test at position `j` of `ids` gets `remaining / n` when
`j < n - remaining % n` and `remaining / n + 1` otherwise, and any other scan
with the same test numbers, the same scored numbers and the same explicit
scores, under any map iteration order, yields the same score for every test
number. -/
theorem inference_distribution (parse parse2 : PropsParser) (ord ord2 : MapOrder)
    (ar ar2 : List ZipFile) (ctx ctx2 : ArchiveCtx) (ids : List Int)
    (hscan : scanArchive parse NewArchiveCtx ar = (none, ctx))
    (hord : ord.Valid)
    (hsorted : ids.Sorted (fun a b => a < b))
    (hmem : ∀ k, k ∈ ids ↔ (k ∈ mapKeys ctx.tests ∧ k ∉ ctx.scoredTests))
    (hn : 1 ≤ ids.length)
    (hrem : 0 ≤ 100 - explicitSum ctx)
    (hfit : 100 - explicitSum ctx ≤ maxInt64)
    (hscan2 : scanArchive parse2 NewArchiveCtx ar2 = (none, ctx2))
    (hord2 : ord2.Valid)
    (hkeys : ∀ k, k ∈ mapKeys ctx2.tests ↔ k ∈ mapKeys ctx.tests)
    (hscored : ∀ k, k ∈ ctx2.scoredTests ↔ k ∈ ctx.scoredTests)
    (hexp : ∀ k ∈ ctx.scoredTests, (mapGet ctx2.tests k).Score = (mapGet ctx.tests k).Score) :
    ∃ ctx1 ctx3, inferScores ord ctx = some ctx1 ∧ inferScores ord2 ctx2 = some ctx3 ∧
      (∀ t ∈ ctx.scoredTests, (mapGet ctx1.tests t).Score = (mapGet ctx.tests t).Score) ∧
      (∀ (j : Nat) (i : Int), ids[j]? = some i →
        (mapGet ctx1.tests i).Score =
          if (j : Int) < (ids.length : Int) - (100 - explicitSum ctx) % (ids.length : Int)
          then (100 - explicitSum ctx) / (ids.length : Int)
          else (100 - explicitSum ctx) / (ids.length : Int) + 1) ∧
      (∀ k, (mapGet ctx3.tests k).Score = (mapGet ctx1.tests k).Score) := by
  have hinv : CtxInv ctx := scanArchive_inv ar _ _ CtxInv_new hscan
  have hinv2 : CtxInv ctx2 := scanArchive_inv ar2 _ _ CtxInv_new hscan2
  have hgo : goSub 100 (explicitSum ctx) = 100 - explicitSum ctx :=
    wrap64_of_range (by unfold minInt64; omega) hfit
  have hf := unscoredIDs_facts hinv (hord (mapKeys ctx.tests)).2.1
  rw [sorted_ids_unique hinv (hord (mapKeys ctx.tests)).2.1 hsorted hmem] at hf
  have hstrict : ctx.scoredTests.length < ctx.tests.length := by
    have := hf.2.2
    omega
  have hmem2 : ∀ k, k ∈ ids ↔ (k ∈ mapKeys ctx2.tests ∧ k ∉ ctx2.scoredTests) := by
    intro k; rw [hmem k, hkeys k, hscored k]
  have hf2 := unscoredIDs_facts hinv2 (hord2 (mapKeys ctx2.tests)).2.1
  rw [sorted_ids_unique hinv2 (hord2 (mapKeys ctx2.tests)).2.1 hsorted hmem2] at hf2
  have hstrict2 : ctx2.scoredTests.length < ctx2.tests.length := by
    have := hf2.2.2
    omega
  have hperm : ctx2.scoredTests.Perm ctx.scoredTests :=
    (List.perm_ext_iff_of_nodup hinv2.scoredNodup hinv.scoredNodup).mpr hscored
  have hsum : explicitSum ctx2 = explicitSum ctx := by
    unfold explicitSum
    rw [(hperm.map (fun t => (mapGet ctx2.tests t).Score)).sum_eq]
    congr 1
    exact List.map_congr_left hexp
  obtain ⟨ctx1, h1, hk1, _, ho1, hp1⟩ :=
    inferScores_spec hinv hord hstrict (by rw [hgo]; exact hrem) hsorted hmem
  obtain ⟨ctx3, h3, hk3, _, ho3, hp3⟩ :=
    inferScores_spec hinv2 hord2 hstrict2 (by rw [hsum, hgo]; exact hrem) hsorted hmem2
  rw [hgo] at hp1
  rw [hsum, hgo] at hp3
  refine ⟨ctx1, ctx3, h1, h3, ?_, hp1, ?_⟩
  · intro t ht
    rw [ho1 t (fun hc => ((hmem t).mp hc).2 ht)]
  · intro k
    by_cases hk : k ∈ ids
    · obtain ⟨j, hj⟩ := List.getElem?_of_mem hk
      rw [hp3 j k hj, hp1 j k hj]
    · rw [ho3 k hk, ho1 k hk]
      by_cases hs : k ∈ ctx.scoredTests
      · exact hexp k hs
      · have hnk : k ∉ mapKeys ctx.tests := fun hc => hk ((hmem k).mpr ⟨hc, hs⟩)
        have hnk2 : k ∉ mapKeys ctx2.tests := fun hc => hnk ((hkeys k).mp hc)
        rw [mapGet_of_not_mem _ _ hnk, mapGet_of_not_mem _ _ hnk2]

/-- Instance of `inference_distribution`: four tests with test 1 pre-scored at
37 give 21 to tests 2, 3 and 4, also when the entries come in another order
and the maps are visited in reverse. -/
theorem inference_distribution_witness :
    100 - explicitSum (scannedCtx sampleArchive) = 63 ∧
    ∃ ctx1 ctx3, inferScores storageOrder (scannedCtx sampleArchive) = some ctx1 ∧
      inferScores reverseOrder (scannedCtx shuffledArchive) = some ctx3 ∧
      (∀ t ∈ (scannedCtx sampleArchive).scoredTests,
        (mapGet ctx1.tests t).Score = (mapGet (scannedCtx sampleArchive).tests t).Score) ∧
      (∀ (j : Nat) (i : Int), [(2 : Int), 3, 4][j]? = some i →
        (mapGet ctx1.tests i).Score =
          if (j : Int) < (([(2 : Int), 3, 4].length : Nat) : Int) -
              (100 - explicitSum (scannedCtx sampleArchive)) %
                (([(2 : Int), 3, 4].length : Nat) : Int)
          then (100 - explicitSum (scannedCtx sampleArchive)) /
            (([(2 : Int), 3, 4].length : Nat) : Int)
          else (100 - explicitSum (scannedCtx sampleArchive)) /
            (([(2 : Int), 3, 4].length : Nat) : Int) + 1) ∧
      (∀ k, (mapGet ctx3.tests k).Score = (mapGet ctx1.tests k).Score) :=
  ⟨by decide,
  inference_distribution noProps noProps storageOrder reverseOrder sampleArchive shuffledArchive
    (scannedCtx sampleArchive) (scannedCtx shuffledArchive) [2, 3, 4]
    (by decide) storageOrder_valid (by decide)
    (by
      intro k
      have h1 : mapKeys (scannedCtx sampleArchive).tests = [1, 2, 3, 4] := by decide
      have h2 : (scannedCtx sampleArchive).scoredTests = [1] := by decide
      rw [h1, h2]
      simp only [List.mem_cons, List.mem_singleton, List.not_mem_nil, or_false]
      omega)
    (by decide) (by decide) (by decide) (by decide) reverseOrder_valid
    (by
      intro k
      have h1 : mapKeys (scannedCtx sampleArchive).tests = [1, 2, 3, 4] := by decide
      have h2 : mapKeys (scannedCtx shuffledArchive).tests = [1, 4, 3, 2] := by decide
      rw [h1, h2]
      simp only [List.mem_cons, List.mem_singleton, List.not_mem_nil, or_false]
      omega)
    (by
      intro k
      have h1 : (scannedCtx sampleArchive).scoredTests = [1] := by decide
      have h2 : (scannedCtx shuffledArchive).scoredTests = [1] := by decide
      rw [h1, h2])
    (by decide)⟩

/-- C2 as stated fails: with tests 1 to 4 complete and test 1 explicitly scored
`-9223372036854775808`, three tests are unscored and `remaining = 100 - sum` is
the non-negative number 9223372036854775908, a multiple of 3; the claim gives
3074457345618258636 to each of tests 2, 3 and 4, but the leftover is computed
in a 64-bit `int`, wraps to -9223372036854775708, and each of them gets
-3074457345618258569. -/
theorem distribution_overflow :
    (scanArchive noProps NewArchiveCtx overflowArchive).1 = none ∧
    (mapKeys (scannedCtx overflowArchive).tests).filter
        (fun k => decide (k ∉ (scannedCtx overflowArchive).scoredTests)) = [2, 3, 4] ∧
    100 - explicitSum (scannedCtx overflowArchive) = 9223372036854775908 ∧
    (9223372036854775908 : Int) % 3 = 0 ∧
    (9223372036854775908 : Int) / 3 = 3074457345618258636 ∧
    goSub 100 (explicitSum (scannedCtx overflowArchive)) = -9223372036854775708 ∧
    (inferScores storageOrder (scannedCtx overflowArchive)).map
        (fun c => c.tests.map (fun p => (p.1, p.2.Score))) =
      some [(1, -9223372036854775808), (2, -3074457345618258569),
        (3, -3074457345618258569), (4, -3074457345618258569)] ∧
    (inferScores reverseOrder (scannedCtx overflowArchive)).map
        (fun c => c.tests.map (fun p => (p.1, p.2.Score))) =
      some [(1, -9223372036854775808), (2, -3074457345618258569),
        (3, -3074457345618258569), (4, -3074457345618258569)] := by
  refine ⟨by decide, by decide, by decide, by decide, by decide, by decide, by decide,
    by decide⟩


/-- The example of the specification: four tests, test 1 pre-scored at 40, the
other three receive 20 each. -/
theorem forty_example :
    createdScores (ProcessZipTestArchive noProps storageOrder okBase 1 fortyArchive).2 =
      [40, 20, 20, 20] ∧
    createdScores (ProcessZipTestArchive noProps reverseOrder okBase 1 fortyArchive).2 =
      [20, 20, 20, 40] := by
  constructor <;> decide

/-- The example of the specification: four tests, test 1 pre-scored at 37, the
other three receive 21 each. -/
theorem thirty_seven_example :
    createdScores (ProcessZipTestArchive noProps storageOrder okBase 1 sampleArchive).2 =
      [37, 21, 21, 21] ∧
    createdScores (ProcessZipTestArchive noProps reverseOrder okBase 1 shuffledArchive).2 =
      [21, 21, 21, 37] := by
  constructor <;> decide

/-! ## C3: a test number scored twice -/

/-- C4 (amended): after a successful scan, if the subtask count check of line
164 does not fire and some discovered test number (be it known only from a
score line) lacks its input or its output half, the import returns, before any
storage call, the 400 error of line 171 naming a discovered test number that
lacks a half; and when every discovered test has both halves the import never
returns that error, for any test number. -/
theorem missing_half_reported (parse : PropsParser) (ord : MapOrder) (base : BaseAPI)
    (pbID : Int) (ar : List ZipFile) (ctx : ArchiveCtx)
    (hscan : scanArchive parse NewArchiveCtx ar = (none, ctx))
    (hord : ord.Valid) :
    (subtaskMismatch ctx = false → (∃ k ∈ mapKeys ctx.tests, ¬ hasBothHalves ctx.tests k) →
      ∃ k, k ∈ mapKeys ctx.tests ∧ ¬ hasBothHalves ctx.tests k ∧
        ProcessZipTestArchive parse ord base pbID ar =
          (.returned (some (.Statusf 400
            ("Missing input or output file for test ".toList ++ Itoa k))), [])) ∧
    ((∀ k ∈ mapKeys ctx.tests, hasBothHalves ctx.tests k) →
      ∀ k, (ProcessZipTestArchive parse ord base pbID ar).1 ≠
        .returned (some (.Statusf 400
          ("Missing input or output file for test ".toList ++ Itoa k)))) := by
  have hperm := (hord (mapKeys ctx.tests)).1
  unfold ProcessZipTestArchive
  rw [hscan]
  simp only
  unfold finishArchive
  constructor
  · intro hm hex
    rw [hm]
    simp only [Bool.false_eq_true, if_false]
    cases hf : findMissingHalf ctx.tests (ord.check (mapKeys ctx.tests)) with
    | some k =>
      have := findMissingHalf_some _ _ _ hf
      exact ⟨k, hperm.mem_iff.mp this.1, this.2, rfl⟩
    | none =>
      obtain ⟨k, hk, hnot⟩ := hex
      exact absurd (findMissingHalf_none _ _ hf k (hperm.mem_iff.mpr hk)) hnot
  · intro hall k
    split
    · intro h
      simp only [Outcome.returned.injEq, Option.some.injEq] at h
      exact errMismatch_ne_missing k h
    · cases hf : findMissingHalf ctx.tests (ord.check (mapKeys ctx.tests)) with
      | some j =>
        have := findMissingHalf_some _ _ _ hf
        exact absurd (hall j (hperm.mem_iff.mp this.1)) this.2
      | none =>
        simp only
        split
        · simp
        · exact commitOutcome_ne_missing (commitArchive_class _ _ _ _) k

/-- Instance of `missing_half_reported`: test 1 is complete and test 2 appears
only in a score line; the import fails naming test 2. -/
theorem missing_half_reported_witness :
    scanArchive noProps NewArchiveCtx scoreOnlyArchive = (none, scannedCtx scoreOnlyArchive) ∧
    subtaskMismatch (scannedCtx scoreOnlyArchive) = false ∧
    ¬ hasBothHalves (scannedCtx scoreOnlyArchive).tests 2 ∧
    (∃ k, k ∈ mapKeys (scannedCtx scoreOnlyArchive).tests ∧
      ¬ hasBothHalves (scannedCtx scoreOnlyArchive).tests k ∧
      ProcessZipTestArchive noProps storageOrder okBase 1 scoreOnlyArchive =
        (.returned (some (.Statusf 400
          ("Missing input or output file for test ".toList ++ Itoa k))), [])) :=
  ⟨by decide, by decide, by decide,
    (missing_half_reported noProps storageOrder okBase 1 scoreOnlyArchive
      (scannedCtx scoreOnlyArchive) (by decide) storageOrder_valid).1 (by decide)
      ⟨2, by decide, by decide⟩⟩

/-- C4 as stated fails: test 1 has no output half, yet the import returns the
subtask count error of line 166, whose message names no test number, because
the properties list two subtasked tests and one test was discovered. -/
theorem missing_half_preempted :
    scanArchive sampleParser NewArchiveCtx lonelyInputArchive =
      (none, (scanArchive sampleParser NewArchiveCtx lonelyInputArchive).2) ∧
    mapKeys (scanArchive sampleParser NewArchiveCtx lonelyInputArchive).2.tests = [1] ∧
    ¬ hasBothHalves (scanArchive sampleParser NewArchiveCtx lonelyInputArchive).2.tests 1 ∧
    ProcessZipTestArchive sampleParser storageOrder okBase 1 lonelyInputArchive =
      (.returned (some (.Statusf 400
        "Mismatched number of tests in archive and tests that correspond to at least one subtask".toList)),
        []) ∧
    ∀ k, (ProcessZipTestArchive sampleParser storageOrder okBase 1 lonelyInputArchive).1 ≠
      .returned (some (.Statusf 400
        ("Missing input or output file for test ".toList ++ Itoa k))) := by
  refine ⟨by decide, by decide, by decide, by decide, ?_⟩
  intro k
  have h : (ProcessZipTestArchive sampleParser storageOrder okBase 1 lonelyInputArchive).1 =
      .returned (some errMismatch) := by decide
  rw [h]
  intro e
  simp only [Outcome.returned.injEq, Option.some.injEq] at e
  exact errMismatch_ne_missing k e


/-! ## C5: registration of the two halves -/

theorem suffix_clash {s a b : Str} (ha : HasSuffix s a = true) (hb : HasSuffix s b = true)
    (hlen : a.length ≤ b.length) : a.isSuffixOf b = true := by
  unfold HasSuffix at ha hb
  rw [List.isSuffixOf_iff_suffix] at ha hb ⊢
  exact List.suffix_of_suffix_length_le ha hb hlen

theorem not_score_or_props {name suffix : Str} (h : HasSuffix name suffix = true)
    (h1 : suffix.isSuffixOf ".txt".toList = false)
    (h2 : suffix.isSuffixOf ".properties".toList = false)
    (hl1 : suffix.length ≤ ".txt".toList.length) :
    HasSuffix name ".txt".toList = false ∧ HasSuffix name ".properties".toList = false := by
  constructor
  · by_contra hc
    rw [Bool.not_eq_false] at hc
    rw [suffix_clash h hc hl1] at h1
    cases h1
  · by_contra hc
    rw [Bool.not_eq_false] at hc
    have hl2 : suffix.length ≤ ".properties".toList.length :=
      le_trans hl1 (by decide)
    rw [suffix_clash h hc hl2] at h2
    cases h2

theorem input_not_output {name : Str} (h : HasSuffix name ".in".toList = true) :
    (HasSuffix name ".out".toList || HasSuffix name ".ok".toList ||
      HasSuffix name ".sol".toList) = false := by
  have h1 : HasSuffix name ".out".toList = false := by
    by_contra hc
    rw [Bool.not_eq_false] at hc
    exact absurd (suffix_clash h hc (by decide)) (by decide)
  have h2 : HasSuffix name ".ok".toList = false := by
    by_contra hc
    rw [Bool.not_eq_false] at hc
    exact absurd (suffix_clash h hc (by decide)) (by decide)
  have h3 : HasSuffix name ".sol".toList = false := by
    by_contra hc
    rw [Bool.not_eq_false] at hc
    exact absurd (suffix_clash h hc (by decide)) (by decide)
  rw [h1, h2, h3]
  rfl

theorem output_not_input {name : Str}
    (h : (HasSuffix name ".out".toList || HasSuffix name ".ok".toList ||
      HasSuffix name ".sol".toList) = true) : HasSuffix name ".in".toList = false := by
  by_contra hc
  rw [Bool.not_eq_false] at hc
  rw [input_not_output hc] at h
  cases h

theorem output_not_score {name : Str}
    (h : (HasSuffix name ".out".toList || HasSuffix name ".ok".toList ||
      HasSuffix name ".sol".toList) = true) :
    HasSuffix name ".txt".toList = false ∧ HasSuffix name ".properties".toList = false := by
  simp only [Bool.or_eq_true] at h
  rcases h with (h | h) | h
  · exact not_score_or_props h (by decide) (by decide) (by decide)
  · exact not_score_or_props h (by decide) (by decide) (by decide)
  · exact not_score_or_props h (by decide) (by decide) (by decide)

/-- C5: for an entry whose base name resolves to test number `tid`: if the base
name ends in `.in`, the entry becomes the input half of `tid` when none is
registered, and otherwise the call returns a 400 error and leaves the context,
hence the first registered file, as it was; if the base name ends in `.out`,
`.ok` or `.sol`, the same holds for the output half. -/
theorem half_registration (parse : PropsParser) (ctx : ArchiveCtx) (file : ZipFile) (tid : Int)
    (hnum : resolveTestNumber (pathBase file.Name) = some tid) :
    (HasSuffix (pathBase file.Name) ".in".toList = true →
      ((mapGet ctx.tests tid).InFile = none →
        ProcessArchiveFile parse ctx file =
          (none, { ctx with tests :=
            (mapSet ctx.tests tid { mapGet ctx.tests tid with InFile := some file }) }) ∧
        (mapGet (ProcessArchiveFile parse ctx file).2.tests tid).InFile = some file) ∧
      ((mapGet ctx.tests tid).InFile ≠ none →
        ProcessArchiveFile parse ctx file =
          (some (.Statusf 400 ("Multiple input files for test ".toList ++ Itoa tid)), ctx))) ∧
    ((HasSuffix (pathBase file.Name) ".out".toList = true ∨
        HasSuffix (pathBase file.Name) ".ok".toList = true ∨
        HasSuffix (pathBase file.Name) ".sol".toList = true) →
      ((mapGet ctx.tests tid).OutFile = none →
        ProcessArchiveFile parse ctx file =
          (none, { ctx with tests :=
            (mapSet ctx.tests tid { mapGet ctx.tests tid with OutFile := some file }) }) ∧
        (mapGet (ProcessArchiveFile parse ctx file).2.tests tid).OutFile = some file) ∧
      ((mapGet ctx.tests tid).OutFile ≠ none →
        ProcessArchiveFile parse ctx file =
          (some (.Statusf 400 ("Multiple output files for test ".toList ++ Itoa tid)), ctx))) := by
  constructor
  · intro hin
    have hns := not_score_or_props hin (by decide) (by decide) (by decide)
    have hno := input_not_output hin
    have hreg : ProcessArchiveFile parse ctx file = registerInput ctx tid file := by
      unfold ProcessArchiveFile
      simp only [hns.1, hns.2, hnum, hin, hno, Bool.false_eq_true, if_false, if_true]
      cases registerInput ctx tid file with
      | mk e c => cases e <;> rfl
    rw [hreg]
    unfold registerInput
    constructor
    · intro hnone
      simp only [hnone, ne_eq, not_true_eq_false, if_false, true_and]
      rw [mapGet_mapSet, if_pos rfl]
    · intro hsome
      simp only [hsome, ne_eq, not_false_eq_true, if_true]
  · intro hout
    have hout2 : (HasSuffix (pathBase file.Name) ".out".toList ||
        HasSuffix (pathBase file.Name) ".ok".toList ||
        HasSuffix (pathBase file.Name) ".sol".toList) = true := by
      simp only [Bool.or_eq_true]
      tauto
    have hns := output_not_score hout2
    have hni := output_not_input hout2
    have hreg : ProcessArchiveFile parse ctx file = registerOutput ctx tid file := by
      unfold ProcessArchiveFile
      simp only [hns.1, hns.2, hnum, hni, hout2, Bool.false_eq_true, if_false, if_true]
    rw [hreg]
    unfold registerOutput
    constructor
    · intro hnone
      simp only [hnone, ne_eq, not_true_eq_false, if_false, true_and]
      rw [mapGet_mapSet, if_pos rfl]
    · intro hsome
      simp only [hsome, ne_eq, not_false_eq_true, if_true]

/-- Instance of `half_registration`: after `1-a.in` and `1-a.ok`, the entry
`1-a.out` is refused and `1-a.ok` stays the output half of test 1. -/
theorem half_registration_witness :
    resolveTestNumber (pathBase (dataFile "1-a.out").Name) = some 1 ∧
    (mapGet oneTestCtx.tests 1).OutFile = some (dataFile "1-a.ok") ∧
    ProcessArchiveFile noProps oneTestCtx (dataFile "1-a.out") =
      (some (.Statusf 400 ("Multiple output files for test ".toList ++ Itoa 1)), oneTestCtx) :=
  ⟨by decide, by decide,
    ((half_registration noProps oneTestCtx (dataFile "1-a.out") 1 (by decide)).2
      (Or.inl (by decide))).2 (by decide)⟩


/-! ## Reading back what the export wrote -/

theorem pathBase_plain (p : Str) (hne : p ≠ []) (h : '/' ∉ p) : pathBase p = p := by
  unfold pathBase
  rw [if_neg hne]
  have hr : '/' ∉ p.reverse := by simpa using h
  have hd : p.reverse.dropWhile (fun c => decide (c = '/')) = p.reverse := by
    cases hp : p.reverse with
    | nil => rfl
    | cons c cs =>
      rw [hp] at hr
      simp only [List.mem_cons, not_or] at hr
      have hc : decide (c = '/') = false := decide_eq_false (fun e => hr.1 e.symm)
      simp [List.dropWhile, hc]
  have ht : p.reverse.takeWhile (fun c => c != '/') = p.reverse := by
    rw [List.takeWhile_eq_self_iff]
    intro c hc
    simp only [bne_iff_ne, ne_eq]
    intro e
    exact hr (e ▸ hc)
  simp only [hd, ht, List.reverse_reverse]
  rw [if_neg hne]

theorem Itoa_no_slash (n : Int) : '/' ∉ Itoa n := by
  intro hc
  rcases Itoa_chars _ _ hc with hd | hd
  · exact absurd hd (by decide)
  · exact absurd hd (by decide)

theorem entryName_plain (v : Int) (testName ext : Str) (h : '/' ∉ testName) (he : '/' ∉ ext) :
    pathBase (Itoa v ++ "-".toList ++ testName ++ ext) = Itoa v ++ '-' :: (testName ++ ext) := by
  have e : Itoa v ++ "-".toList ++ testName ++ ext = Itoa v ++ '-' :: (testName ++ ext) := by
    simp
  rw [e]
  apply pathBase_plain
  · simp
  · simp only [List.mem_append, List.mem_cons, not_or]
    exact ⟨Itoa_no_slash v, by decide, h, he⟩

theorem HasSuffix_append (s suffix : Str) : HasSuffix (s ++ suffix) suffix = true := by
  unfold HasSuffix
  rw [List.isSuffixOf_iff_suffix]
  exact List.suffix_append s suffix

theorem ProcessArchiveFile_input (parse : PropsParser) (ctx : ArchiveCtx) (file : ZipFile)
    (v : Int) (testName : Str) (hv1 : minInt64 ≤ v) (hv2 : v ≤ maxInt64)
    (hname : '/' ∉ testName)
    (hfile : file.Name = Itoa v ++ "-".toList ++ testName ++ ".in".toList) :
    ProcessArchiveFile parse ctx file = registerInput ctx v file := by
  have hb : pathBase file.Name = Itoa v ++ '-' :: (testName ++ ".in".toList) := by
    rw [hfile]; exact entryName_plain v testName _ hname (by decide)
  have hin : HasSuffix (pathBase file.Name) ".in".toList = true := by
    rw [hb]
    have := HasSuffix_append (Itoa v ++ '-' :: testName) ".in".toList
    simpa using this
  have hns := not_score_or_props hin (by decide) (by decide) (by decide)
  have hno := input_not_output hin
  have hres : resolveTestNumber (pathBase file.Name) = some v := by
    unfold resolveTestNumber
    rw [hb, parseTestPrefix_printed v _ hv1 hv2]
  unfold ProcessArchiveFile
  simp only [hns.1, hns.2, hres, hin, hno, Bool.false_eq_true, if_false, if_true]
  rcases hr : registerInput ctx v file with ⟨_ | e, ctx1⟩ <;> rfl

theorem ProcessArchiveFile_output (parse : PropsParser) (ctx : ArchiveCtx) (file : ZipFile)
    (v : Int) (testName : Str) (hv1 : minInt64 ≤ v) (hv2 : v ≤ maxInt64)
    (hname : '/' ∉ testName)
    (hfile : file.Name = Itoa v ++ "-".toList ++ testName ++ ".ok".toList) :
    ProcessArchiveFile parse ctx file = registerOutput ctx v file := by
  have hb : pathBase file.Name = Itoa v ++ '-' :: (testName ++ ".ok".toList) := by
    rw [hfile]; exact entryName_plain v testName _ hname (by decide)
  have hok : HasSuffix (pathBase file.Name) ".ok".toList = true := by
    rw [hb]
    have := HasSuffix_append (Itoa v ++ '-' :: testName) ".ok".toList
    simpa using this
  have hout : (HasSuffix (pathBase file.Name) ".out".toList ||
      HasSuffix (pathBase file.Name) ".ok".toList ||
      HasSuffix (pathBase file.Name) ".sol".toList) = true := by
    rw [hok]; simp
  have hns := output_not_score hout
  have hni := output_not_input hout
  have hres : resolveTestNumber (pathBase file.Name) = some v := by
    unfold resolveTestNumber
    rw [hb, parseTestPrefix_printed v _ hv1 hv2]
  unfold ProcessArchiveFile
  simp only [hns.1, hns.2, hres, hni, hout, Bool.false_eq_true, if_false, if_true]

theorem scan_dataEntries (parse : PropsParser) (env : ExportEnv) (testName : Str)
    (hname : '/' ∉ testName) (more : List ZipFile) (tests : List Test) :
    ∀ (ctx : ArchiveCtx), (tests.map (fun t => t.VisibleID)).Nodup →
      (∀ t ∈ tests, t.VisibleID ∉ mapKeys ctx.tests) →
      (∀ t ∈ tests, minInt64 ≤ t.VisibleID ∧ t.VisibleID ≤ maxInt64) →
      ∃ ctx2, scanArchive parse ctx ((dataEntries env testName tests).map asZipFile ++ more) =
          scanArchive parse ctx2 more ∧
        ctx2.scoredTests = ctx.scoredTests ∧ ctx2.props = ctx.props ∧
        mapKeys ctx2.tests = mapKeys ctx.tests ++ tests.map (fun t => t.VisibleID) ∧
        (∀ k, k ∉ tests.map (fun t => t.VisibleID) →
          mapLookup ctx2.tests k = mapLookup ctx.tests k) ∧
        (∀ t ∈ tests, ∃ input output,
          mapLookup ctx2.tests t.VisibleID =
            some ⟨some (asZipFile ⟨inputName testName t, input⟩),
              some (asZipFile ⟨outputName testName t, output⟩), 0⟩) := by
  induction tests with
  | nil =>
    intro ctx _ _ _
    exact ⟨ctx, by simp [dataEntries], rfl, rfl, by simp, fun _ _ => rfl,
      fun t ht => by cases ht⟩
  | cons t rest ih =>
    intro ctx hnd hfresh hrange
    simp only [List.map_cons, List.nodup_cons] at hnd
    have hv := hrange t (by simp)
    have hk : t.VisibleID ∉ mapKeys ctx.tests := hfresh t (by simp)
    let inF : ZipFile := asZipFile ⟨inputName testName t, (env.TestInput t.ID).getD []⟩
    let outF : ZipFile := asZipFile ⟨outputName testName t, (env.TestOutput t.ID).getD []⟩
    have hinDir : inF.IsDir = false := by
      simp only [inF, asZipFile, inputName]
      apply decide_eq_false
      rw [List.getLast?_append_of_ne_nil _ (by decide)]
      decide
    have houtDir : outF.IsDir = false := by
      simp only [outF, asZipFile, outputName]
      apply decide_eq_false
      rw [List.getLast?_append_of_ne_nil _ (by decide)]
      decide
    let ctx1 : ArchiveCtx :=
      { ctx with tests := mapSet ctx.tests t.VisibleID ⟨some inF, none, 0⟩ }
    let ctx2 : ArchiveCtx :=
      { ctx1 with tests := mapSet ctx1.tests t.VisibleID ⟨some inF, some outF, 0⟩ }
    have h1 : ProcessArchiveFile parse ctx inF = (none, ctx1) := by
      rw [ProcessArchiveFile_input parse ctx inF t.VisibleID testName hv.1 hv.2 hname rfl]
      unfold registerInput
      simp only [mapGet_of_not_mem _ _ hk]
      rfl
    have h2 : ProcessArchiveFile parse ctx1 outF = (none, ctx2) := by
      rw [ProcessArchiveFile_output parse ctx1 outF t.VisibleID testName hv.1 hv.2 hname rfl]
      unfold registerOutput
      have hg : mapGet ctx1.tests t.VisibleID = ⟨some inF, none, 0⟩ := by
        simp [ctx1, mapGet_mapSet]
      simp only [hg]
      rfl
    have hkeys2 : mapKeys ctx2.tests = mapKeys ctx.tests ++ [t.VisibleID] := by
      simp only [ctx2, ctx1]
      rw [mapKeys_mapSet, mapKeys_mapSet, if_neg hk, if_pos (by simp)]
    obtain ⟨ctx3, e3, s3, p3, k3, o3, m3⟩ := ih ctx2 hnd.2
      (by
        intro u hu
        rw [hkeys2]
        simp only [List.mem_append, List.mem_singleton, not_or]
        refine ⟨hfresh u (List.mem_cons_of_mem _ hu), fun e => hnd.1 ?_⟩
        rw [← e]
        exact List.mem_map_of_mem _ hu)
      (fun u hu => hrange u (List.mem_cons_of_mem _ hu))
    refine ⟨ctx3, ?_, ?_, ?_, ?_, ?_, ?_⟩
    · have hd : (dataEntries env testName (t :: rest)).map asZipFile ++ more =
          inF :: outF :: ((dataEntries env testName rest).map asZipFile ++ more) := by
        simp [dataEntries, inF, outF]
      rw [hd, ← e3]
      simp only [scanArchive, hinDir, houtDir, h1, h2, Bool.false_eq_true, if_false]
    · rw [s3]
    · rw [p3]
    · rw [k3, hkeys2]; simp
    · intro k hkn
      simp only [List.map_cons, List.mem_cons, not_or] at hkn
      rw [o3 k hkn.2]
      simp only [ctx2, ctx1]
      rw [mapLookup_mapSet, mapLookup_mapSet, if_neg (fun e => hkn.1 e.symm),
        if_neg (fun e => hkn.1 e.symm)]
    · intro u hu
      rcases List.mem_cons.mp hu with rfl | hr
      · refine ⟨(env.TestInput u.ID).getD [], (env.TestOutput u.ID).getD [], ?_⟩
        rw [o3 _ hnd.1]
        simp only [ctx2]
        rw [mapLookup_mapSet, if_pos rfl]
      · exact m3 u hr

theorem scoreLine_ne_nil (t : Test) : scoreLine t ≠ [] := by
  unfold scoreLine
  intro h
  have := congrArg List.length h
  simp at this

theorem scoreLoop_printed (tests : List Test) :
    ∀ (ctx : ArchiveCtx), (tests.map (fun t => t.VisibleID)).Nodup →
      (∀ t ∈ tests, t.VisibleID ∉ ctx.scoredTests) →
      (∀ t ∈ tests, t.VisibleID ∈ mapKeys ctx.tests) →
      (∀ t ∈ tests, minInt64 ≤ t.VisibleID ∧ t.VisibleID ≤ maxInt64 ∧
        minInt64 ≤ t.Score ∧ t.Score ≤ maxInt64) →
      ∃ ctx2, scoreLoop ctx (tests.map scoreLine) = (none, ctx2) ∧
        ctx2.scoredTests = ctx.scoredTests ++ tests.map (fun t => t.VisibleID) ∧
        ctx2.props = ctx.props ∧
        mapKeys ctx2.tests = mapKeys ctx.tests ∧
        (∀ k, k ∉ tests.map (fun t => t.VisibleID) →
          mapLookup ctx2.tests k = mapLookup ctx.tests k) ∧
        (∀ t ∈ tests, mapLookup ctx2.tests t.VisibleID =
          some { mapGet ctx.tests t.VisibleID with Score := t.Score }) := by
  induction tests with
  | nil =>
    intro ctx _ _ _ _
    exact ⟨ctx, rfl, by simp, rfl, rfl, fun _ _ => rfl, fun t ht => by cases ht⟩
  | cons t rest ih =>
    intro ctx hnd hfresh hkeys hrange
    simp only [List.map_cons, List.nodup_cons] at hnd
    have hv := hrange t (by simp)
    have hp := parseScoreLine_printed t.VisibleID t.Score hv.1 hv.2.1 hv.2.2.1 hv.2.2.2
    have hns : t.VisibleID ∉ ctx.scoredTests := hfresh t (by simp)
    let ctx1 : ArchiveCtx :=
      { tests := mapSet ctx.tests t.VisibleID
          { mapGet ctx.tests t.VisibleID with Score := t.Score },
        scoredTests := ctx.scoredTests ++ [t.VisibleID],
        props := ctx.props }
    have hstep : scoreLoop ctx (scoreLine t :: rest.map scoreLine) =
        scoreLoop ctx1 (rest.map scoreLine) := by
      have hp2 : parseScoreLine (scoreLine t) = some (t.VisibleID, t.Score) := hp
      rw [scoreLoop]
      simp only [if_neg (scoreLine_ne_nil t), hp2, if_neg hns]
    have hk1 : mapKeys ctx1.tests = mapKeys ctx.tests := by
      simp only [ctx1]
      rw [mapKeys_mapSet, if_pos (hkeys t (by simp))]
    obtain ⟨ctx3, e3, s3, p3, k3, o3, m3⟩ := ih ctx1 hnd.2
      (by
        intro u hu
        simp only [ctx1, List.mem_append, List.mem_singleton, not_or]
        refine ⟨hfresh u (List.mem_cons_of_mem _ hu), fun e => hnd.1 ?_⟩
        rw [← e]
        exact List.mem_map_of_mem _ hu)
      (by
        intro u hu
        rw [hk1]
        exact hkeys u (List.mem_cons_of_mem _ hu))
      (fun u hu => hrange u (List.mem_cons_of_mem _ hu))
    refine ⟨ctx3, ?_, ?_, ?_, ?_, ?_, ?_⟩
    · simp only [List.map_cons]
      rw [hstep, e3]
    · rw [s3]; simp [ctx1]
    · rw [p3]
    · rw [k3, hk1]
    · intro k hkn
      simp only [List.map_cons, List.mem_cons, not_or] at hkn
      rw [o3 k hkn.2]
      simp only [ctx1]
      rw [mapLookup_mapSet, if_neg (fun e => hkn.1 e.symm)]
    · intro u hu
      rcases List.mem_cons.mp hu with rfl | hr
      · rw [o3 _ hnd.1]
        simp only [ctx1]
        rw [mapLookup_mapSet, if_pos rfl]
      · rw [m3 u hr]
        have hne : t.VisibleID ≠ u.VisibleID := by
          intro e
          apply hnd.1
          rw [e]
          exact List.mem_map_of_mem _ hr
        simp only [ctx1]
        rw [mapGet_mapSet, if_neg hne]

theorem scan_testEntries (parse : PropsParser) (env : ExportEnv) (testName : Str)
    (tests : List Test) (hname : '/' ∉ testName)
    (hdistinct : (tests.map (fun t => t.VisibleID)).Nodup)
    (hrange : ∀ t ∈ tests, minInt64 ≤ t.VisibleID ∧ t.VisibleID ≤ maxInt64 ∧
      minInt64 ≤ t.Score ∧ t.Score ≤ maxInt64) :
    ∃ ctx, scanArchive parse NewArchiveCtx ((testEntries env testName tests).map asZipFile) =
        (none, ctx) ∧
      ctx.props = none ∧
      mapKeys ctx.tests = tests.map (fun t => t.VisibleID) ∧
      (∀ t ∈ tests, ∃ input output,
        mapLookup ctx.tests t.VisibleID =
          some ⟨some (asZipFile ⟨inputName testName t, input⟩),
            some (asZipFile ⟨outputName testName t, output⟩), t.Score⟩) ∧
      ctx.scoredTests = tests.map (fun t => t.VisibleID) := by
  obtain ⟨ctx1, e1, s1, p1, k1, _, m1⟩ := scan_dataEntries parse env testName hname
    [asZipFile (scoreEntry tests)] tests NewArchiveCtx hdistinct
    (fun t _ => by simp [NewArchiveCtx, mapKeys])
    (fun t ht => ⟨(hrange t ht).1, (hrange t ht).2.1⟩)
  have hk1 : mapKeys ctx1.tests = tests.map (fun t => t.VisibleID) := by
    rw [k1]; simp [NewArchiveCtx, mapKeys]
  obtain ⟨ctx2, e2, s2, p2, k2, _, m2⟩ := scoreLoop_printed tests ctx1 hdistinct
    (fun t _ => by rw [s1]; simp [NewArchiveCtx])
    (fun t ht => by rw [hk1]; exact List.mem_map_of_mem _ ht)
    hrange
  refine ⟨ctx2, ?_, ?_, ?_, ?_, ?_⟩
  · have hscore : ProcessArchiveFile parse ctx1 (asZipFile (scoreEntry tests)) =
        (none, ctx2) := by
      have hb : pathBase (asZipFile (scoreEntry tests)).Name = "tests.txt".toList := by
        simp only [asZipFile, scoreEntry]
        decide
      unfold ProcessArchiveFile
      simp only [hb]
      rw [if_pos (by decide)]
      unfold ProcessScoreFile
      simp only [asZipFile, scoreEntry, scanLines_scoreContent, e2]
      rfl
    have hdir : (asZipFile (scoreEntry tests)).IsDir = false := by
      show decide ("tests.txt".toList.getLast? = some '/') = false
      decide
    unfold testEntries
    rw [List.map_append, List.map_singleton, e1]
    simp only [scanArchive, hdir, hscore, Bool.false_eq_true, if_false]
  · rw [p2, p1]; rfl
  · rw [k2, hk1]
  · intro t ht
    obtain ⟨input, output, hl⟩ := m1 t ht
    refine ⟨input, output, ?_⟩
    rw [m2 t ht]
    unfold mapGet
    rw [hl]
    rfl
  · rw [s2, s1]; simp [NewArchiveCtx]

/-! ## A re-import that meets no failure -/

theorem scanArchive_append (parse : PropsParser) (a b : List ZipFile) :
    ∀ (ctx ctx1 : ArchiveCtx), scanArchive parse ctx a = (none, ctx1) →
      scanArchive parse ctx (a ++ b) = scanArchive parse ctx1 b := by
  induction a with
  | nil =>
    intro ctx ctx1 h
    simp only [scanArchive, Prod.mk.injEq, true_and] at h
    rw [h]; rfl
  | cons file rest ih =>
    intro ctx ctx1 h
    by_cases hd : file.IsDir = true
    · rw [scanArchive, if_pos hd] at h
      rw [List.cons_append, scanArchive, if_pos hd]
      exact ih _ _ h
    · rw [scanArchive, if_neg hd] at h
      rw [List.cons_append, scanArchive, if_neg hd]
      rcases hp : ProcessArchiveFile parse ctx file with ⟨_ | e, ctx2⟩
      · rw [hp] at h
        exact ih _ _ h
      · rw [hp] at h
        cases h

theorem createLoop_success (base : BaseAPI) (pbID : Int) (tests : List (Int × archiveTest))
    (hbase : ∀ history call, base.fail history call = none) (order : List Int) :
    ∀ (tr : List StoreCall) (created : List (Int × Int)), order.Nodup →
      (∀ k ∈ order, ∃ inF outF s, mapLookup tests k = some ⟨some inF, some outF, s⟩ ∧
        inF.Body ≠ .unreadable ∧ outF.Body ≠ .unreadable) →
      ∃ tr2 created2 ext, createLoop base pbID tests order tr created = (none, tr2, created2) ∧
        tr2 = tr ++ ext ∧ ext.filterMap subtaskArgs = [] ∧
        (∀ k, k ∉ order → mapLookup created2 k = mapLookup created k) ∧
        (∀ k ∈ order, ∃ pre post,
          tr2 = pre ++ StoreCall.CreateTest pbID k (mapGet tests k).Score :: post ∧
          mapLookup created2 k = some (base.newID pre)) := by
  induction order with
  | nil =>
    intro tr created _ _
    exact ⟨tr, created, [], rfl, by simp, rfl, fun _ _ => rfl, fun k hk => by cases hk⟩
  | cons testID rest ih =>
    intro tr created hnd hall
    simp only [List.nodup_cons] at hnd
    obtain ⟨inF, outF, s, hl, hi, ho⟩ := hall testID (by simp)
    have hg : mapGet tests testID = ⟨some inF, some outF, s⟩ := by
      unfold mapGet; rw [hl]; rfl
    obtain ⟨tr2, created2, ext, e, hext, hsub, hother, hlink⟩ :=
      ih (tr ++ [StoreCall.CreateTest pbID testID s] ++
          [StoreCall.SaveTestInput (base.newID tr) inF] ++
          [StoreCall.SaveTestOutput (base.newID tr) outF])
        (mapSet created testID (base.newID tr)) hnd.2
        (fun k hk => hall k (List.mem_cons_of_mem _ hk))
    refine ⟨tr2, created2,
      StoreCall.CreateTest pbID testID s :: StoreCall.SaveTestInput (base.newID tr) inF ::
        StoreCall.SaveTestOutput (base.newID tr) outF :: ext, ?_, ?_, ?_, ?_, ?_⟩
    · unfold createLoop
      simp only [hg, hbase, if_neg hi, if_neg ho]
      exact e
    · rw [hext]; simp
    · simp [List.filterMap_cons, subtaskArgs, hsub]
    · intro k hk
      simp only [List.mem_cons, not_or] at hk
      rw [hother k hk.2, mapLookup_mapSet, if_neg (fun e => hk.1 e.symm)]
    · intro k hk
      rcases List.mem_cons.mp hk with rfl | hr
      · refine ⟨tr, StoreCall.SaveTestInput (base.newID tr) inF ::
          StoreCall.SaveTestOutput (base.newID tr) outF :: ext, ?_, ?_⟩
        · rw [hext, hg]; simp
        · rw [hother _ hnd.1, mapLookup_mapSet, if_pos rfl]
      · exact hlink k hr

theorem resolveTests_ok (created : List (Int × Int)) (tests : List Int) :
    ∀ (out : List Int), (∀ t ∈ tests, t ∈ mapKeys created) →
      resolveTests created tests out = .ok (out ++ tests.map (fun t => mapGet created t)) := by
  induction tests with
  | nil => intro out _; simp [resolveTests]
  | cons t rest ih =>
    intro out h
    have ht : t ∈ mapKeys created := h t (by simp)
    cases hl : mapLookup created t with
    | none => exact absurd ht ((mapLookup_eq_none created t).mp hl)
    | some id =>
      unfold resolveTests
      simp only [hl]
      rw [ih _ (fun u hu => h u (List.mem_cons_of_mem _ hu))]
      simp [mapGet, hl]

theorem subtaskLoop_success (base : BaseAPI) (pbID : Int) (stks : List (Int × Subtask))
    (created : List (Int × Int)) (hbase : ∀ history call, base.fail history call = none)
    (order : List Int) :
    ∀ (tr : List StoreCall),
      (∀ sid ∈ order, ∀ t ∈ (mapGet stks sid).Tests, t ∈ mapKeys created) →
      subtaskLoop base pbID stks created order tr =
        (none, tr ++ order.map (fun sid => StoreCall.CreateSubTask pbID sid (mapGet stks sid).Score
          ((mapGet stks sid).Tests.map (fun t => mapGet created t)))) := by
  induction order with
  | nil => intro tr _; simp [subtaskLoop]
  | cons sid rest ih =>
    intro tr h
    unfold subtaskLoop
    simp only [resolveTests_ok created _ [] (h sid (by simp)), hbase, List.nil_append]
    rw [ih _ (fun s hs => h s (List.mem_cons_of_mem _ hs))]
    simp

theorem applyProps_success (ord : MapOrder) (base : BaseAPI) (pbID : Int) (p : Properties)
    (created : List (Int × Int)) (tr : List StoreCall) (stks : List (Int × Subtask))
    (hbase : ∀ history call, base.fail history call = none)
    (hstks : p.Subtasks = some stks)
    (hmem : ∀ sid ∈ ord.subtasks (mapKeys stks), ∀ t ∈ (mapGet stks sid).Tests,
      t ∈ mapKeys created) :
    ∃ ext, applyProps ord base pbID p created tr = (none, tr ++ ext) ∧
      ext.filterMap subtaskArgs = (ord.subtasks (mapKeys stks)).map (fun sid =>
        ((mapGet stks sid).Score, (mapGet stks sid).Tests.map (fun t => mapGet created t))) := by
  unfold applyProps
  simp only [hbase, hstks]
  split
  · rename_i e tr1 h1
    split at h1 <;> cases h1
  · rename_i tr1 h1
    have h2 : ∃ ext1, tr1 = tr ++ ext1 ∧ ext1.filterMap subtaskArgs = [] := by
      split at h1
      · simp only [Prod.mk.injEq, true_and] at h1
        exact ⟨_, h1.symm, rfl⟩
      · simp only [Prod.mk.injEq, true_and] at h1
        exact ⟨[], by simp [h1], rfl⟩
    obtain ⟨ext1, he1, hs1⟩ := h2
    rw [subtaskLoop_success base pbID stks created hbase _ _ hmem, he1]
    refine ⟨ext1 ++ [StoreCall.DeleteSubTasks pbID] ++
      (ord.subtasks (mapKeys stks)).map (fun sid =>
        StoreCall.CreateSubTask pbID sid (mapGet stks sid).Score
          ((mapGet stks sid).Tests.map (fun t => mapGet created t))), by simp, ?_⟩
    simp only [List.filterMap_append, hs1, List.filterMap_cons, subtaskArgs, List.filterMap_nil,
      List.nil_append, List.filterMap_map, Function.comp_def]
    exact congrFun (List.filterMap_eq_map _) _

theorem map_mapGet_keys {V W : Type} [Inhabited V] (m : List (Int × V)) (f : V → W)
    (h : (mapKeys m).Nodup) :
    (mapKeys m).map (fun k => f (mapGet m k)) = m.map (fun kv => f kv.2) := by
  induction m with
  | nil => rfl
  | cons p rest ih =>
    obtain ⟨a, b⟩ := p
    simp only [mapKeys, List.map_cons, List.nodup_cons] at h
    have ih2 := ih h.2
    simp only [mapKeys, List.map_map, List.map_cons] at ih2 ⊢
    congr 1
    · simp [mapGet, mapLookup]
    · rw [← ih2]
      apply List.map_congr_left
      intro q hq
      have hne : ¬ a = q.1 := by
        intro e
        apply h.1
        rw [e]
        exact List.mem_map_of_mem Prod.fst hq
      simp [mapGet, mapLookup, hne]

/-! ## The round trip of tests and subtasks -/

theorem buildTmap_source (tests : List Test) :
    ∀ (tmap : List (Int × Test)) (id : Int) (t : Test),
      mapLookup (buildTmap tests tmap) id = some t → t ∈ tests ∨ mapLookup tmap id = some t := by
  induction tests with
  | nil => intro tmap id t h; exact Or.inr h
  | cons t0 rest ih =>
    intro tmap id t h
    simp only [buildTmap] at h
    rcases ih _ _ _ h with h1 | h1
    · exact Or.inl (List.mem_cons_of_mem _ h1)
    · rw [mapLookup_mapSet] at h1
      split at h1
      · cases h1; exact Or.inl (List.mem_cons_self _ _)
      · exact Or.inr h1

theorem memberVisibleIDs_mem (tests : List Test) (st : SubTask) :
    ∀ v ∈ memberVisibleIDs tests st, v ∈ tests.map (fun t => t.VisibleID) := by
  intro v hv
  unfold memberVisibleIDs at hv
  rw [List.mem_filterMap] at hv
  obtain ⟨id, _, hid⟩ := hv
  cases hl : mapLookup (buildTmap tests []) id with
  | none => rw [hl] at hid; cases hid
  | some t =>
    rw [hl] at hid
    have hid2 : t.VisibleID = v := by simpa using hid
    rcases buildTmap_source tests [] id t hl with h | h
    · rw [← hid2]; exact List.mem_map_of_mem _ h
    · cases h

theorem memberVisibleIDs_length (tests : List Test) (st : SubTask)
    (hmem : ∀ id ∈ st.Tests, ∃ t ∈ tests, t.ID = id) :
    (memberVisibleIDs tests st).length = st.Tests.length := by
  unfold memberVisibleIDs
  have h : ∀ ids : List Int, (∀ id ∈ ids, ∃ t ∈ tests, t.ID = id) →
      (ids.filterMap (fun id =>
        (mapLookup (buildTmap tests []) id).map (fun t => t.VisibleID))).length = ids.length := by
    intro ids
    induction ids with
    | nil => intro _; rfl
    | cons id rest ih =>
      intro hall
      obtain ⟨t, ht, he⟩ := hall id (by simp)
      cases hl : mapLookup (buildTmap tests []) id with
      | none =>
        exfalso
        rw [mapLookup_eq_none] at hl
        apply hl
        have hk : ∀ (ts : List Test) (tmap : List (Int × Test)) (k : Int),
            (k ∈ ts.map (fun t => t.ID) ∨ k ∈ mapKeys tmap) → k ∈ mapKeys (buildTmap ts tmap) := by
          intro ts
          induction ts with
          | nil => intro tmap k h; simpa [buildTmap] using h
          | cons a r ihr =>
            intro tmap k h
            simp only [buildTmap]
            apply ihr
            rw [mem_mapKeys_mapSet]
            simp only [List.map_cons, List.mem_cons] at h
            rcases h with (h | h) | h
            · exact Or.inr (Or.inl h)
            · exact Or.inl h
            · exact Or.inr (Or.inr h)
        apply hk
        left
        rw [← he]
        exact List.mem_map_of_mem _ ht
      | some u =>
        have := ih (fun i hi => hall i (List.mem_cons_of_mem _ hi))
        simp [List.filterMap_cons, hl, this]
  exact h st.Tests hmem

theorem mapGet_mem {V : Type} [Inhabited V] (m : List (Int × V)) (k : Int)
    (h : k ∈ mapKeys m) : mapGet m k ∈ m.map Prod.snd := by
  induction m with
  | nil => simp [mapKeys] at h
  | cons p rest ih =>
    obtain ⟨a, b⟩ := p
    by_cases hk : a = k
    · simp [mapGet, mapLookup, hk]
    · simp only [mapKeys, List.map_cons, List.mem_cons] at h
      rcases h with h | h
      · exact absurd h.symm hk
      · have := ih h
        simp only [mapGet, mapLookup, hk, if_false, List.map_cons, List.mem_cons] at this ⊢
        exact Or.inr this

theorem scan_exported (parse : PropsParser) (env : ExportEnv) (pb : Problem)
    (tests : List Test) (subtasks : List SubTask) (es : List WrittenEntry) (p : Properties)
    (hgen : GenerateArchive env pb = (none, es))
    (htests : env.Tests = .ok tests)
    (hsubs : env.SubTasks = .ok subtasks)
    (hne : subtasks ≠ [])
    (hdistinct : (tests.map (fun t => t.VisibleID)).Nodup)
    (hrange : ∀ t ∈ tests, minInt64 ≤ t.VisibleID ∧ t.VisibleID ≤ maxInt64 ∧
      minInt64 ≤ t.Score ∧ t.Score ≤ maxInt64)
    (hname : '/' ∉ exportTestName env pb)
    (hparse : parse (asZipFile (propsEntry env pb tests subtasks)) = .ok (some p)) :
    ∃ ctx, scanArchive parse NewArchiveCtx (es.map asZipFile) = (none, ctx) ∧
      ctx.props = some p ∧
      mapKeys ctx.tests = tests.map (fun t => t.VisibleID) ∧
      (∀ t ∈ tests, ∃ input output,
        mapLookup ctx.tests t.VisibleID =
          some ⟨some (asZipFile ⟨inputName (exportTestName env pb) t, input⟩),
            some (asZipFile ⟨outputName (exportTestName env pb) t, output⟩), t.Score⟩) ∧
      ctx.scoredTests = tests.map (fun t => t.VisibleID) := by
  obtain ⟨tests2, subtasks2, h1, h2, h3⟩ := GenerateArchive_entries env pb es hgen
  rw [htests] at h1
  rw [hsubs] at h2
  cases h1
  cases h2
  have h0 : ¬ subtasks.length = 0 := fun h => hne (List.length_eq_zero.mp h)
  rw [if_neg h0] at h3
  have hes : es = testEntries env (exportTestName env pb) tests ++
      [propsEntry env pb tests subtasks] := by
    rw [h3]; rfl
  obtain ⟨ctx, hscan, hprops, hkeys, hall, hscored⟩ :=
    scan_testEntries parse env (exportTestName env pb) tests hname hdistinct hrange
  refine ⟨{ ctx with props := some p }, ?_, rfl, hkeys, hall, hscored⟩
  rw [hes, List.map_append, scanArchive_append parse _ _ _ _ hscan, List.map_singleton]
  have hdir : (asZipFile (propsEntry env pb tests subtasks)).IsDir = false := by
    show decide ("grader.properties".toList.getLast? = some '/') = false
    decide
  have hb : pathBase (asZipFile (propsEntry env pb tests subtasks)).Name =
      "grader.properties".toList := by
    show pathBase "grader.properties".toList = _
    decide
  have hfile : ProcessArchiveFile parse ctx (asZipFile (propsEntry env pb tests subtasks)) =
      (none, { ctx with props := some p }) := by
    unfold ProcessArchiveFile
    simp only [hb]
    rw [if_neg (by decide), if_pos (by decide)]
    unfold ProcessPropertiesFile
    rw [hparse]
  simp only [scanArchive, hdir, hfile, Bool.false_eq_true, if_false]

/-! ## The round trip for a parser that reads the subtasks back -/

theorem round_trip_of_props (env : ExportEnv) (pb : Problem) (parse : PropsParser)
    (ord : MapOrder) (base : BaseAPI) (pbID : Int) (tests : List Test)
    (subtasks : List SubTask) (es : List WrittenEntry) (p : Properties)
    (stks : List (Int × Subtask))
    (hgen : GenerateArchive env pb = (none, es))
    (htests : env.Tests = .ok tests)
    (hsubs : env.SubTasks = .ok subtasks)
    (hne : subtasks ≠ [])
    (hdistinct : (tests.map (fun t => t.VisibleID)).Nodup)
    (hrange : ∀ t ∈ tests, minInt64 ≤ t.VisibleID ∧ t.VisibleID ≤ maxInt64 ∧
      minInt64 ≤ t.Score ∧ t.Score ≤ maxInt64)
    (hname : '/' ∉ exportTestName env pb)
    (hmem : ∀ st ∈ subtasks, ∀ id ∈ st.Tests, ∃ t ∈ tests, t.ID = id)
    (hord : ord.Valid)
    (hbase : ∀ history call, base.fail history call = none)
    (hparse : parse (asZipFile (propsEntry env pb tests subtasks)) = .ok (some p))
    (hstks : p.Subtasks = some stks)
    (hkeys : (mapKeys stks).Nodup)
    (hread : stks.map Prod.snd =
      subtasks.map (fun st => (⟨st.Score, memberVisibleIDs tests st⟩ : Subtask)))
    (hcover : p.SubtaskedTests.length = tests.length) :
    ∃ (tr : List StoreCall) (created : Int → Int),
      ProcessZipTestArchive parse ord base pbID (es.map asZipFile) = (.returned none, tr) ∧
      (tr.filterMap createArgs).Perm (tests.map (fun t => (t.VisibleID, t.Score))) ∧
      (∀ t ∈ tests, ∃ pre post,
        tr = pre ++ StoreCall.CreateTest pbID t.VisibleID t.Score :: post ∧
        created t.VisibleID = base.newID pre) ∧
      (tr.filterMap subtaskArgs).Perm
        (subtasks.map (fun st => (st.Score, (memberVisibleIDs tests st).map created))) ∧
      (∀ st ∈ subtasks, (memberVisibleIDs tests st).length = st.Tests.length) := by
  obtain ⟨ctx, hscan, hprops, hk, hall, hscored⟩ :=
    scan_exported parse env pb tests subtasks es p hgen htests hsubs hne hdistinct hrange
      hname hparse
  have hlen : ctx.tests.length = tests.length := by
    rw [← length_mapKeys, hk, List.length_map]
  have hget : ∀ t ∈ tests, ∃ input output, mapGet ctx.tests t.VisibleID =
      ⟨some (asZipFile ⟨inputName (exportTestName env pb) t, input⟩),
        some (asZipFile ⟨outputName (exportTestName env pb) t, output⟩), t.Score⟩ := by
    intro t ht
    obtain ⟨input, output, hl⟩ := hall t ht
    exact ⟨input, output, by unfold mapGet; rw [hl]; rfl⟩
  have hkey : ∀ k ∈ mapKeys ctx.tests, ∃ t ∈ tests, t.VisibleID = k := by
    intro k hkk
    rw [hk, List.mem_map] at hkk
    exact hkk
  -- the checks after the scan
  have hmis : subtaskMismatch ctx = false := by
    unfold subtaskMismatch
    rw [hprops]
    simp only [hstks, hcover, hlen]
    simp
  have hhalf : findMissingHalf ctx.tests (ord.check (mapKeys ctx.tests)) = none := by
    cases hf : findMissingHalf ctx.tests (ord.check (mapKeys ctx.tests)) with
    | none => rfl
    | some k =>
      exfalso
      obtain ⟨hin, hnot⟩ := findMissingHalf_some _ _ _ hf
      obtain ⟨t, ht, he⟩ := hkey k ((hord (mapKeys ctx.tests)).1.mem_iff.mp hin)
      obtain ⟨input, output, hg⟩ := hget t ht
      apply hnot
      unfold hasBothHalves
      rw [← he, hg]
      simp
  have hinf : inferScores ord ctx = some ctx := by
    unfold inferScores
    rw [if_neg]
    rw [hscored, hlen]
    simp
  -- the creation of the tests
  have hcnd : (ord.create (mapKeys ctx.tests)).Nodup := by
    rw [(hord (mapKeys ctx.tests)).2.2.1.nodup_iff, hk]
    exact hdistinct
  obtain ⟨tr2, created2, ext, hcl, hext, hsub2, _, hlink⟩ :=
    createLoop_success base pbID ctx.tests hbase (ord.create (mapKeys ctx.tests))
      [StoreCall.OrphanTests pbID] [] hcnd
      (by
        intro k hkk
        obtain ⟨t, ht, he⟩ := hkey k ((hord (mapKeys ctx.tests)).2.2.1.mem_iff.mp hkk)
        obtain ⟨input, output, hl⟩ := hall t ht
        rw [← he]
        exact ⟨_, _, _, hl, by simp [asZipFile], by simp [asZipFile]⟩)
  have hcreated : ∀ v ∈ tests.map (fun t => t.VisibleID), v ∈ mapKeys created2 := by
    intro v hv
    rw [← hk] at hv
    obtain ⟨pre, post, _, hl⟩ := hlink v ((hord (mapKeys ctx.tests)).2.2.1.mem_iff.mpr hv)
    by_contra hc
    rw [(mapLookup_eq_none created2 v).mpr hc] at hl
    cases hl
  -- the creation of the subtasks
  obtain ⟨ext2, hap, hsub3⟩ := applyProps_success ord base pbID p created2 tr2 stks hbase hstks
    (by
      intro sid hsid t ht
      have hsk : sid ∈ mapKeys stks := (hord (mapKeys stks)).2.2.2.mem_iff.mp hsid
      have hm := mapGet_mem stks sid hsk
      rw [hread, List.mem_map] at hm
      obtain ⟨st, _, hst⟩ := hm
      rw [← hst] at ht
      exact hcreated t (memberVisibleIDs_mem tests st t ht))
  have hfinal : ProcessZipTestArchive parse ord base pbID (es.map asZipFile) =
      (.returned none, tr2 ++ ext2) := by
    unfold ProcessZipTestArchive
    rw [hscan]
    simp only
    unfold finishArchive
    rw [hmis, hhalf, hinf]
    simp only [Bool.false_eq_true, if_false]
    unfold commitArchive
    simp only [hbase, hcl, hprops, hap]
  refine ⟨tr2 ++ ext2, fun v => mapGet created2 v, hfinal, ?_, ?_, ?_, ?_⟩
  · have hc : commitArchive ord base pbID ctx = (.returned none, tr2 ++ ext2) := by
      unfold commitArchive
      simp only [hbase, hcl, hprops, hap]
    rw [commitArchive_calls hc]
    have hperm := ((hord (mapKeys ctx.tests)).2.2.1).map
      (fun k => (k, (mapGet ctx.tests k).Score))
    refine hperm.trans ?_
    rw [hk, List.map_map]
    apply List.Perm.of_eq
    apply List.map_congr_left
    intro t ht
    obtain ⟨input, output, hg⟩ := hget t ht
    simp [hg]
  · intro t ht
    have hin : t.VisibleID ∈ ord.create (mapKeys ctx.tests) := by
      rw [(hord (mapKeys ctx.tests)).2.2.1.mem_iff, hk]
      exact List.mem_map_of_mem _ ht
    obtain ⟨pre, post, htr, hl⟩ := hlink _ hin
    obtain ⟨input, output, hg⟩ := hget t ht
    refine ⟨pre, post ++ ext2, ?_, ?_⟩
    · rw [htr, hg]; simp
    · simp [mapGet, hl]
  · rw [List.filterMap_append, hsub3, hext]
    simp only [List.filterMap_append, List.filterMap_cons, subtaskArgs, List.filterMap_nil,
      hsub2, List.nil_append]
    have hperm := ((hord (mapKeys stks)).2.2.2).map (fun sid =>
      ((mapGet stks sid).Score, (mapGet stks sid).Tests.map (fun t => mapGet created2 t)))
    refine hperm.trans ?_
    rw [map_mapGet_keys stks
      (fun s : Subtask => (s.Score, s.Tests.map (fun t => mapGet created2 t))) hkeys]
    have hm : stks.map (fun kv => (kv.2.Score, kv.2.Tests.map (fun t => mapGet created2 t))) =
        (stks.map Prod.snd).map (fun s : Subtask =>
          (s.Score, s.Tests.map (fun t => mapGet created2 t))) := by
      rw [List.map_map]; rfl
    rw [hm, hread, List.map_map]
    exact List.Perm.of_eq rfl
  · intro st hst
    exact memberVisibleIDs_length tests st (hmem st hst)


/-! ## C6: the test number of a data file -/

theorem decimalText_no_dot (neg : Bool) (ds : Str) (hds : ds.all isDigit = true) :
    '.' ∉ decimalText neg ds := by
  have hd : '.' ∉ ds := by
    intro hc
    rw [List.all_eq_true] at hds
    exact absurd (hds _ hc) (by decide)
  cases neg with
  | true =>
    simp only [decimalText, if_true, List.singleton_append, List.mem_cons, not_or]
    exact ⟨by decide, hd⟩
  | false => simpa [decimalText] using hd

/-- C6: a base name made of a decimal integer `n` (in the range of `int`), a
`-` and anything has test number `n`; a base name `<stem>.<n>.<ext>` on which
the `<number>-` rule fails has test number `n`, the last dot-separated token
before the final extension; and a data entry for which neither rule yields an
integer is ignored: no error, same context. -/
theorem test_number_extraction :
    (∀ (neg : Bool) (ds rest : Str), ds ≠ [] → ds.all isDigit = true →
      minInt64 ≤ decimalNumber neg ds → decimalNumber neg ds ≤ maxInt64 →
      resolveTestNumber (decimalText neg ds ++ '-' :: rest) = some (decimalNumber neg ds)) ∧
    (∀ (neg : Bool) (stem ds ext : Str), ds ≠ [] → ds.all isDigit = true →
      minInt64 ≤ decimalNumber neg ds → decimalNumber neg ds ≤ maxInt64 →
      '.' ∉ ext → '/' ∉ ext →
      parseTestPrefix (stem ++ '.' :: decimalText neg ds ++ '.' :: ext) = none →
      resolveTestNumber (stem ++ '.' :: decimalText neg ds ++ '.' :: ext) =
        some (decimalNumber neg ds)) ∧
    (∀ (parse : PropsParser) (ctx : ArchiveCtx) (file : ZipFile),
      HasSuffix (pathBase file.Name) ".txt".toList = false →
      HasSuffix (pathBase file.Name) ".properties".toList = false →
      parseTestPrefix (pathBase file.Name) = none →
      (∀ tok, (splitDot (TrimSuffix (pathBase file.Name)
        (pathExt (pathBase file.Name)))).getLast? = some tok → Atoi tok = none) →
      ProcessArchiveFile parse ctx file = (none, ctx)) := by
  refine ⟨?_, ?_, ?_⟩
  · intro neg ds rest hne hds h1 h2
    unfold resolveTestNumber
    rw [parseTestPrefix_decimal neg ds rest hne hds h1 h2]
  · intro neg stem ds ext hne hds h1 h2 hdot hslash hpre
    unfold resolveTestNumber
    rw [hpre]
    simp only
    rw [pathExt_of_ext _ ext hdot hslash, TrimSuffix_append,
      splitDot_getLast _ _ (decimalText_no_dot neg ds hds)]
    exact Atoi_decimal neg ds hne hds h1 h2
  · intro parse ctx file htxt hprops hpre htok
    have hres : resolveTestNumber (pathBase file.Name) = none := by
      unfold resolveTestNumber
      rw [hpre]
      simp only
      cases hl : (splitDot (TrimSuffix (pathBase file.Name)
          (pathExt (pathBase file.Name)))).getLast? with
      | none => rfl
      | some tok => exact htok tok hl
    unfold ProcessArchiveFile
    simp only [htxt, hprops, hres, Bool.false_eq_true, if_false]

/-- Instance of `test_number_extraction`: `12-abc.in` is test 12, `prob.7.in`
is test 7 and `readme.md` is ignored. -/
theorem test_number_extraction_witness :
    resolveTestNumber "12-abc.in".toList = some 12 ∧
    resolveTestNumber "prob.7.in".toList = some 7 ∧
    ProcessArchiveFile noProps oneTestCtx (dataFile "docs/readme.md") = (none, oneTestCtx) :=
  ⟨test_number_extraction.1 false "12".toList "abc.in".toList (by decide) (by decide)
      (by decide) (by decide),
    test_number_extraction.2.1 false "prob".toList "7".toList "in".toList (by decide)
      (by decide) (by decide) (by decide) (by decide) (by decide) (by decide),
    test_number_extraction.2.2 noProps oneTestCtx (dataFile "docs/readme.md") (by decide)
      (by decide) (by decide) (by decide)⟩


/-! ## C7: classification of an entry -/

theorem scoreLoop_halves (lines : List Str) : ∀ ctx : ArchiveCtx,
    sameHalves (scoreLoop ctx lines).2.tests ctx.tests := by
  induction lines with
  | nil => intro ctx k; simp [scoreLoop]
  | cons line rest ih =>
    intro ctx
    unfold scoreLoop
    split
    · exact ih ctx
    · split
      · exact ih ctx
      · rename_i testID score hp
        have hstep : sameHalves
            (mapSet ctx.tests testID { mapGet ctx.tests testID with Score := score })
            ctx.tests := by
          intro k
          rw [mapGet_mapSet]
          split
          · rename_i e; subst e; exact ⟨rfl, rfl⟩
          · exact ⟨rfl, rfl⟩
        simp only
        split
        · exact hstep
        · intro k
          have h1 := ih { tests := mapSet ctx.tests testID
                            { mapGet ctx.tests testID with Score := score },
                          scoredTests := ctx.scoredTests ++ [testID], props := ctx.props } k
          simp only at h1
          exact ⟨h1.1.trans (hstep k).1, h1.2.trans (hstep k).2⟩

theorem ProcessScoreFile_halves (ctx : ArchiveCtx) (file : ZipFile) :
    sameHalves (ProcessScoreFile ctx file).2.tests ctx.tests := by
  unfold ProcessScoreFile
  split
  · intro k; exact ⟨rfl, rfl⟩
  · rename_i lines scanErr hb
    have := scoreLoop_halves lines ctx
    split
    · rename_i e ctx1 hl
      rw [hl] at this
      exact this
    · rename_i ctx1 hl
      rw [hl] at this
      split <;> exact this

theorem registerInput_scores (ctx : ArchiveCtx) (tid : Int) (file : ZipFile) :
    (registerInput ctx tid file).2.scoredTests = ctx.scoredTests ∧
    (registerInput ctx tid file).2.props = ctx.props ∧
    sameScores (registerInput ctx tid file).2.tests ctx.tests := by
  unfold registerInput
  simp only
  split
  · exact ⟨rfl, rfl, fun k => rfl⟩
  · refine ⟨rfl, rfl, fun k => ?_⟩
    simp only
    rw [mapGet_mapSet]
    split
    · rename_i e; subst e; rfl
    · rfl

theorem registerOutput_scores (ctx : ArchiveCtx) (tid : Int) (file : ZipFile) :
    (registerOutput ctx tid file).2.scoredTests = ctx.scoredTests ∧
    (registerOutput ctx tid file).2.props = ctx.props ∧
    sameScores (registerOutput ctx tid file).2.tests ctx.tests := by
  unfold registerOutput
  simp only
  split
  · exact ⟨rfl, rfl, fun k => rfl⟩
  · refine ⟨rfl, rfl, fun k => ?_⟩
    simp only
    rw [mapGet_mapSet]
    split
    · rename_i e; subst e; rfl
    · rfl

/-- C7: the class of an entry depends on the base name of its path only. An
entry whose base name ends in `.txt` is processed by `ProcessScoreFile`, one
whose base name ends in `.properties` by `ProcessPropertiesFile`, and in both
cases the input and output halves of every test stay as they were, whatever
test number the name carries; every other entry is handled as a data file,
which leaves the scored tests, the properties and all scores as they were. -/
theorem entry_classification (parse : PropsParser) (ctx : ArchiveCtx) (file : ZipFile) :
    (HasSuffix (pathBase file.Name) ".txt".toList = true →
      ProcessArchiveFile parse ctx file = ProcessScoreFile ctx file ∧
      sameHalves (ProcessArchiveFile parse ctx file).2.tests ctx.tests) ∧
    (HasSuffix (pathBase file.Name) ".properties".toList = true →
      ProcessArchiveFile parse ctx file = ProcessPropertiesFile parse ctx file ∧
      sameHalves (ProcessArchiveFile parse ctx file).2.tests ctx.tests) ∧
    (HasSuffix (pathBase file.Name) ".txt".toList = false →
      HasSuffix (pathBase file.Name) ".properties".toList = false →
      (ProcessArchiveFile parse ctx file).2.scoredTests = ctx.scoredTests ∧
      (ProcessArchiveFile parse ctx file).2.props = ctx.props ∧
      sameScores (ProcessArchiveFile parse ctx file).2.tests ctx.tests) := by
  refine ⟨?_, ?_, ?_⟩
  · intro htxt
    have h : ProcessArchiveFile parse ctx file = ProcessScoreFile ctx file := by
      unfold ProcessArchiveFile
      simp only [htxt, if_true]
    rw [h]
    exact ⟨rfl, ProcessScoreFile_halves ctx file⟩
  · intro hprops
    have htxt : HasSuffix (pathBase file.Name) ".txt".toList = false := by
      by_contra hc
      rw [Bool.not_eq_false] at hc
      exact absurd (suffix_clash hc hprops (by decide)) (by decide)
    have h : ProcessArchiveFile parse ctx file = ProcessPropertiesFile parse ctx file := by
      unfold ProcessArchiveFile
      simp only [htxt, hprops, Bool.false_eq_true, if_false, if_true]
    rw [h]
    refine ⟨rfl, ?_⟩
    rw [(@ProcessPropertiesFile_tests parse ctx file).1]
    exact fun k => ⟨rfl, rfl⟩
  · intro htxt hprops
    unfold ProcessArchiveFile
    simp only [htxt, hprops, Bool.false_eq_true, if_false]
    split
    · exact ⟨rfl, rfl, fun k => rfl⟩
    · rename_i tid hnum
      have hin := registerInput_scores ctx tid file
      split
      · rename_i e ctx1 h1
        split at h1
        · rw [h1] at hin; exact hin
        · cases h1
      · rename_i ctx1 h1
        have h1c : ctx1.scoredTests = ctx.scoredTests ∧ ctx1.props = ctx.props ∧
            sameScores ctx1.tests ctx.tests := by
          split at h1
          · rw [h1] at hin; exact hin
          · cases h1; exact ⟨rfl, rfl, fun k => rfl⟩
        split
        · have hout := registerOutput_scores ctx1 tid file
          exact ⟨hout.1.trans h1c.1, hout.2.1.trans h1c.2.1,
            fun k => (hout.2.2 k).trans (h1c.2.2 k)⟩
        · exact h1c

/-- Instance of `entry_classification`: `in/3-x.txt` is a score file although
its name starts with a test number and its directory ends in `.in`; it scores
test 7 and registers no half. -/
theorem entry_classification_witness :
    ProcessArchiveFile noProps oneTestCtx (textFile "in/3-x.txt" ["7 5"]) =
      ProcessScoreFile oneTestCtx (textFile "in/3-x.txt" ["7 5"]) ∧
    sameHalves (ProcessArchiveFile noProps oneTestCtx (textFile "in/3-x.txt" ["7 5"])).2.tests
      oneTestCtx.tests ∧
    mapKeys (ProcessArchiveFile noProps oneTestCtx (textFile "in/3-x.txt" ["7 5"])).2.tests =
      [1, 7] :=
  ⟨((entry_classification noProps oneTestCtx (textFile "in/3-x.txt" ["7 5"])).1 (by decide)).1,
   ((entry_classification noProps oneTestCtx (textFile "in/3-x.txt" ["7 5"])).1 (by decide)).2,
   by decide⟩


/-! ## The scanner over the text of a score file -/

theorem scoreLoop_skip (ctx : ArchiveCtx) (line : Str) (rest : List Str)
    (h : wellFormedLine line = false) : scoreLoop ctx (line :: rest) = scoreLoop ctx rest := by
  have hp : parseScoreLine line = none := by
    unfold wellFormedLine at h
    cases hq : parseScoreLine line with
    | none => rfl
    | some p => rw [hq] at h; cases h
  rw [scoreLoop]
  split
  · rfl
  · rw [hp]

theorem scoreLoop_filter (lines : List Str) : ∀ ctx : ArchiveCtx,
    scoreLoop ctx (lines.filter wellFormedLine) = scoreLoop ctx lines := by
  induction lines with
  | nil => intro ctx; rfl
  | cons line rest ih =>
    intro ctx
    cases hw : wellFormedLine line with
    | false =>
      rw [List.filter_cons_of_neg (by simp [hw]), scoreLoop_skip ctx line rest hw]
      exact ih ctx
    | true =>
      rw [List.filter_cons_of_pos hw]
      have hne : line ≠ [] := by
        intro e
        rw [e] at hw
        exact absurd hw (by decide)
      unfold wellFormedLine at hw
      cases hp : parseScoreLine line with
      | none => rw [hp] at hw; cases hw
      | some p =>
        obtain ⟨tid, sc⟩ := p
        rw [scoreLoop, scoreLoop]
        simp only [hne, if_false, hp]
        split
        · rfl
        · exact ih _

theorem splitLines_ne_nil (s : Str) : splitLines s ≠ [] := by
  cases s with
  | nil => simp [splitLines]
  | cons c cs =>
    unfold splitLines
    split
    · simp
    · split <;> simp

theorem splitLines_plain (s : Str) : ∀ p ∈ splitLines s, '\n' ∉ p := by
  induction s with
  | nil => intro p hp; simp [splitLines] at hp; simp [hp]
  | cons c cs ih =>
    intro p hp
    unfold splitLines at hp
    split at hp
    · rcases List.mem_cons.mp hp with h | h
      · rw [h]; simp
      · exact ih p h
    · rename_i hc
      split at hp
      · rename_i he
        exact absurd he (splitLines_ne_nil cs)
      · rename_i h t he
        rcases List.mem_cons.mp hp with h1 | h1
        · rw [h1]
          simp only [List.mem_cons, not_or]
          exact ⟨fun e => hc e.symm, ih h (by rw [he]; simp)⟩
        · exact ih p (by rw [he]; exact List.mem_cons_of_mem _ h1)

theorem cutLines_spec (s : Str) : ∀ (cur : Str) (acc : List Str) (h : Str) (t : List Str),
    splitLines s = h :: t →
    cutLines s cur acc = acc.reverse ++
      (if ((cur.reverse ++ h) :: t).getLast? = some [] then ((cur.reverse ++ h) :: t).dropLast
        else (cur.reverse ++ h) :: t) := by
  induction s with
  | nil =>
    intro cur acc h t hs
    simp only [splitLines, List.cons.injEq] at hs
    obtain ⟨rfl, rfl⟩ := hs
    simp only [cutLines, List.append_nil, List.getLast?_singleton, Option.some.injEq,
      List.dropLast_single]
    by_cases hc : cur = []
    · simp [hc]
    · have hr : cur.reverse ≠ [] := by simpa using hc
      simp [hc, hr]
  | cons c cs ih =>
    intro cur acc h t hs
    obtain ⟨h2, t2, hs2⟩ : ∃ h2 t2, splitLines cs = h2 :: t2 := by
      cases hq : splitLines cs with
      | nil => exact absurd hq (splitLines_ne_nil cs)
      | cons a b => exact ⟨a, b, rfl⟩
    by_cases hc : c = '\n'
    · have e : splitLines (c :: cs) = [] :: splitLines cs := by
        rw [splitLines, if_pos hc]
      rw [e, hs2] at hs
      simp only [List.cons.injEq] at hs
      obtain ⟨rfl, rfl⟩ := hs
      rw [cutLines, if_pos hc, ih [] (cur.reverse :: acc) h2 t2 hs2]
      simp only [List.reverse_nil, List.nil_append, List.reverse_cons, List.append_assoc,
        List.singleton_append, List.append_nil]
      congr 1
      rw [List.getLast?_cons_cons, List.dropLast_cons₂]
      split <;> rfl
    · have e : splitLines (c :: cs) = (c :: h2) :: t2 := by
        rw [splitLines, if_neg hc, hs2]
      rw [e] at hs
      simp only [List.cons.injEq] at hs
      obtain ⟨rfl, rfl⟩ := hs
      rw [cutLines, if_neg hc, ih (c :: cur) acc h2 t2 hs2]
      simp

theorem rawLines_eq (content : Str) :
    rawLines content =
      (if (splitLines content).getLast? = some [] then (splitLines content).dropLast
        else splitLines content) := by
  cases hq : splitLines content with
  | nil => exact absurd hq (splitLines_ne_nil content)
  | cons h t =>
    unfold rawLines
    rw [cutLines_spec content [] [] h t hq]
    simp

theorem scanLines_eq_rawLines (content : Str) :
    scanLines content = (rawLines content).map dropCR := by
  rw [rawLines_eq]
  rfl

theorem rawLines_plain (content : Str) : ∀ l ∈ rawLines content, '\n' ∉ l := by
  intro l hl
  rw [rawLines_eq] at hl
  split at hl
  · exact splitLines_plain content l (List.mem_of_mem_dropLast hl)
  · exact splitLines_plain content l hl

theorem cutLines_line (l : Str) (rest : Str) (h : '\n' ∉ l) :
    ∀ (cur : Str) (acc : List Str),
      cutLines (l ++ '\n' :: rest) cur acc = cutLines rest [] ((cur.reverse ++ l) :: acc) := by
  induction l with
  | nil =>
    intro cur acc
    simp [cutLines]
  | cons c cs ih =>
    intro cur acc
    simp only [List.mem_cons, not_or] at h
    rw [List.cons_append, cutLines, if_neg (fun e => h.1 e.symm), ih h.2]
    simp

theorem cutLines_unlines (ls : List Str) (h : ∀ l ∈ ls, '\n' ∉ l) :
    ∀ (acc : List Str), cutLines (unlines ls) [] acc = acc.reverse ++ ls := by
  induction ls with
  | nil => intro acc; simp [unlines, cutLines]
  | cons l rest ih =>
    intro acc
    have e : unlines (l :: rest) = l ++ '\n' :: unlines rest := by
      simp [unlines]
    rw [e, cutLines_line l _ (h l (by simp)), ih (fun x hx => h x (List.mem_cons_of_mem _ hx))]
    simp

theorem rawLines_unlines (ls : List Str) (h : ∀ l ∈ ls, '\n' ∉ l) :
    rawLines (unlines ls) = ls := by
  unfold rawLines
  rw [cutLines_unlines ls h]
  simp

theorem scanBounded_filter (raws : List Str)
    (hshort : ∀ l ∈ raws, wellFormedLine (dropCR l) = false → byteLength l < MaxScanTokenSize) :
    scanBounded (raws.filter (fun l => wellFormedLine (dropCR l))) =
      ((scanBounded raws).1.filter wellFormedLine, (scanBounded raws).2) := by
  induction raws with
  | nil => rfl
  | cons l rest ih =>
    have ih2 := ih (fun x hx => hshort x (List.mem_cons_of_mem _ hx))
    by_cases hlong : MaxScanTokenSize ≤ byteLength l
    · have hgood : wellFormedLine (dropCR l) = true := by
        cases hw : wellFormedLine (dropCR l) with
        | true => rfl
        | false =>
          have := hshort l (by simp) hw
          omega
      have hf : (l :: rest).filter (fun l => wellFormedLine (dropCR l)) =
          l :: rest.filter (fun l => wellFormedLine (dropCR l)) := by
        simp [List.filter_cons, hgood]
      rw [hf]
      simp only [scanBounded, if_pos hlong, List.filter_nil]
    · cases hw : wellFormedLine (dropCR l) with
      | true =>
        have hf : (l :: rest).filter (fun l => wellFormedLine (dropCR l)) =
            l :: rest.filter (fun l => wellFormedLine (dropCR l)) := by
          simp [List.filter_cons, hw]
        rw [hf]
        simp only [scanBounded, if_neg hlong, ih2, List.filter_cons, hw, if_true]
      | false =>
        have hf : (l :: rest).filter (fun l => wellFormedLine (dropCR l)) =
            rest.filter (fun l => wellFormedLine (dropCR l)) := by
          simp [List.filter_cons, hw]
        rw [hf]
        simp only [scanBounded, if_neg hlong, ih2, List.filter_cons, hw, Bool.false_eq_true,
          if_false]

theorem longLine_facts :
    '\n' ∉ longLine ∧ byteLength longLine = 65536 ∧ dropCR longLine = longLine ∧
    wellFormedLine longLine = false := by
  have hx : longLine = 'x' :: List.replicate 65535 'x' := by
    unfold longLine
    rw [show (65536 : Nat) = 65535 + 1 from rfl, List.replicate_succ]
  refine ⟨?_, ?_, ?_, ?_⟩
  · intro h
    unfold longLine at h
    rw [List.mem_replicate] at h
    exact absurd h.2 (by decide)
  · unfold byteLength longLine
    rw [List.map_replicate, List.sum_replicate]
    have : Char.utf8Size 'x' = 1 := by decide
    rw [this]
    rfl
  · unfold dropCR
    rw [if_neg]
    intro h
    have hm := List.mem_of_getLast?_eq_some h
    unfold longLine at hm
    rw [List.mem_replicate] at hm
    exact absurd hm.2 (by decide)
  · rw [hx]
    unfold wellFormedLine parseScoreLine scanInt skipSpace
    rw [if_neg (by decide)]
    have hs : isSpace 'x' = false := by decide
    simp only [hs, Bool.false_eq_true, if_false]
    rw [if_neg (by decide), if_neg (by decide)]
    unfold scanDigits
    have hd : isDigit 'x' = false := by decide
    simp [List.takeWhile, hd]

/-! ## C8: empty and malformed score lines -/

/-- C8 (amended): for a score file that opens, with the text `content`: a line
shorter than the scanner's buffer of 64 KiB that is empty or from which
`Sscanf` does not read two integers is skipped without error and without
changing the context; and when no empty or malformed line of the file reaches
that length, processing the file gives the same result and the same context as
processing it with its empty and malformed lines removed. -/
theorem bad_lines_skipped (ctx : ArchiveCtx) (name content : Str)
    (hshort : ∀ l ∈ rawLines content, wellFormedLine (dropCR l) = false →
      byteLength l < MaxScanTokenSize) :
    (∀ line : Str, '\n' ∉ line → byteLength line < MaxScanTokenSize →
      (dropCR line = [] ∨ parseScoreLine (dropCR line) = none) →
      ProcessScoreFile ctx ⟨name, false, textBody (line ++ ['\n'])⟩ = (none, ctx)) ∧
    ProcessScoreFile ctx ⟨name, false, textBody (dropBadLines content)⟩ =
      ProcessScoreFile ctx ⟨name, false, textBody content⟩ := by
  constructor
  · intro line hplain hlen hbad
    have hw : wellFormedLine (dropCR line) = false := by
      unfold wellFormedLine
      rcases hbad with h | h
      · rw [h]; decide
      · rw [h]; rfl
    have hraw : rawLines (line ++ ['\n']) = [line] := by
      have := rawLines_unlines [line] (by simpa using hplain)
      simpa [unlines] using this
    have hl : scoreLoop ctx [dropCR line] = (none, ctx) := by
      rw [scoreLoop_skip ctx _ [] hw]
      rfl
    unfold ProcessScoreFile textBody
    simp only [hraw, scanBounded, if_neg (Nat.not_le.mpr hlen), hl, Bool.false_eq_true, if_false]
  · have hraw : rawLines (dropBadLines content) =
        (rawLines content).filter (fun l => wellFormedLine (dropCR l)) := by
      unfold dropBadLines
      apply rawLines_unlines
      intro l hl
      exact rawLines_plain content l (List.mem_of_mem_filter hl)
    unfold ProcessScoreFile textBody
    simp only [hraw, scanBounded_filter _ hshort, scoreLoop_filter]

/-- Instance of `bad_lines_skipped` on a text with blank and garbled lines:
only `1 40` and `2 60` count. -/
theorem bad_lines_skipped_witness :
    dropBadLines garbledText = "1 40\r\n2 60\n".toList ∧
    ProcessScoreFile NewArchiveCtx ⟨"tests.txt".toList, false, textBody "# scores\n".toList⟩ =
      (none, NewArchiveCtx) ∧
    ProcessScoreFile NewArchiveCtx
        ⟨"tests.txt".toList, false, textBody (dropBadLines garbledText)⟩ =
      ProcessScoreFile NewArchiveCtx ⟨"tests.txt".toList, false, textBody garbledText⟩ ∧
    (ProcessScoreFile NewArchiveCtx ⟨"tests.txt".toList, false, textBody garbledText⟩).1 = none ∧
    (ProcessScoreFile NewArchiveCtx
      ⟨"tests.txt".toList, false, textBody garbledText⟩).2.scoredTests = [1, 2] :=
  ⟨by decide,
    (bad_lines_skipped NewArchiveCtx "tests.txt".toList garbledText (by decide)).1
      "# scores".toList (by decide) (by decide) (Or.inr (by decide)),
    (bad_lines_skipped NewArchiveCtx "tests.txt".toList garbledText (by decide)).2,
    by decide, by decide⟩

/-- C8 as stated fails: in the score text `1 40`, a malformed line of 65536
letters, `2 60`, the scanner stops at the long line with `ErrTooLong`; the file
is answered with the error "Score file read error" and only test 1 is scored,
while the same text without its malformed line is processed without error and
scores tests 1 and 2. -/
theorem overlong_line_not_skipped :
    rawLines overlongScores = ["1 40".toList, longLine, "2 60".toList] ∧
    byteLength longLine = 65536 ∧
    parseScoreLine longLine = none ∧
    dropBadLines overlongScores = "1 40\n2 60\n".toList ∧
    ProcessScoreFile NewArchiveCtx ⟨"tests.txt".toList, false, textBody overlongScores⟩ =
      (some (.WrapError "Score file read error".toList),
        ⟨[(1, ⟨none, none, 40⟩)], [1], none⟩) ∧
    ProcessScoreFile NewArchiveCtx
        ⟨"tests.txt".toList, false, textBody (dropBadLines overlongScores)⟩ =
      (none, ⟨[(1, ⟨none, none, 40⟩), (2, ⟨none, none, 60⟩)], [1, 2], none⟩) := by
  obtain ⟨hplain, hlen, hcr, hbad⟩ := longLine_facts
  have hraw : rawLines overlongScores = ["1 40".toList, longLine, "2 60".toList] := by
    have h := rawLines_unlines ["1 40".toList, longLine, "2 60".toList]
      (by
        intro l hl
        simp only [List.mem_cons, List.mem_singleton, List.not_mem_nil, or_false] at hl
        rcases hl with h | h | h
        · rw [h]; decide
        · rw [h]; exact hplain
        · rw [h]; decide)
    exact h
  have hdrop : dropBadLines overlongScores = "1 40\n2 60\n".toList := by
    unfold dropBadLines
    rw [hraw]
    have h1 : wellFormedLine (dropCR "1 40".toList) = true := by decide
    have h2 : wellFormedLine (dropCR "2 60".toList) = true := by decide
    simp only [List.filter_cons, h1, h2, hcr, hbad, if_true, Bool.false_eq_true, if_false,
      List.filter_nil]
    decide
  have hparse : parseScoreLine longLine = none := by
    unfold wellFormedLine at hbad
    cases hq : parseScoreLine longLine with
    | none => rfl
    | some p => rw [hq] at hbad; cases hbad
  refine ⟨hraw, hlen, hparse, hdrop, ?_, ?_⟩
  · have hb : textBody overlongScores = .readable ["1 40".toList] true := by
      unfold textBody
      rw [hraw]
      have h1 : ¬ MaxScanTokenSize ≤ byteLength "1 40".toList := by decide
      have h2 : MaxScanTokenSize ≤ byteLength longLine := by rw [hlen]; decide
      simp only [scanBounded, if_neg h1, if_pos h2]
      decide
    rw [hb]
    decide
  · rw [hdrop]
    decide

/-! ## C9: the subtask coverage check -/

/-- C9: after a successful scan whose properties carry subtask definitions,
`ProcessZipTestArchive` returns the 400 error of the coverage check exactly
when the number of subtasked tests differs from the number of discovered
tests; when it does, no storage call has been made and no other check has been
consulted, so the check comes before the missing-half check and before any
test is created. -/
theorem coverage_check (parse : PropsParser) (ord : MapOrder) (base : BaseAPI) (pbID : Int)
    (ar : List ZipFile) (ctx : ArchiveCtx) (p : Properties) (stks : List (Int × Subtask))
    (hscan : scanArchive parse NewArchiveCtx ar = (none, ctx))
    (hprops : ctx.props = some p) (hstks : p.Subtasks = some stks) :
    (p.SubtaskedTests.length ≠ ctx.tests.length →
      ProcessZipTestArchive parse ord base pbID ar =
        (.returned (some (.Statusf 400
          "Mismatched number of tests in archive and tests that correspond to at least one subtask".toList)),
          [])) ∧
    (p.SubtaskedTests.length = ctx.tests.length →
      (ProcessZipTestArchive parse ord base pbID ar).1 ≠
        .returned (some (.Statusf 400
          "Mismatched number of tests in archive and tests that correspond to at least one subtask".toList))) := by
  unfold ProcessZipTestArchive
  rw [hscan]
  simp only
  unfold finishArchive
  constructor
  · intro hne
    have hm : subtaskMismatch ctx = true := by
      unfold subtaskMismatch
      simp only [hprops, hstks]
      simpa using hne
    rw [if_pos hm]
    rfl
  · intro heq
    have hm : subtaskMismatch ctx = false := by
      unfold subtaskMismatch
      simp only [hprops, hstks]
      simpa using heq
    rw [hm]
    simp only [Bool.false_eq_true, if_false]
    split
    · rename_i k hk
      intro e
      simp only [Outcome.returned.injEq, Option.some.injEq] at e
      exact errMismatch_ne_missing k e.symm
    · split
      · simp
      · exact commitOutcome_ne_mismatch (commitArchive_class _ _ _ _)

/-- Instance of `coverage_check`: with two subtasked tests and one discovered
test lacking its output, the coverage error is returned, not the missing-half
error, and nothing is stored; with both tests present the import succeeds. -/
theorem coverage_check_witness :
    (scanArchive sampleParser NewArchiveCtx lonelyInputArchive).2.props = some subtaskProps ∧
    subtaskProps.SubtaskedTests.length ≠
      (scanArchive sampleParser NewArchiveCtx lonelyInputArchive).2.tests.length ∧
    ProcessZipTestArchive sampleParser storageOrder okBase 1 lonelyInputArchive =
      (.returned (some (.Statusf 400
        "Mismatched number of tests in archive and tests that correspond to at least one subtask".toList)),
        []) ∧
    (ProcessZipTestArchive sampleParser storageOrder okBase 1 coveredArchive).1 =
      .returned none :=
  ⟨by decide, by decide,
    (coverage_check sampleParser storageOrder okBase 1 lonelyInputArchive
      (scanArchive sampleParser NewArchiveCtx lonelyInputArchive).2 subtaskProps
      [(1, ⟨100, [1, 2]⟩)] (by decide) (by decide) (by decide)).1 (by decide),
    by decide⟩


/-! ## C10: a subtask naming an unknown test -/

/-- C10: if the properties collected from an archive define a subtask that
lists a test number absent from the discovered tests, `ProcessZipTestArchive`
returns an error, for every behaviour of the storage collaborator and every
order in which the maps are visited. -/
theorem unknown_subtask_test_rejected (parse : PropsParser) (ord : MapOrder) (base : BaseAPI)
    (pbID : Int) (ar : List ZipFile) (p : Properties) (stks : List (Int × Subtask))
    (sid t : Int) (hord : ord.Valid)
    (hprops : (scanArchive parse NewArchiveCtx ar).2.props = some p)
    (hstks : p.Subtasks = some stks) (hsid : sid ∈ mapKeys stks)
    (ht : t ∈ (mapGet stks sid).Tests)
    (hmissing : t ∉ mapKeys (scanArchive parse NewArchiveCtx ar).2.tests) :
    ∃ e, (ProcessZipTestArchive parse ord base pbID ar).1 = .returned (some e) := by
  unfold ProcessZipTestArchive
  cases hsc : scanArchive parse NewArchiveCtx ar with
  | mk err ctx =>
    rw [hsc] at hprops hmissing
    simp only at hprops hmissing
    cases err with
    | some e => exact ⟨e, rfl⟩
    | none =>
      simp only
      unfold finishArchive
      split
      · exact ⟨_, rfl⟩
      · cases hf : findMissingHalf ctx.tests (ord.check (mapKeys ctx.tests)) with
        | some k => exact ⟨_, rfl⟩
        | none =>
          have hall := findMissingHalf_none _ _ hf
          obtain ⟨ctx1, h1, hp1, hh1, hk1⟩ := inferScores_some ord ctx
          have hkeys := hk1 hord
          simp only [h1]
          have hall1 : ∀ k ∈ ord.create (mapKeys ctx1.tests), hasBothHalves ctx1.tests k := by
            intro k hk
            have hk2 : k ∈ mapKeys ctx.tests := by
              rw [← hkeys]
              exact (hord _).2.2.1.mem_iff.mp hk
            have := hall k ((hord _).1.mem_iff.mpr hk2)
            unfold hasBothHalves at this ⊢
            rw [(hh1 k).1, (hh1 k).2]
            exact this
          unfold commitArchive
          split
          · exact ⟨_, rfl⟩
          · cases hc : createLoop base pbID ctx1.tests (ord.create (mapKeys ctx1.tests))
                [.OrphanTests pbID] [] with
            | mk out rest =>
              obtain ⟨tr, created⟩ := rest
              cases out with
              | some o =>
                simp only
                have hs := createLoop_stops base pbID ctx1.tests
                  (ord.create (mapKeys ctx1.tests)) [.OrphanTests pbID] []
                have hn := createLoop_no_panic base pbID ctx1.tests
                  (ord.create (mapKeys ctx1.tests)) [.OrphanTests pbID] [] hall1
                rw [hc] at hs hn
                cases o with
                | panicked => exact absurd rfl hn
                | returned r =>
                  cases r with
                  | none => exact absurd rfl hs
                  | some e => exact ⟨e, rfl⟩
              | none =>
                simp only
                rw [hp1, hprops]
                simp only
                have hcr := createLoop_created _ _ _ _ _ _ _ _ hc
                have hnone : mapLookup created t = none := by
                  rw [mapLookup_eq_none]
                  intro hmem
                  rcases hcr t hmem with h | h
                  · simp [mapKeys] at h
                  · have := (hord _).2.2.1.mem_iff.mp h
                    rw [hkeys] at this
                    exact hmissing this
                have herr := applyProps_error ord base pbID p created tr stks sid hstks
                  ((hord _).2.2.2.mem_iff.mpr hsid) (resolveTests_error created _ t ht hnone [])
                cases hr : (applyProps ord base pbID p created tr).1 with
                | none => exact absurd hr herr
                | some e => exact ⟨e, rfl⟩

/-- Instance of `unknown_subtask_test_rejected`: the archive holds tests 1, 2
and 3 and its second subtask lists test 7; the import ends with the error of
line 315, after the tests and the first subtask were stored. -/
theorem unknown_subtask_test_rejected_witness :
    (scanArchive strayParser NewArchiveCtx strayArchive).2.props = some strayProps ∧
    (7 : Int) ∉ mapKeys (scanArchive strayParser NewArchiveCtx strayArchive).2.tests ∧
    (∃ e, (ProcessZipTestArchive strayParser reverseOrder okBase 1 strayArchive).1 =
      .returned (some e)) ∧
    (ProcessZipTestArchive strayParser storageOrder okBase 1 strayArchive).1 =
      .returned (some (.Statusf 400
        "Test 7 not found in added tests. Aborting subtask creation".toList)) :=
  ⟨by decide, by decide,
    unknown_subtask_test_rejected strayParser reverseOrder okBase 1 strayArchive strayProps
      [(1, ⟨60, [1, 2]⟩), (2, ⟨40, [2, 7]⟩)] 2 7 reverseOrder_valid (by decide) (by decide)
      (by decide) (by decide) (by decide),
    by decide⟩


/-! ## C11: the importer reads back the tests of an export -/

/-- C11 (amended): let `GenerateArchive` succeed on a problem whose test name,
as used in the entry names, contains no `/`, and whose tests have pairwise
distinct visible ids (ids and scores being Go ints). The archive begins with
the entries `<visibleID>-<testName>.in`, `<visibleID>-<testName>.ok` of every
test and `tests.txt`; scanning these with `ProcessArchiveFile` raises no error
and gives a context whose test numbers are exactly the exported visible ids,
each with an input half, an output half and its exported score, in which every
test is explicitly scored; score inference returns that context unchanged. -/
theorem export_then_import_tests (env : ExportEnv) (pb : Problem) (parse : PropsParser)
    (ord : MapOrder) (tests : List Test) (es : List WrittenEntry)
    (hgen : GenerateArchive env pb = (none, es))
    (htests : env.Tests = .ok tests)
    (hdistinct : (tests.map (fun t => t.VisibleID)).Nodup)
    (hrange : ∀ t ∈ tests, minInt64 ≤ t.VisibleID ∧ t.VisibleID ≤ maxInt64 ∧
      minInt64 ≤ t.Score ∧ t.Score ≤ maxInt64)
    (hname : '/' ∉ exportTestName env pb) :
    (∃ rest, es = testEntries env (exportTestName env pb) tests ++ rest) ∧
    ∃ ctx, scanArchive parse NewArchiveCtx
        ((testEntries env (exportTestName env pb) tests).map asZipFile) = (none, ctx) ∧
      mapKeys ctx.tests = tests.map (fun t => t.VisibleID) ∧
      (∀ t ∈ tests, ∃ inF outF,
        mapLookup ctx.tests t.VisibleID = some ⟨some inF, some outF, t.Score⟩ ∧
        inF.Name = inputName (exportTestName env pb) t ∧
        outF.Name = outputName (exportTestName env pb) t) ∧
      ctx.scoredTests = tests.map (fun t => t.VisibleID) ∧
      inferScores ord ctx = some ctx := by
  constructor
  · obtain ⟨tests2, subtasks, h1, _, h3⟩ := GenerateArchive_entries env pb es hgen
    rw [htests] at h1
    cases h1
    exact ⟨_, by rw [h3]; rfl⟩
  · obtain ⟨ctx, hscan, _, hkeys, hall, hscored⟩ :=
      scan_testEntries parse env (exportTestName env pb) tests hname hdistinct hrange
    refine ⟨ctx, hscan, hkeys, ?_, hscored, ?_⟩
    · intro t ht
      obtain ⟨input, output, hl⟩ := hall t ht
      exact ⟨_, _, hl, rfl, rfl⟩
    unfold inferScores
    rw [if_neg]
    rw [hscored, ← length_mapKeys ctx.tests, hkeys]
    simp

/-- Instance of `export_then_import_tests`: the problem with test name `sum`
and tests 1, 2, 3 scored 40, 30, 30. -/
theorem export_then_import_tests_witness :
    (∃ rest, (GenerateArchive (sampleExport threeTests []) (sampleProblem 10000)).2 =
      testEntries (sampleExport threeTests [])
        (exportTestName (sampleExport threeTests []) (sampleProblem 10000)) threeTests ++ rest) ∧
    ∃ ctx, scanArchive noProps NewArchiveCtx
        ((testEntries (sampleExport threeTests [])
          (exportTestName (sampleExport threeTests []) (sampleProblem 10000)) threeTests).map
            asZipFile) = (none, ctx) ∧
      mapKeys ctx.tests = threeTests.map (fun t => t.VisibleID) ∧
      (∀ t ∈ threeTests, ∃ inF outF,
        mapLookup ctx.tests t.VisibleID = some ⟨some inF, some outF, t.Score⟩ ∧
        inF.Name = inputName (exportTestName (sampleExport threeTests [])
          (sampleProblem 10000)) t ∧
        outF.Name = outputName (exportTestName (sampleExport threeTests [])
          (sampleProblem 10000)) t) ∧
      ctx.scoredTests = threeTests.map (fun t => t.VisibleID) ∧
      inferScores storageOrder ctx = some ctx :=
  export_then_import_tests (sampleExport threeTests []) (sampleProblem 10000) noProps
    storageOrder threeTests _ (by decide) rfl (by decide) (by decide) (by decide)

/-- C11 as stated fails: for the test name `a/b` and tests with visible ids
1, 2, 3 the export succeeds with entries `1-a/b.in`, `1-a/b.ok`, and so on;
`path.Base` keeps only `b.in` and `b.ok`, which name no test, so the scan
drops all six entries and the context holds the three scores of `tests.txt`
with neither an input nor an output half. -/
theorem slash_in_test_name :
    (threeTests.map (fun t => t.VisibleID)).Nodup ∧
    (GenerateArchive (sampleExport threeTests []) slashProblem).1 = none ∧
    (GenerateArchive (sampleExport threeTests []) slashProblem).2.map (fun e => e.Name) =
      ["1-a/b.in".toList, "1-a/b.ok".toList, "2-a/b.in".toList, "2-a/b.ok".toList,
        "3-a/b.in".toList, "3-a/b.ok".toList, "tests.txt".toList] ∧
    pathBase "1-a/b.in".toList = "b.in".toList ∧
    resolveTestNumber "b.in".toList = none ∧
    scanArchive noProps NewArchiveCtx
        ((GenerateArchive (sampleExport threeTests []) slashProblem).2.map asZipFile) =
      (none, ⟨[(1, ⟨none, none, 40⟩), (2, ⟨none, none, 30⟩), (3, ⟨none, none, 30⟩)],
        [1, 2, 3], none⟩) := by
  refine ⟨by decide, by decide, by decide, by decide, by decide, by decide⟩

/-! ## Reading `grader.properties` back -/

theorem scanLines_line (a b : Str) (h : '\n' ∉ a) :
    scanLines (a ++ '\n' :: b) = dropCR a :: scanLines b := by
  unfold scanLines
  simp only [splitLines_line a b h]
  cases hq : splitLines b with
  | nil => exact absurd hq (splitLines_ne_nil b)
  | cons p ps =>
    rw [List.getLast?_cons_cons, List.dropLast_cons₂]
    split <;> simp

theorem joinStrs_mem (sep : Char) (ls : List Str) :
    ∀ c ∈ joinStrs [sep] ls, c = sep ∨ ∃ l ∈ ls, c ∈ l := by
  induction ls with
  | nil => intro c hc; simp [joinStrs] at hc
  | cons x rest ih =>
    intro c hc
    cases rest with
    | nil =>
      simp only [joinStrs] at hc
      exact Or.inr ⟨x, by simp, hc⟩
    | cons y rest2 =>
      have e : joinStrs [sep] (x :: y :: rest2) = x ++ sep :: joinStrs [sep] (y :: rest2) := by
        simp [joinStrs]
      rw [e, List.mem_append, List.mem_cons] at hc
      rcases hc with h | h | h
      · exact Or.inr ⟨x, by simp, h⟩
      · exact Or.inl h
      · rcases ih c h with h1 | ⟨l, hl, hcl⟩
        · exact Or.inl h1
        · exact Or.inr ⟨l, List.mem_cons_of_mem _ hl, hcl⟩

theorem groupText_charset (tmap : List (Int × Test)) (ms : List Int) :
    ∀ (first : Bool) (group : Str), ∀ c ∈ groupText tmap ms first group,
      c ∈ group ∨ c = ';' ∨ isDigit c = true ∨ c = '-' := by
  induction ms with
  | nil => intro _ group c hc; simp only [groupText] at hc; exact Or.inl hc
  | cons m rest ih =>
    intro first group c hc
    simp only [groupText] at hc
    rcases ih _ _ c hc with h | h
    · have h1 : ∀ c, c ∈ (if first = true then group else group ++ [';']) →
          c ∈ group ∨ c = ';' := by
        intro c hc
        split at hc
        · exact Or.inl hc
        · simp only [List.mem_append, List.mem_singleton] at hc
          exact hc
      split at h
      · rcases h1 c h with h2 | h2
        · exact Or.inl h2
        · exact Or.inr (Or.inl h2)
      · simp only [List.mem_append] at h
        rcases h with h | h
        · rcases h1 c h with h2 | h2
          · exact Or.inl h2
          · exact Or.inr (Or.inl h2)
        · rcases Itoa_chars _ _ h with hd | hd
          · exact Or.inr (Or.inr (Or.inl hd))
          · exact Or.inr (Or.inr (Or.inr hd))
    · exact Or.inr h

theorem groupsValue_chars (tests : List Test) (subtasks : List SubTask) :
    ∀ c ∈ groupsValue tests subtasks, c = ',' ∨ c = ';' ∨ isDigit c = true ∨ c = '-' := by
  intro c hc
  unfold groupsValue at hc
  rcases joinStrs_mem ',' _ c hc with h | ⟨l, hl, hcl⟩
  · exact Or.inl h
  · simp only [groupTexts, List.mem_map] at hl
    obtain ⟨st, _, rfl⟩ := hl
    rcases groupText_charset _ _ _ _ c hcl with h | h
    · cases h
    · exact Or.inr h

theorem weightsValue_chars (subtasks : List SubTask) :
    ∀ c ∈ weightsValue subtasks, c = ',' ∨ c = ';' ∨ isDigit c = true ∨ c = '-' := by
  intro c hc
  unfold weightsValue at hc
  rcases joinStrs_mem ',' _ c hc with h | ⟨l, hl, hcl⟩
  · exact Or.inl h
  · simp only [weightTexts, List.mem_map] at hl
    obtain ⟨st, _, rfl⟩ := hl
    rcases Itoa_chars _ _ hcl with hd | hd
    · exact Or.inr (Or.inr (Or.inl hd))
    · exact Or.inr (Or.inr (Or.inr hd))

theorem keyed_line_plain (key value : Str) (hk : '\n' ∉ key ∧ '\r' ∉ key)
    (hv : ∀ c ∈ value, c = ',' ∨ c = ';' ∨ isDigit c = true ∨ c = '-') :
    '\n' ∉ key ++ value ∧ dropCR (key ++ value) = key ++ value := by
  have hplain : ∀ c, c ∈ key ++ value → c ≠ '\n' ∧ c ≠ '\r' := by
    intro c hc
    rw [List.mem_append] at hc
    rcases hc with h | h
    · exact ⟨fun e => hk.1 (e ▸ h), fun e => hk.2 (e ▸ h)⟩
    · rcases hv c h with h1 | h1 | h1 | h1
      · rw [h1]; decide
      · rw [h1]; decide
      · constructor
        · intro e; rw [e] at h1; exact absurd h1 (by decide)
        · intro e; rw [e] at h1; exact absurd h1 (by decide)
      · rw [h1]; decide
  refine ⟨fun h => (hplain _ h).1 rfl, ?_⟩
  apply dropCR_plain
  intro h
  exact (hplain _ h).2 rfl

theorem propsContent_lines (env : ExportEnv) (pb : Problem) (testName : Str)
    (tests : List Test) (subtasks : List SubTask) :
    ∃ more, scanLines (propsContent env pb testName tests subtasks) =
      ("groups=".toList ++ groupsValue tests subtasks) ::
        ("weights=".toList ++ weightsValue subtasks) :: more := by
  have h1 := keyed_line_plain "groups=".toList (groupsValue tests subtasks)
    (by decide) (groupsValue_chars tests subtasks)
  have h2 := keyed_line_plain "weights=".toList (weightsValue subtasks)
    (by decide) (weightsValue_chars subtasks)
  have e : ∃ rest, propsContent env pb testName tests subtasks =
      ("groups=".toList ++ groupsValue tests subtasks) ++ '\n' ::
        (("weights=".toList ++ weightsValue subtasks) ++ '\n' :: rest) := by
    refine ⟨"time=".toList ++ env.formatTime pb.TimeLimit ++ ['\n'] ++
      "memory=".toList ++ env.formatMemory pb.MemoryLimit ++ ['\n'] ++
      (if pb.DefaultPoints ≠ 0 then "default_score=".toList ++ Itoa pb.DefaultPoints ++ ['\n']
        else []) ++
      (if pb.AuthorCredits ≠ [] then "author=".toList ++ pb.AuthorCredits ++ ['\n'] else []) ++
      (if pb.SourceCredits ≠ [] then "source=".toList ++ pb.SourceCredits ++ ['\n'] else []) ++
      "console_input=".toList ++ formatBool pb.ConsoleInput ++ ['\n'] ++
      "test_name=".toList ++ testName ++ ['\n'], ?_⟩
    simp only [propsContent, List.append_assoc, List.singleton_append, List.cons_append,
      List.nil_append]
  obtain ⟨rest, hr⟩ := e
  refine ⟨scanLines rest, ?_⟩
  rw [hr, scanLines_line _ _ h1.1, scanLines_line _ _ h2.1, h1.2, h2.2]

theorem propertyValue_groups (value : Str) (more : List Str) :
    propertyValue "groups=".toList (("groups=".toList ++ value) :: more) = some value := by
  unfold propertyValue
  rw [if_pos (by simp [List.isPrefixOf])]
  simp

theorem propertyValue_weights (v1 v2 : Str) (more : List Str) :
    propertyValue "weights=".toList
      (("groups=".toList ++ v1) :: ("weights=".toList ++ v2) :: more) = some v2 := by
  unfold propertyValue
  rw [if_neg (by simp [List.isPrefixOf])]
  unfold propertyValue
  rw [if_pos (by simp [List.isPrefixOf])]
  simp

theorem Atoi_Itoa (v : Int) (h1 : minInt64 ≤ v) (h2 : v ≤ maxInt64) : Atoi (Itoa v) = some v := by
  obtain ⟨neg, ds, e, hne, hds, hv⟩ := Itoa_decimal v
  rw [e, Atoi_decimal neg ds hne hds (by rw [hv]; exact h1) (by rw [hv]; exact h2), hv]

theorem mapM_option_map {α β : Type} (f : α → Option β) (g : α → β) (l : List α)
    (h : ∀ x ∈ l, f x = some (g x)) : l.mapM f = some (l.map g) := by
  induction l with
  | nil => rfl
  | cons x rest ih =>
    rw [List.mapM_cons, h x (by simp), ih (fun y hy => h y (List.mem_cons_of_mem _ hy))]
    rfl

theorem parseNumbers_join (sep : Char) (hsep : isDigit sep = false ∧ sep ≠ '-')
    (vs : List Int) (hne : vs ≠ [])
    (hrange : ∀ v ∈ vs, minInt64 ≤ v ∧ v ≤ maxInt64) :
    parseNumbers sep (joinStrs [sep] (vs.map Itoa)) = some vs := by
  unfold parseNumbers
  rw [splitChar_joinStrs sep _ (by simpa using hne)]
  · have := mapM_option_map Atoi (fun s => (Atoi s).getD 0) (vs.map Itoa)
      (by
        intro s hs
        rw [List.mem_map] at hs
        obtain ⟨v, hv, rfl⟩ := hs
        simp only [Atoi_Itoa v (hrange v hv).1 (hrange v hv).2, Option.getD_some])
    rw [this, List.map_map]
    congr 1
    conv_rhs => rw [← List.map_id vs]
    apply List.map_congr_left
    intro v hv
    simp [Atoi_Itoa v (hrange v hv).1 (hrange v hv).2]
  · intro l hl
    rw [List.mem_map] at hl
    obtain ⟨v, _, rfl⟩ := hl
    intro hc
    rcases Itoa_chars _ _ hc with hd | hd
    · rw [hsep.1] at hd; cases hd
    · exact hsep.2 hd

theorem memberVisibleIDs_eq (tests : List Test) (st : SubTask)
    (hmem : ∀ id ∈ st.Tests, ∃ t ∈ tests, t.ID = id) :
    memberVisibleIDs tests st = st.Tests.map (fun id =>
      ((mapLookup (buildTmap tests []) id).map (fun t => t.VisibleID)).getD 0) ∧
    ∀ id ∈ st.Tests, ∃ t, mapLookup (buildTmap tests []) id = some t := by
  have hsome : ∀ id ∈ st.Tests, ∃ t, mapLookup (buildTmap tests []) id = some t := by
    intro id hid
    obtain ⟨t, ht, he⟩ := hmem id hid
    cases hl : mapLookup (buildTmap tests []) id with
    | some u => exact ⟨u, rfl⟩
    | none =>
      exfalso
      have hlen := memberVisibleIDs_length tests ⟨0, 0, [id]⟩
        (by intro i hi; simp only [List.mem_singleton] at hi; rw [hi]; exact ⟨t, ht, he⟩)
      simp [memberVisibleIDs, hl] at hlen
  refine ⟨?_, hsome⟩
  unfold memberVisibleIDs
  have h : ∀ ids : List Int, (∀ id ∈ ids, ∃ t, mapLookup (buildTmap tests []) id = some t) →
      ids.filterMap (fun id => (mapLookup (buildTmap tests []) id).map (fun t => t.VisibleID)) =
      ids.map (fun id =>
        ((mapLookup (buildTmap tests []) id).map (fun t => t.VisibleID)).getD 0) := by
    intro ids
    induction ids with
    | nil => intro _; rfl
    | cons id rest ih =>
      intro hall
      obtain ⟨t, ht⟩ := hall id (by simp)
      simp only [List.filterMap_cons, ht, Option.map_some', List.map_cons, Option.getD_some]
      rw [ih (fun i hi => hall i (List.mem_cons_of_mem _ hi))]
  exact h st.Tests hsome

theorem groupText_members (tests : List Test) (st : SubTask)
    (hmem : ∀ id ∈ st.Tests, ∃ t ∈ tests, t.ID = id) :
    groupText (buildTmap tests []) st.Tests true [] =
      joinStrs [';'] ((memberVisibleIDs tests st).map Itoa) := by
  obtain ⟨he, hsome⟩ := memberVisibleIDs_eq tests st hmem
  rw [he, List.map_map]
  apply groupText_join
  intro id hid
  obtain ⟨t, ht⟩ := hsome id hid
  exact ⟨t, ht, by simp [ht]⟩

theorem numberSubtasks_spec (sts : List SubTask) (g : SubTask → List Int) :
    ∀ (first : Int),
      (numberSubtasks first (sts.map g) (sts.map (fun st => st.Score))).map Prod.snd =
        sts.map (fun st => (⟨st.Score, g st⟩ : Subtask)) ∧
      (∀ k ∈ mapKeys (numberSubtasks first (sts.map g) (sts.map (fun st => st.Score))),
        first ≤ k) ∧
      (mapKeys (numberSubtasks first (sts.map g) (sts.map (fun st => st.Score)))).Nodup := by
  induction sts with
  | nil => intro first; simp [numberSubtasks, mapKeys]
  | cons st rest ih =>
    intro first
    obtain ⟨h1, h2, h3⟩ := ih (first + 1)
    simp only [List.map_cons, numberSubtasks, mapKeys, List.mem_cons, List.nodup_cons]
    simp only [mapKeys] at h2 h3
    refine ⟨by rw [h1], ?_, ?_, h3⟩
    · rintro k (hk | hk)
      · omega
      · have := h2 k hk
        omega
    · intro hk
      have := h2 first hk
      omega

theorem distinctNumbers_spec (l : List Int) :
    ∀ (seen : List Int), seen.Nodup →
      (distinctNumbers l seen).Nodup ∧
      ∀ v, v ∈ distinctNumbers l seen ↔ (v ∈ seen ∨ v ∈ l) := by
  induction l with
  | nil => intro seen h; simp [distinctNumbers, h]
  | cons x rest ih =>
    intro seen h
    unfold distinctNumbers
    by_cases hx : x ∈ seen
    · rw [if_pos hx]
      obtain ⟨h1, h2⟩ := ih seen h
      refine ⟨h1, fun v => ?_⟩
      rw [h2 v, List.mem_cons]
      constructor
      · rintro (h3 | h3)
        · exact Or.inl h3
        · exact Or.inr (Or.inr h3)
      · rintro (h3 | h3 | h3)
        · exact Or.inl h3
        · exact Or.inl (h3 ▸ hx)
        · exact Or.inr h3
    · rw [if_neg hx]
      obtain ⟨h1, h2⟩ := ih (seen ++ [x])
        (List.Nodup.append h (List.nodup_singleton x) (by simpa using hx))
      refine ⟨h1, fun v => ?_⟩
      rw [h2 v, List.mem_append, List.mem_singleton, List.mem_cons]
      tauto

theorem mapM_map_some {α β γ : Type} (f : α → Option β) (h : γ → α) (g : γ → β)
    (l : List γ) (hl : ∀ x ∈ l, f (h x) = some (g x)) :
    (l.map h).mapM f = some (l.map g) := by
  induction l with
  | nil => rfl
  | cons x rest ih =>
    rw [List.map_cons, List.mapM_cons, hl x (by simp),
      ih (fun y hy => hl y (List.mem_cons_of_mem _ hy))]
    rfl

theorem group_parsed (tests : List Test) (st : SubTask)
    (hne : st.Tests ≠ [])
    (hmem : ∀ id ∈ st.Tests, ∃ t ∈ tests, t.ID = id)
    (hrange : ∀ t ∈ tests, minInt64 ≤ t.VisibleID ∧ t.VisibleID ≤ maxInt64) :
    parseNumbers ';' (groupText (buildTmap tests []) st.Tests true []) =
      some (memberVisibleIDs tests st) := by
  rw [groupText_members tests st hmem]
  apply parseNumbers_join ';' (by decide)
  · intro he
    have hl := memberVisibleIDs_length tests st hmem
    rw [he] at hl
    exact hne (List.length_eq_zero.mp hl.symm)
  · intro v hv
    have hin := memberVisibleIDs_mem tests st v hv
    rw [List.mem_map] at hin
    obtain ⟨t, ht, rfl⟩ := hin
    exact hrange t ht

theorem groups_parsed (tests : List Test) (subtasks : List SubTask)
    (hne : subtasks ≠ [])
    (hsubne : ∀ st ∈ subtasks, st.Tests ≠ [])
    (hmem : ∀ st ∈ subtasks, ∀ id ∈ st.Tests, ∃ t ∈ tests, t.ID = id)
    (hrange : ∀ t ∈ tests, minInt64 ≤ t.VisibleID ∧ t.VisibleID ≤ maxInt64) :
    (splitChar ',' (groupsValue tests subtasks)).mapM (parseNumbers ';') =
      some (subtasks.map (memberVisibleIDs tests)) := by
  have hsplit : splitChar ',' (groupsValue tests subtasks) =
      subtasks.map (fun st => groupText (buildTmap tests []) st.Tests true []) := by
    unfold groupsValue
    apply splitChar_joinStrs
    · simpa [groupTexts] using hne
    · intro l hl
      simp only [groupTexts, List.mem_map] at hl
      obtain ⟨st, _, rfl⟩ := hl
      exact groupText_chars _ _ _ _ (by simp)
  rw [hsplit]
  exact mapM_map_some _ _ _ subtasks
    (fun st hst => group_parsed tests st (hsubne st hst) (hmem st hst) hrange)

theorem weights_parsed (subtasks : List SubTask)
    (hne : subtasks ≠ [])
    (hsrange : ∀ st ∈ subtasks, minInt64 ≤ st.Score ∧ st.Score ≤ maxInt64) :
    parseNumbers ',' (weightsValue subtasks) = some (subtasks.map (fun st => st.Score)) := by
  have e : weightsValue subtasks =
      joinStrs [','] ((subtasks.map (fun st => st.Score)).map Itoa) := by
    unfold weightsValue weightTexts
    rw [List.map_map]
    rfl
  rw [e]
  apply parseNumbers_join ',' (by decide) _ (by simpa using hne)
  intro v hv
  rw [List.mem_map] at hv
  obtain ⟨st, hst, rfl⟩ := hv
  exact hsrange st hst

theorem parseGroups_exported (env : ExportEnv) (pb : Problem) (tests : List Test)
    (subtasks : List SubTask)
    (hne : subtasks ≠ [])
    (hsubne : ∀ st ∈ subtasks, st.Tests ≠ [])
    (hmem : ∀ st ∈ subtasks, ∀ id ∈ st.Tests, ∃ t ∈ tests, t.ID = id)
    (hrange : ∀ t ∈ tests, minInt64 ≤ t.VisibleID ∧ t.VisibleID ≤ maxInt64)
    (hsrange : ∀ st ∈ subtasks, minInt64 ≤ st.Score ∧ st.Score ≤ maxInt64) :
    parseGroups (asZipFile (propsEntry env pb tests subtasks)) =
      .ok (some
        { Subtasks := some (numberSubtasks 1 (subtasks.map (memberVisibleIDs tests))
            (subtasks.map (fun st => st.Score))),
          TimeLimit := none, MemoryLimit := none, Author := none, Source := none,
          ConsoleInput := none, TestName := none, DefaultPoints := none,
          SubtaskedTests :=
            distinctNumbers (subtasks.map (memberVisibleIDs tests)).flatten [] }) := by
  obtain ⟨more, hlines⟩ := propsContent_lines env pb (exportTestName env pb) tests subtasks
  have hbody : (asZipFile (propsEntry env pb tests subtasks)).Body =
      .readable (("groups=".toList ++ groupsValue tests subtasks) ::
        ("weights=".toList ++ weightsValue subtasks) :: more) false := by
    show ZipBody.readable (scanLines (propsContent env pb (exportTestName env pb) tests subtasks))
      false = _
    rw [hlines]
  unfold parseGroups
  rw [hbody]
  simp only [propertyValue_groups, propertyValue_weights, Option.getD_some,
    groups_parsed tests subtasks hne hsubne hmem hrange, weights_parsed subtasks hne hsrange]

theorem subtasked_count (tests : List Test) (subtasks : List SubTask)
    (hid : (tests.map (fun t => t.ID)).Nodup)
    (hdistinct : (tests.map (fun t => t.VisibleID)).Nodup)
    (hcovered : ∀ t ∈ tests, ∃ st ∈ subtasks, t.ID ∈ st.Tests) :
    (distinctNumbers (subtasks.map (memberVisibleIDs tests)).flatten []).length =
      tests.length := by
  obtain ⟨hnd, hmemb⟩ := distinctNumbers_spec (subtasks.map (memberVisibleIDs tests)).flatten []
    List.nodup_nil
  have hperm : (distinctNumbers (subtasks.map (memberVisibleIDs tests)).flatten []).Perm
      (tests.map (fun t => t.VisibleID)) := by
    rw [List.perm_ext_iff_of_nodup hnd hdistinct]
    intro v
    rw [hmemb v]
    simp only [List.not_mem_nil, false_or, List.mem_flatten, List.mem_map]
    constructor
    · rintro ⟨l, ⟨st, _, rfl⟩, hv⟩
      have := memberVisibleIDs_mem tests st v hv
      rw [List.mem_map] at this
      exact this
    · rintro ⟨t, ht, rfl⟩
      obtain ⟨st, hst, hin⟩ := hcovered t ht
      refine ⟨_, ⟨st, hst, rfl⟩, ?_⟩
      unfold memberVisibleIDs
      rw [List.mem_filterMap]
      exact ⟨t.ID, hin, by rw [buildTmap_present tests [] hid t ht]; rfl⟩
  rw [hperm.length_eq, List.length_map]

/-! ## C12: export and re-import of a problem with subtasks -/

/-- C12 (amended): let `GenerateArchive` succeed on a problem whose test name
has no `/`, whose tests have pairwise distinct ids and visible ids, and whose
subtasks, at least one, each have at least one member, have only tests of the
problem as members and between them contain every test of the problem. Let the
archive be given to `ProcessZipTestArchive`, the properties being read by the
parser modelled on the wire format, with a store that never fails. Then
`grader.properties` starts with the `groups=` and `weights=` lines of the
subtasks; the re-import returns nil; the `CreateTest` calls carry exactly the
exported visible ids and scores; and the `CreateSubTask` calls carry, up to
their order, the exported subtask scores with, as members, the newly created
tests of the same visible ids. -/
theorem round_trip_with_subtasks (env : ExportEnv) (pb : Problem) (ord : MapOrder)
    (base : BaseAPI) (pbID : Int) (tests : List Test) (subtasks : List SubTask)
    (es : List WrittenEntry)
    (hgen : GenerateArchive env pb = (none, es))
    (htests : env.Tests = .ok tests)
    (hsubs : env.SubTasks = .ok subtasks)
    (hne : subtasks ≠ [])
    (hsubne : ∀ st ∈ subtasks, st.Tests ≠ [])
    (hmem : ∀ st ∈ subtasks, ∀ id ∈ st.Tests, ∃ t ∈ tests, t.ID = id)
    (hcovered : ∀ t ∈ tests, ∃ st ∈ subtasks, t.ID ∈ st.Tests)
    (hid : (tests.map (fun t => t.ID)).Nodup)
    (hdistinct : (tests.map (fun t => t.VisibleID)).Nodup)
    (hrange : ∀ t ∈ tests, minInt64 ≤ t.VisibleID ∧ t.VisibleID ≤ maxInt64 ∧
      minInt64 ≤ t.Score ∧ t.Score ≤ maxInt64)
    (hsrange : ∀ st ∈ subtasks, minInt64 ≤ st.Score ∧ st.Score ≤ maxInt64)
    (hname : '/' ∉ exportTestName env pb)
    (hord : ord.Valid)
    (hbase : ∀ history call, base.fail history call = none) :
    (∃ e ∈ es, e.Name = "grader.properties".toList ∧
      (scanLines e.Content).take 2 =
        ["groups=".toList ++ groupsValue tests subtasks,
          "weights=".toList ++ weightsValue subtasks]) ∧
    ∃ (tr : List StoreCall) (created : Int → Int),
      ProcessZipTestArchive parseGroups ord base pbID (es.map asZipFile) = (.returned none, tr) ∧
      (tr.filterMap createArgs).Perm (tests.map (fun t => (t.VisibleID, t.Score))) ∧
      (∀ t ∈ tests, ∃ pre post,
        tr = pre ++ StoreCall.CreateTest pbID t.VisibleID t.Score :: post ∧
        created t.VisibleID = base.newID pre) ∧
      (tr.filterMap subtaskArgs).Perm
        (subtasks.map (fun st => (st.Score, (memberVisibleIDs tests st).map created))) ∧
      (∀ st ∈ subtasks, (memberVisibleIDs tests st).length = st.Tests.length) := by
  constructor
  · obtain ⟨tests2, subtasks2, h1, h2, h3⟩ := GenerateArchive_entries env pb es hgen
    rw [htests] at h1
    rw [hsubs] at h2
    cases h1
    cases h2
    have h0 : ¬ subtasks.length = 0 := fun h => hne (List.length_eq_zero.mp h)
    rw [if_neg h0] at h3
    obtain ⟨more, hl⟩ := propsContent_lines env pb (exportTestName env pb) tests subtasks
    refine ⟨⟨"grader.properties".toList,
      propsContent env pb (exportTestName env pb) tests subtasks⟩, by rw [h3]; simp, rfl, ?_⟩
    rw [hl]
    rfl
  · exact round_trip_of_props env pb parseGroups ord base pbID tests subtasks es _ _
      hgen htests hsubs hne hdistinct hrange hname hmem hord hbase
      (parseGroups_exported env pb tests subtasks hne hsubne hmem
        (fun t ht => ⟨(hrange t ht).1, (hrange t ht).2.1⟩) hsrange)
      rfl
      (numberSubtasks_spec subtasks (memberVisibleIDs tests) 1).2.2
      (numberSubtasks_spec subtasks (memberVisibleIDs tests) 1).1
      (subtasked_count tests subtasks hid hdistinct hcovered)

/-- Instance of `round_trip_with_subtasks`: tests 1, 2, 3 with scores 40, 30,
30 and the subtasks {1, 2} of weight 70 and {3} of weight 30. -/
theorem round_trip_with_subtasks_witness :
    (∃ e ∈ (GenerateArchive (sampleExport threeTests coveringSubTasks) (sampleProblem 10000)).2,
      e.Name = "grader.properties".toList ∧
      (scanLines e.Content).take 2 = ["groups=1;2,3".toList, "weights=70,30".toList]) ∧
    ∃ (tr : List StoreCall) (created : Int → Int),
      ProcessZipTestArchive parseGroups storageOrder okBase 1
        (exportedArchive coveringSubTasks) = (.returned none, tr) ∧
      (tr.filterMap createArgs).Perm [(1, 40), (2, 30), (3, 30)] ∧
      (∀ t ∈ threeTests, ∃ pre post,
        tr = pre ++ StoreCall.CreateTest 1 t.VisibleID t.Score :: post ∧
        created t.VisibleID = okBase.newID pre) ∧
      (tr.filterMap subtaskArgs).Perm
        (coveringSubTasks.map (fun st =>
          (st.Score, (memberVisibleIDs threeTests st).map created))) ∧
      (∀ st ∈ coveringSubTasks, (memberVisibleIDs threeTests st).length = st.Tests.length) :=
  round_trip_with_subtasks (sampleExport threeTests coveringSubTasks) (sampleProblem 10000)
    storageOrder okBase 1 threeTests coveringSubTasks
    (GenerateArchive (sampleExport threeTests coveringSubTasks) (sampleProblem 10000)).2
    (by decide) rfl rfl (by decide) (by decide) (by decide) (by decide) (by decide) (by decide)
    (by decide) (by decide) (by decide)
    (fun l => ⟨List.Perm.refl l, List.Perm.refl l, List.Perm.refl l, List.Perm.refl l⟩)
    (fun _ _ => rfl)

/-- C12 as stated fails on its own example: the problem with tests 1, 2, 3
(scores 40, 30, 30) and one subtask of weight 70 over tests 1 and 2 is exported
with `groups=1;2` and `weights=70`; read back, the subtasks refer to two tests
while three were discovered, and `ProcessZipTestArchive` returns the error
of line 166 without a storage call. -/
theorem round_trip_uncovered_test :
    (GenerateArchive (sampleExport threeTests sampleSubTasks) (sampleProblem 10000)).1 = none ∧
    (exportedArchive sampleSubTasks).map (fun f => f.Name) =
      ["1-sum.in".toList, "1-sum.ok".toList, "2-sum.in".toList, "2-sum.ok".toList,
        "3-sum.in".toList, "3-sum.ok".toList, "tests.txt".toList,
        "grader.properties".toList] ∧
    (∃ f ∈ exportedArchive sampleSubTasks, f.Name = "grader.properties".toList ∧
      f.Body = .readable ["groups=1;2".toList, "weights=70".toList, "time=1.000000".toList,
        "memory=64.000000".toList, "console_input=false".toList, "test_name=sum".toList]
        false) ∧
    ((scanArchive parseGroups NewArchiveCtx (exportedArchive sampleSubTasks)).2.props.map
      (fun q => (q.Subtasks, q.SubtaskedTests))) =
        some (some [(1, ⟨70, [1, 2]⟩)], [1, 2]) ∧
    ProcessZipTestArchive parseGroups storageOrder okBase 1 (exportedArchive sampleSubTasks) =
      (.returned (some errMismatch), []) := by
  refine ⟨by decide, by decide, by decide, by decide, by decide⟩

/-! ## C13: one line per test in `tests.txt` -/

/-- C13 (amended): when `base.Tests` returns `tests` (ids and scores being Go
ints), the entry `tests.txt` written by either `GenerateArchive` on success
reads as exactly one line `<visibleID> <score>` per test and no other line, the
lines following the order of `tests`: line `i` is that of the `i`-th test
returned, so the visible ids read from the lines are ascending exactly when the
list returned by `base.Tests` is. -/
theorem tests_txt_lines (env : ExportEnv) (pb : Problem) (brief : Bool) (tests : List Test)
    (htests : env.Tests = .ok tests)
    (hrange : ∀ t ∈ tests, minInt64 ≤ t.VisibleID ∧ t.VisibleID ≤ maxInt64 ∧
      minInt64 ≤ t.Score ∧ t.Score ≤ maxInt64) :
    scanLines (scoreContent tests) =
      tests.map (fun test => Itoa test.VisibleID ++ ' ' :: Itoa test.Score) ∧
    (scanLines (scoreContent tests)).map parseScoreLine =
      tests.map (fun test => some (test.VisibleID, test.Score)) ∧
    (∀ es, GenerateArchive env pb = (none, es) →
      (⟨"tests.txt".toList, scoreContent tests⟩ : WrittenEntry) ∈ es) ∧
    (∀ es, Generator.GenerateArchive env pb brief = (none, es) →
      (⟨"tests.txt".toList, scoreContent tests⟩ : WrittenEntry) ∈ es) := by
  refine ⟨scanLines_scoreContent tests, ?_, ?_, ?_⟩
  · rw [scanLines_scoreContent, List.map_map]
    apply List.map_congr_left
    intro t ht
    have h := hrange t ht
    exact parseScoreLine_printed t.VisibleID t.Score h.1 h.2.1 h.2.2.1 h.2.2.2
  · intro es h
    obtain ⟨tests2, subtasks, h1, _, h3⟩ := GenerateArchive_entries env pb es h
    rw [htests] at h1
    cases h1
    rw [h3]
    simp [scoreEntry]
  · intro es h
    exact Generator_scoreEntry env pb brief es tests htests h

/-- Instance of `tests_txt_lines`: tests 1, 2, 3 with scores 40, 30, 30 give
the lines `1 40`, `2 30`, `3 30`. -/
theorem tests_txt_lines_witness :
    scanLines (scoreContent threeTests) = ["1 40".toList, "2 30".toList, "3 30".toList] ∧
    (scanLines (scoreContent threeTests)).map parseScoreLine =
      [some (1, 40), some (2, 30), some (3, 30)] ∧
    (⟨"tests.txt".toList, scoreContent threeTests⟩ : WrittenEntry) ∈
      (GenerateArchive (sampleExport threeTests []) (sampleProblem 10000)).2 :=
  ⟨(tests_txt_lines (sampleExport threeTests []) (sampleProblem 10000) true threeTests rfl
      (by decide)).1,
    (tests_txt_lines (sampleExport threeTests []) (sampleProblem 10000) true threeTests rfl
      (by decide)).2.1,
    (tests_txt_lines (sampleExport threeTests []) (sampleProblem 10000) true threeTests rfl
      (by decide)).2.2.1 _ (by decide)⟩

/-- C13 as stated fails: when `base.Tests` returns the test with visible id 2
before the test with visible id 1, the export succeeds and `tests.txt` reads
`2 30` then `1 40`, which is not ascending in the visible id. -/
theorem tests_txt_follows_store_order :
    (GenerateArchive (sampleExport unsortedTests []) (sampleProblem 10000)).1 = none ∧
    (⟨"tests.txt".toList, "2 30\n1 40\n".toList⟩ : WrittenEntry) ∈
      (GenerateArchive (sampleExport unsortedTests []) (sampleProblem 10000)).2 ∧
    (Generator.GenerateArchive (sampleExport unsortedTests []) (sampleProblem 10000) true).1 =
      none ∧
    (⟨"tests.txt".toList, "2 30\n1 40\n".toList⟩ : WrittenEntry) ∈
      (Generator.GenerateArchive (sampleExport unsortedTests []) (sampleProblem 10000) true).2 ∧
    scanLines "2 30\n1 40\n".toList = ["2 30".toList, "1 40".toList] ∧
    (scanLines "2 30\n1 40\n".toList).map parseScoreLine = [some (2, 30), some (1, 40)] := by
  refine ⟨by decide, by decide, by decide, by decide, by decide, by decide⟩

/-! ## C14: the serialization of subtasks -/

/-- C14 (amended): for a non-empty list of subtasks whose member ids are ids
of the tests of the problem, these having pairwise distinct ids, the `groups=`
value is the comma-join, in subtask order, of one group per subtask, each group
being the `;`-join of the visible ids of the member tests, and the `weights=`
value is the comma-join of the subtask scores in the same order; cutting either
value at the commas gives back exactly one element per subtask. Both
`GenerateArchive` functions write the two values on the first two lines of
`grader.properties`. -/
theorem subtask_serialization (tests : List Test) (subtasks : List SubTask)
    (hne : subtasks ≠ [])
    (hid : (tests.map (fun t => t.ID)).Nodup)
    (hmem : ∀ st ∈ subtasks, ∀ id ∈ st.Tests, ∃ t ∈ tests, t.ID = id) :
    ∃ vis : Int → Int, (∀ t ∈ tests, vis t.ID = t.VisibleID) ∧
      groupsValue tests subtasks =
        joinStrs [','] (subtasks.map (fun st =>
          joinStrs [';'] (st.Tests.map (fun id => Itoa (vis id))))) ∧
      weightsValue subtasks = joinStrs [','] (subtasks.map (fun st => Itoa st.Score)) ∧
      splitChar ',' (groupsValue tests subtasks) =
        subtasks.map (fun st => joinStrs [';'] (st.Tests.map (fun id => Itoa (vis id)))) ∧
      splitChar ',' (weightsValue subtasks) = subtasks.map (fun st => Itoa st.Score) ∧
      (∀ (env : ExportEnv) (pb : Problem) (testName : Str),
        (∃ rest, propsContent env pb testName tests subtasks =
          "groups=".toList ++ groupsValue tests subtasks ++ ['\n'] ++
          "weights=".toList ++ weightsValue subtasks ++ ['\n'] ++ rest) ∧
        (∃ rest, Generator.propsHead env pb testName tests subtasks =
          "groups=".toList ++ groupsValue tests subtasks ++ ['\n'] ++
          "weights=".toList ++ weightsValue subtasks ++ ['\n'] ++ rest)) := by
  refine ⟨fun id => ((mapLookup (buildTmap tests []) id).map (fun t => t.VisibleID)).getD 0,
    ?_, ?_, rfl, ?_, ?_, ?_⟩
  · intro t ht
    simp [buildTmap_present tests [] hid t ht]
  · have hg : groupTexts tests subtasks = subtasks.map (fun st =>
        joinStrs [';'] (st.Tests.map (fun id => Itoa
          (((mapLookup (buildTmap tests []) id).map (fun t => t.VisibleID)).getD 0)))) := by
      unfold groupTexts
      apply List.map_congr_left
      intro st hst
      apply groupText_join
      intro id hidm
      obtain ⟨t, ht, he⟩ := hmem st hst id hidm
      refine ⟨t, ?_, ?_⟩
      · rw [← he]; exact buildTmap_present tests [] hid t ht
      · rw [← he, buildTmap_present tests [] hid t ht]; rfl
    unfold groupsValue
    rw [hg]
  · have hg : groupTexts tests subtasks = subtasks.map (fun st =>
        joinStrs [';'] (st.Tests.map (fun id => Itoa
          (((mapLookup (buildTmap tests []) id).map (fun t => t.VisibleID)).getD 0)))) := by
      unfold groupTexts
      apply List.map_congr_left
      intro st hst
      apply groupText_join
      intro id hidm
      obtain ⟨t, ht, he⟩ := hmem st hst id hidm
      refine ⟨t, ?_, ?_⟩
      · rw [← he]; exact buildTmap_present tests [] hid t ht
      · rw [← he, buildTmap_present tests [] hid t ht]; rfl
    rw [← hg]
    unfold groupsValue
    apply splitChar_joinStrs
    · simpa [groupTexts] using hne
    · intro l hl
      simp only [groupTexts, List.mem_map] at hl
      obtain ⟨st, _, rfl⟩ := hl
      exact groupText_chars _ _ _ _ (by simp)
  · unfold weightsValue weightTexts
    apply splitChar_joinStrs
    · simpa using hne
    · intro l hl
      simp only [List.mem_map] at hl
      obtain ⟨st, _, rfl⟩ := hl
      exact Itoa_no_comma _
  · intro env pb testName
    constructor
    · exact ⟨_, by simp only [propsContent, List.append_assoc]; rfl⟩
    · have h0 : subtasks.length ≠ 0 := by
        intro h; exact hne (List.length_eq_zero.mp h)
      exact ⟨_, by simp only [Generator.propsHead, if_pos h0, List.append_assoc]; rfl⟩

/-- Instance of `subtask_serialization`: tests 1, 2, 3 and one subtask of
weight 70 over the first two give `groups=1;2` and `weights=70`. -/
theorem subtask_serialization_witness :
    groupsValue threeTests sampleSubTasks = "1;2".toList ∧
    weightsValue sampleSubTasks = "70".toList ∧
    ∃ vis : Int → Int, (∀ t ∈ threeTests, vis t.ID = t.VisibleID) ∧
      splitChar ',' (groupsValue threeTests sampleSubTasks) =
        sampleSubTasks.map (fun st => joinStrs [';'] (st.Tests.map (fun id => Itoa (vis id)))) ∧
      splitChar ',' (weightsValue sampleSubTasks) =
        sampleSubTasks.map (fun st => Itoa st.Score) := by
  obtain ⟨vis, h1, _, _, h4, h5, _⟩ :=
    subtask_serialization threeTests sampleSubTasks (by decide) (by decide) (by decide)
  exact ⟨by decide, by decide, vis, h1, h4, h5⟩

/-- C14 as stated fails: with tests of visible ids 1, 2, 3 and one subtask
whose members are the ids of tests 1 and 2 and an id of no test, the export
succeeds and writes `groups=1;2;`. The group ends in a separator, so it is the
`;`-join of three visible ids for no assignment of visible ids to the members. -/
theorem group_with_unknown_member :
    groupsValue threeTests gappedSubTasks = "1;2;".toList ∧
    (GenerateArchive (sampleExport threeTests gappedSubTasks) (sampleProblem 10000)).1 = none ∧
    (∃ e ∈ (GenerateArchive (sampleExport threeTests gappedSubTasks) (sampleProblem 10000)).2,
      e.Name = "grader.properties".toList ∧
      (scanLines e.Content).head? = some "groups=1;2;".toList) ∧
    (∀ vis : Int → Int, groupsValue threeTests gappedSubTasks ≠
      joinStrs [','] (gappedSubTasks.map (fun st =>
        joinStrs [';'] (st.Tests.map (fun id => Itoa (vis id)))))) := by
  refine ⟨by decide, by decide, by decide, ?_⟩
  intro vis h
  have hg : groupsValue threeTests gappedSubTasks = "1;2;".toList := by decide
  rw [hg] at h
  have hj : joinStrs [','] (gappedSubTasks.map (fun st =>
      joinStrs [';'] (st.Tests.map (fun id => Itoa (vis id))))) =
      (Itoa (vis 11) ++ ';' :: (Itoa (vis 12) ++ [';'])) ++ Itoa (vis 99) := by
    simp [gappedSubTasks, joinStrs]
  rw [hj] at h
  have hl := congrArg List.getLast? h
  rw [List.getLast?_append_of_ne_nil _ (Itoa_ne_nil _)] at hl
  have hm : ';' ∈ Itoa (vis 99) := List.mem_of_getLast?_eq_some (by rw [← hl]; rfl)
  rcases Itoa_chars _ _ hm with hd | hd
  · exact absurd hd (by decide)
  · exact absurd hd (by decide)

/-! ## C15: the lines of `grader.properties` written by `generator.go` -/

/-- C15, evaluated on a problem whose source size (20000) is not the default
(10000): the export of `generator.go` succeeds, and its `grader.properties`
has the line `source_size=20000console_input=false`, because `source_size` is
written without a line end. No line of the file starts with `console_input=`. -/
theorem source_size_line_not_ended :
    (Generator.GenerateArchive (sampleExport threeTests []) (sampleProblem 20000) true).1 = none ∧
    (∃ e ∈ (Generator.GenerateArchive (sampleExport threeTests []) (sampleProblem 20000) true).2,
      e.Name = "grader.properties".toList ∧
      scanLines e.Content =
        ["time=1.000000".toList, "memory=64.000000".toList,
          "source_size=20000console_input=false".toList, "test_name=sum".toList,
          "scoring_strategy=sum_subtasks".toList] ∧
      ∀ l ∈ scanLines e.Content, l.take 14 ≠ "console_input=".toList) ∧
    (∃ e ∈ (Generator.GenerateArchive (sampleExport threeTests []) (sampleProblem 20000) false).2,
      e.Name = "grader.properties".toList ∧
      ∀ l ∈ scanLines e.Content, l.take 14 ≠ "console_input=".toList) := by
  refine ⟨by decide, by decide, by decide⟩

/-! ## C16: the verdict of the checker -/

/-- C16: when the checker's language resolves, every sandbox call succeeds,
`MakeGoodCommand` succeeds and the captured stdout is a decimal integer `s` in
the range of `int`, a space and any text `t`, then `Execute` returns nil with
`score = s` and `output` equal to `t` without its leading and trailing
whitespace. -/
theorem checker_verdict_parsed (env : CheckerEnv) (box : Sandbox)
    (job : legacyCustomCheckerTask) (lang : Language) (goodCmd : List Str)
    (neg : Bool) (ds t : Str)
    (hlang : langLookup Langs (GetLangByFilename env.visit job.filename) = some lang)
    (hbox : ∀ history call, box.fail history call = false)
    (hcmd : env.MakeGoodCommand lang.RunCommand = some goodCmd)
    (hne : ds ≠ []) (hds : ds.all isDigit = true)
    (h1 : minInt64 ≤ decimalNumber neg ds) (h2 : decimalNumber neg ds ≤ maxInt64)
    (hout : ∀ history, box.stdout history = decimalText neg ds ++ ' ' :: t) :
    (Execute env box job).err = none ∧
    (Execute env box job).job.score = decimalNumber neg ds ∧
    (Execute env box job).job.output = TrimSpace t := by
  unfold Execute
  simp only [hlang, hbox, hcmd, hout, Bool.false_eq_true, if_false, scoredTask,
    fscanfScore_decimal neg ds t hne hds h1 h2, Option.getD_some, TrimSpace_dropBlanks,
    and_self]

/-- Instance of `checker_verdict_parsed`: stdout `100 Output is correct` gives
score 100 and output `Output is correct`. -/
theorem checker_verdict_parsed_witness :
    (Execute sampleCheckerEnv (printingBox "100 Output is correct") sampleTask).err = none ∧
    (Execute sampleCheckerEnv (printingBox "100 Output is correct") sampleTask).job.score = 100 ∧
    (Execute sampleCheckerEnv (printingBox "100 Output is correct") sampleTask).job.output =
      "Output is correct".toList :=
  checker_verdict_parsed sampleCheckerEnv (printingBox "100 Output is correct") sampleTask
    (cppLanguage "cpp" "C++11" "-std=c++11" ".cpp11") (strs ["/box/output"]) false
    "100".toList "Output is correct".toList (by decide) (fun _ _ => rfl) (by decide)
    (by decide) (by decide) (by decide) (by decide) (fun _ => rfl)

/-! ## C17: a verdict that is not an integer -/

theorem checker_no_integer (env : CheckerEnv) (box : Sandbox) (job : legacyCustomCheckerTask)
    (lang : Language) (goodCmd : List Str)
    (hlang : langLookup Langs (GetLangByFilename env.visit job.filename) = some lang)
    (hbox : ∀ history call, box.fail history call = false)
    (hcmd : env.MakeGoodCommand lang.RunCommand = some goodCmd)
    (hout : ∀ history, scanInt (box.stdout history) = none) :
    (Execute env box job).job.score = job.score ∧
    (Execute env box job).job.output = "Wrong checker output".toList := by
  unfold Execute
  simp only [hlang, hbox, hcmd, Bool.false_eq_true, if_false, scoredTask, fscanfScore, hout,
    Option.getD_none, and_self]

/-- C17, the code at the failing input: with every sandbox step successful and
stdout `12abc`, whose first whitespace-delimited token is not an integer,
`Execute` sets output to `Wrong checker output` but has stored 12 in `score`;
on `garbage` and on empty stdout the score stays 0 as the claim says. -/
theorem checker_partial_token_sets_score :
    (Execute sampleCheckerEnv (printingBox "12abc") sampleTask).job.output =
      "Wrong checker output".toList ∧
    (Execute sampleCheckerEnv (printingBox "12abc") sampleTask).job.score = 12 ∧
    sampleTask.score = 0 ∧
    (Execute sampleCheckerEnv (printingBox "garbage") sampleTask).job.output =
      "Wrong checker output".toList ∧
    (Execute sampleCheckerEnv (printingBox "garbage") sampleTask).job.score = 0 ∧
    (Execute sampleCheckerEnv (printingBox "") sampleTask).job.output =
      "Wrong checker output".toList ∧
    (Execute sampleCheckerEnv (printingBox "") sampleTask).job.score = 0 := by
  refine ⟨by decide, by decide, by decide, by decide, by decide, by decide, by decide⟩

/-! ## C18: `Execute` returns nil -/

/-- C18: for every checker file name, every behaviour of the sandbox calls and
of `MakeGoodCommand` and every captured stdout, `Execute` returns a nil error. -/
theorem execute_returns_nil (env : CheckerEnv) (box : Sandbox) (job : legacyCustomCheckerTask) :
    (Execute env box job).err = none := by
  rcases Execute_cases env box job with ⟨_, h⟩ | ⟨_, _, _, h⟩ | ⟨_, _, _, _, h⟩ |
    ⟨_, _, _, _, _, h⟩ | ⟨_, _, _, _, _, _, h⟩ | ⟨_, _, _, _, _, _, _, h⟩ |
    ⟨_, _, _, _, _, _, _, _, _, h⟩ | ⟨_, _, _, _, _, _, _, _, _, h⟩ <;> rw [h]

/-! ## C19: infrastructure failures -/

/-- C19: if the checker's language is not resolved, `Execute` makes no sandbox
call, sets output to `ErrOut` and leaves the score; and whenever one of the
sandbox calls made (`WriteFile`, `CopyInBox`, `RunCommand`) fails, that call is
the last one made, output is `ErrOut` and the score is left as it was. -/
theorem infrastructure_failure (env : CheckerEnv) (box : Sandbox)
    (job : legacyCustomCheckerTask) :
    (langLookup Langs (GetLangByFilename env.visit job.filename) = none →
      (Execute env box job).calls = [] ∧ (Execute env box job).job.output = env.ErrOut ∧
      (Execute env box job).job.score = job.score) ∧
    (∀ (i : Nat) (call : BoxCall), (Execute env box job).calls[i]? = some call →
      box.fail ((Execute env box job).calls.take i) call = true →
      i + 1 = (Execute env box job).calls.length ∧
      (Execute env box job).job.output = env.ErrOut ∧
      (Execute env box job).job.score = job.score) := by
  constructor
  · intro h
    unfold Execute
    simp only [h, failedTask, and_self]
  · intro i call hget hfail
    rcases Execute_cases env box job with ⟨_, h⟩ | ⟨_, _, f1, h⟩ | ⟨_, _, f1, f2, h⟩ |
      ⟨_, _, f1, f2, f3, h⟩ | ⟨_, _, f1, f2, f3, f4, h⟩ | ⟨_, _, f1, f2, f3, f4, _, h⟩ |
      ⟨_, _, _, f1, f2, f3, f4, _, f5, h⟩ | ⟨_, _, _, f1, f2, f3, f4, _, f5, h⟩ <;>
    rw [h] at hget hfail ⊢ <;>
    rcases i with _ | _ | _ | _ | _ | _ <;>
    simp_all [failedTask]

/-- Instance of `infrastructure_failure`: with an unknown checker extension no
sandbox call is made; when the second `WriteFile` fails, it is the last call,
no command is run and the output is `ErrOut`. -/
theorem infrastructure_failure_witness :
    ((Execute sampleCheckerEnv (printingBox "100 fine") strangeTask).calls = [] ∧
      (Execute sampleCheckerEnv (printingBox "100 fine") strangeTask).job.output =
        sampleCheckerEnv.ErrOut ∧
      (Execute sampleCheckerEnv (printingBox "100 fine") strangeTask).job.score =
        strangeTask.score) ∧
    (Execute sampleCheckerEnv brokenBox sampleTask).calls =
      [writeProgramOut sampleTask, writeCorrectIn sampleTask] ∧
    (1 + 1 = (Execute sampleCheckerEnv brokenBox sampleTask).calls.length ∧
      (Execute sampleCheckerEnv brokenBox sampleTask).job.output = sampleCheckerEnv.ErrOut ∧
      (Execute sampleCheckerEnv brokenBox sampleTask).job.score = sampleTask.score) :=
  ⟨(infrastructure_failure sampleCheckerEnv (printingBox "100 fine") strangeTask).1 (by decide),
    by decide,
    (infrastructure_failure sampleCheckerEnv brokenBox sampleTask).2 1
      (writeCorrectIn sampleTask) (by decide) (by decide)⟩

/-! ## C20: the command line of the checker -/

/-- C20: every `RunCommand` call made by `Execute` has as argv the run command
of the resolved checker language, as returned by `MakeGoodCommand`, followed by
`/box/program.out`, `/box/correct.out` and `/box/correct.in` in that order, and
carries the limits of 512 MB, 20 seconds and 2 processes. -/
theorem checker_argv (env : CheckerEnv) (box : Sandbox) (job : legacyCustomCheckerTask)
    (argv : List Str) (memoryLimit wallTimeLimit maxProcs : Nat)
    (hrun : BoxCall.RunCommand argv memoryLimit wallTimeLimit maxProcs ∈
      (Execute env box job).calls) :
    ∃ lang goodCmd, langLookup Langs (GetLangByFilename env.visit job.filename) = some lang ∧
      env.MakeGoodCommand lang.RunCommand = some goodCmd ∧
      argv = goodCmd ++
        ["/box/program.out".toList, "/box/correct.out".toList, "/box/correct.in".toList] ∧
      memoryLimit = 524288 ∧ wallTimeLimit = 20 ∧ maxProcs = 2 := by
  rcases Execute_cases env box job with ⟨_, h⟩ | ⟨_, _, _, h⟩ | ⟨_, _, _, _, h⟩ |
    ⟨_, _, _, _, _, h⟩ | ⟨_, _, _, _, _, _, h⟩ | ⟨_, _, _, _, _, _, _, h⟩ |
    ⟨lang, goodCmd, hl, _, _, _, _, hc, _, h⟩ | ⟨lang, goodCmd, hl, _, _, _, _, hc, _, h⟩ <;>
  rw [h] at hrun <;>
  simp only [writeProgramOut, writeCorrectIn, writeCorrectOut, copyChecker, runChecker,
    List.mem_cons, List.mem_singleton, List.not_mem_nil, reduceCtorEq, or_false, false_or,
    BoxCall.RunCommand.injEq] at hrun
  · exact ⟨lang, goodCmd, hl, hc, hrun.1, hrun.2.1, hrun.2.2.1, hrun.2.2.2⟩
  · exact ⟨lang, goodCmd, hl, hc, hrun.1, hrun.2.1, hrun.2.2.1, hrun.2.2.2⟩

/-- Instance of `checker_argv`: the C++ checker of submission 17 is run as
`/box/output /box/program.out /box/correct.out /box/correct.in`. -/
theorem checker_argv_witness :
    BoxCall.RunCommand (strs ["/box/output", "/box/program.out", "/box/correct.out",
        "/box/correct.in"]) 524288 20 2 ∈
      (Execute sampleCheckerEnv (printingBox "100 fine") sampleTask).calls ∧
    ∃ lang goodCmd,
      langLookup Langs (GetLangByFilename sampleCheckerEnv.visit sampleTask.filename) =
        some lang ∧
      sampleCheckerEnv.MakeGoodCommand lang.RunCommand = some goodCmd ∧
      strs ["/box/output", "/box/program.out", "/box/correct.out", "/box/correct.in"] =
        goodCmd ++
          ["/box/program.out".toList, "/box/correct.out".toList, "/box/correct.in".toList] ∧
      524288 = 524288 ∧ 20 = 20 ∧ 2 = 2 :=
  ⟨by decide,
    checker_argv sampleCheckerEnv (printingBox "100 fine") sampleTask _ 524288 20 2
      (by decide)⟩

/-! ## Facts about the language registry -/

theorem Langs_keys : (Langs.map Prod.fst).Nodup ∧ ∀ kv ∈ Langs, kv.1 ≠ [] := by
  constructor <;> decide

theorem Langs_extensions : ∀ kv ∈ Langs, kv.2.Extensions ≠ [] ∧ ∀ e ∈ kv.2.Extensions, e ≠ [] := by
  decide

theorem Langs_terminal_unique :
    ∀ a ∈ Langs, ∀ b ∈ Langs, ∀ e ∈ b.2.Extensions,
      a.2.Extensions.getLast? = some e → b = a := by
  decide

theorem GetLangByFilename_found (visit : List (Str × Language)) (filename : Str)
    (kv : Str × Language) (hne : pathExt filename ≠ [])
    (hfind : visit.find? (fun kv => decide (pathExt filename ∈ kv.2.Extensions)) = some kv) :
    GetLangByFilename visit filename = kv.1 := by
  unfold GetLangByFilename
  simp only [if_neg hne, hfind]

theorem GetLangByFilename_none (visit : List (Str × Language)) (filename : Str)
    (h : pathExt filename = [] ∨
      visit.find? (fun kv => decide (pathExt filename ∈ kv.2.Extensions)) = none) :
    GetLangByFilename visit filename = [] := by
  unfold GetLangByFilename
  by_cases hne : pathExt filename = []
  · simp only [hne, if_true]
  · rcases h with h | h
    · exact absurd h hne
    · simp only [if_neg hne, h]

theorem Langs_lookup : langLookup Langs [] = none ∧
    ∀ kv ∈ Langs, langLookup Langs kv.1 = some kv.2 := by
  constructor <;> decide

theorem GetLangByFilename_unique (visit : List (Str × Language)) (hvisit : visit.Perm Langs)
    (name key : Str)
    (hlisted : ∃ kv ∈ Langs, kv.1 = key ∧ pathExt name ∈ kv.2.Extensions)
    (huniq : ∀ kv ∈ Langs, pathExt name ∈ kv.2.Extensions → kv.1 = key) :
    GetLangByFilename visit name = key := by
  obtain ⟨kv0, hmem, _, hl⟩ := hlisted
  have hne : pathExt name ≠ [] := (Langs_extensions kv0 hmem).2 _ hl
  cases hf : visit.find? (fun kv => decide (pathExt name ∈ kv.2.Extensions)) with
  | none =>
    exfalso
    rw [List.find?_eq_none] at hf
    have := hf kv0 (hvisit.mem_iff.mpr hmem)
    simp only [decide_eq_true_eq] at this
    exact this hl
  | some kv =>
    rw [GetLangByFilename_found visit name kv hne hf]
    have hp := List.find?_some hf
    simp only [decide_eq_true_eq] at hp
    exact huniq kv (hvisit.mem_iff.mp (List.mem_of_find?_eq_some hf)) hp

/-! ## C21: the last-listed extensions of the registry -/

/-- C21: in `Langs` every language has a non-empty extension list, and two
registered languages with different keys have different last-listed
extensions. -/
theorem terminal_extensions_distinct :
    (∀ kv ∈ Langs, kv.2.Extensions ≠ []) ∧
    (∀ a ∈ Langs, ∀ b ∈ Langs, a.1 ≠ b.1 →
      a.2.Extensions.getLast? ≠ b.2.Extensions.getLast?) := by
  constructor <;> decide

/-- Instance of `terminal_extensions_distinct`: the entries `cpp` and `cpp14`
share four extensions and end in `.cpp11` and `.cpp14`. -/
theorem terminal_extensions_distinct_witness :
    (cppLanguage "cpp" "C++11" "-std=c++11" ".cpp11").Extensions ≠ [] ∧
    (cppLanguage "cpp" "C++11" "-std=c++11" ".cpp11").Extensions.getLast? ≠
      (cppLanguage "cpp14" "C++14" "-std=c++14" ".cpp14").Extensions.getLast? :=
  ⟨terminal_extensions_distinct.1
      ("cpp".toList, cppLanguage "cpp" "C++11" "-std=c++11" ".cpp11") (by decide),
    terminal_extensions_distinct.2
      ("cpp".toList, cppLanguage "cpp" "C++11" "-std=c++11" ".cpp11") (by decide)
      ("cpp14".toList, cppLanguage "cpp14" "C++14" "-std=c++14" ".cpp14") (by decide)
      (by decide)⟩

/-! ## C22: resolution by the last-listed extension -/

/-- C22: the last-listed extension of a registered language is listed by no
other registered language, and for every file name with that extension
`GetLangByFilename` returns the key of that language, in whatever order the
`range` over `Langs` visits the entries. -/
theorem terminal_extension_resolves (visit : List (Str × Language)) (key : Str)
    (lang : Language) (filename : Str)
    (hvisit : visit.Perm Langs)
    (hmem : (key, lang) ∈ Langs)
    (hlast : lang.Extensions.getLast? = some (pathExt filename)) :
    (∀ kv ∈ Langs, pathExt filename ∈ kv.2.Extensions → kv = (key, lang)) ∧
    GetLangByFilename visit filename = key := by
  have huniq : ∀ kv ∈ Langs, pathExt filename ∈ kv.2.Extensions → kv = (key, lang) :=
    fun kv hkv he => Langs_terminal_unique (key, lang) hmem kv hkv _ he hlast
  refine ⟨huniq, ?_⟩
  have hlisted : pathExt filename ∈ lang.Extensions := List.mem_of_getLast?_eq_some hlast
  have hne : pathExt filename ≠ [] := (Langs_extensions (key, lang) hmem).2 _ hlisted
  cases hf : visit.find? (fun kv => decide (pathExt filename ∈ kv.2.Extensions)) with
  | none =>
    exfalso
    rw [List.find?_eq_none] at hf
    have := hf (key, lang) (hvisit.mem_iff.mpr hmem)
    simp only [decide_eq_true_eq] at this
    exact this hlisted
  | some kv =>
    rw [GetLangByFilename_found visit filename kv hne hf]
    have hp := List.find?_some hf
    simp only [decide_eq_true_eq] at hp
    rw [huniq kv (hvisit.mem_iff.mp (List.mem_of_find?_eq_some hf)) hp]

/-- Instance of `terminal_extension_resolves`: with the registry visited in
reverse, `sol.cpp17` resolves to `cpp17`. -/
theorem terminal_extension_resolves_witness :
    (∀ kv ∈ Langs, pathExt "sol.cpp17".toList ∈ kv.2.Extensions →
      kv = ("cpp17".toList, cppLanguage "cpp17" "C++17" "-std=c++17" ".cpp17")) ∧
    GetLangByFilename Langs.reverse "sol.cpp17".toList = "cpp17".toList :=
  terminal_extension_resolves Langs.reverse "cpp17".toList
    (cppLanguage "cpp17" "C++17" "-std=c++17" ".cpp17") "sol.cpp17".toList
    (List.reverse_perm Langs) (by decide) (by decide)

/-! ## C23: when no language is found -/

/-- C23: in whatever order `Langs` is visited, `GetLangByFilename` returns the
empty key exactly when the file name has no extension or no registered language
lists its extension; a non-empty result is a key of `Langs` whose language
lists the extension of the file name. -/
theorem resolution_empty_iff (visit : List (Str × Language)) (filename : Str)
    (hvisit : visit.Perm Langs) :
    (GetLangByFilename visit filename = [] ↔
      (pathExt filename = [] ∨ ∀ kv ∈ Langs, pathExt filename ∉ kv.2.Extensions)) ∧
    (GetLangByFilename visit filename ≠ [] →
      ∃ lang, (GetLangByFilename visit filename, lang) ∈ Langs ∧
        pathExt filename ∈ lang.Extensions) := by
  by_cases hne : pathExt filename = []
  · have h0 := GetLangByFilename_none visit filename (Or.inl hne)
    exact ⟨⟨fun _ => Or.inl hne, fun _ => h0⟩, fun h => absurd h0 h⟩
  · cases hf : visit.find? (fun kv => decide (pathExt filename ∈ kv.2.Extensions)) with
    | none =>
      have h0 := GetLangByFilename_none visit filename (Or.inr hf)
      refine ⟨⟨fun _ => Or.inr ?_, fun _ => h0⟩, fun h => absurd h0 h⟩
      intro kv hkv
      rw [List.find?_eq_none] at hf
      have := hf kv (hvisit.mem_iff.mpr hkv)
      simpa using this
    | some kv =>
      have hk := GetLangByFilename_found visit filename kv hne hf
      have hp := List.find?_some hf
      simp only [decide_eq_true_eq] at hp
      have hin : kv ∈ Langs := hvisit.mem_iff.mp (List.mem_of_find?_eq_some hf)
      have hkey : kv.1 ≠ [] := Langs_keys.2 kv hin
      rw [hk]
      refine ⟨⟨fun h => absurd h hkey, ?_⟩, fun _ => ⟨kv.2, hin, hp⟩⟩
      rintro (h | h)
      · exact absurd h hne
      · exact absurd hp (h kv hin)

/-- Instance of `resolution_empty_iff`: `Makefile` has no extension and
`notes.md` an unlisted one, so both give the empty key; `a.py` gives `python3`. -/
theorem resolution_empty_iff_witness :
    GetLangByFilename Langs "Makefile".toList = [] ∧
    GetLangByFilename Langs "notes.md".toList = [] ∧
    (∃ lang, (GetLangByFilename Langs "a.py".toList, lang) ∈ Langs ∧
      pathExt "a.py".toList ∈ lang.Extensions) :=
  ⟨(resolution_empty_iff Langs "Makefile".toList (List.Perm.refl _)).1.mpr
      (Or.inl (by decide)),
    (resolution_empty_iff Langs "notes.md".toList (List.Perm.refl _)).1.mpr
      (Or.inr (by decide)),
    (resolution_empty_iff Langs "a.py".toList (List.Perm.refl _)).2 (by decide)⟩

/-! ## C24: the `Disabled` flag -/

/-- C24 (amended): `GetLangByFilename` does not read the `Disabled` flag. In
whatever order `Langs` is visited, for a file name whose extension is listed by
no disabled language the key returned is not that of a disabled language; for
the extensions `.hs`, `.lhs` and `.java`, listed by the two disabled entries
only, the key returned is `haskell` or `java`. -/
theorem disabled_not_consulted (visit : List (Str × Language)) (filename : Str)
    (hvisit : visit.Perm Langs)
    (hext : ∀ kv ∈ Langs, kv.2.Disabled = true → pathExt filename ∉ kv.2.Extensions) :
    (∀ lang, langLookup Langs (GetLangByFilename visit filename) = some lang →
      lang.Disabled = false) ∧
    (∀ kv ∈ Langs, kv.2.Disabled = true ↔ (kv.1 = "haskell".toList ∨ kv.1 = "java".toList)) ∧
    (∀ name : Str, pathExt name = ".hs".toList ∨ pathExt name = ".lhs".toList →
      GetLangByFilename visit name = "haskell".toList) ∧
    (∀ name : Str, pathExt name = ".java".toList →
      GetLangByFilename visit name = "java".toList) := by
  refine ⟨?_, by decide, ?_, ?_⟩
  · intro lang hl
    by_cases hne : pathExt filename = []
    · rw [GetLangByFilename_none visit filename (Or.inl hne), Langs_lookup.1] at hl
      cases hl
    · cases hf : visit.find? (fun kv => decide (pathExt filename ∈ kv.2.Extensions)) with
      | none =>
        rw [GetLangByFilename_none visit filename (Or.inr hf), Langs_lookup.1] at hl
        cases hl
      | some kv =>
        rw [GetLangByFilename_found visit filename kv hne hf] at hl
        have hp := List.find?_some hf
        simp only [decide_eq_true_eq] at hp
        have hin : kv ∈ Langs := hvisit.mem_iff.mp (List.mem_of_find?_eq_some hf)
        rw [Langs_lookup.2 kv hin] at hl
        cases hl
        cases hd : kv.2.Disabled with
        | false => rfl
        | true => exact absurd hp (hext kv hin hd)
  · intro name hname
    rcases hname with h | h
    · apply GetLangByFilename_unique visit hvisit
      · rw [h]; decide
      · rw [h]; decide
    · apply GetLangByFilename_unique visit hvisit
      · rw [h]; decide
      · rw [h]; decide
  · intro name h
    apply GetLangByFilename_unique visit hvisit
    · rw [h]; decide
    · rw [h]; decide

/-- Instance of `disabled_not_consulted`: with the registry visited in reverse,
`a.cpp` resolves to `cpp20`, which is not disabled. -/
theorem disabled_not_consulted_witness :
    GetLangByFilename Langs.reverse "a.cpp".toList = "cpp20".toList ∧
    (langGet (GetLangByFilename Langs.reverse "a.cpp".toList)).Disabled = false :=
  ⟨by decide,
    (disabled_not_consulted Langs.reverse "a.cpp".toList (List.reverse_perm Langs)
      (by decide)).1 (langGet (GetLangByFilename Langs.reverse "a.cpp".toList)) (by decide)⟩

/-- C24 as stated fails: `Main.java` resolves to `java` and `a.hs` to
`haskell`, the two entries of `Langs` whose `Disabled` flag is set. -/
theorem disabled_language_selected :
    GetLangByFilename Langs "Main.java".toList = "java".toList ∧
    (langLookup Langs "java".toList).map (fun l => l.Disabled) = some true ∧
    GetLangByFilename Langs "a.hs".toList = "haskell".toList ∧
    (langLookup Langs "haskell".toList).map (fun l => l.Disabled) = some true := by
  refine ⟨by decide, by decide, by decide, by decide⟩

/-! ## C25: the compiled path of interpreted languages -/

/-- C25 (amended): of the two interpreted entries of `Langs`, `python3` has
`CompiledName` equal to `SourceName`; every interpreted entry other than
`outputOnly` does. The entry `outputOnly` keeps its source at `/box/output_src`
and names `/box/output`, the file its run command prints, as compiled path. -/
theorem interpreted_compiled_path (key : Str) (lang : Language)
    (hmem : (key, lang) ∈ Langs) (hint : lang.Compiled = false) :
    (key = "python3".toList ∨ key = "outputOnly".toList) ∧
    (key ≠ "outputOnly".toList → lang.CompiledName = lang.SourceName) ∧
    (key = "outputOnly".toList →
      lang.SourceName = "/box/output_src".toList ∧ lang.CompiledName = "/box/output".toList ∧
      lang.RunCommand = strs ["cat", "/box/output"]) := by
  revert hint
  revert hmem
  revert lang key
  have h : ∀ kv ∈ Langs, kv.2.Compiled = false →
      (kv.1 = "python3".toList ∨ kv.1 = "outputOnly".toList) ∧
      (kv.1 ≠ "outputOnly".toList → kv.2.CompiledName = kv.2.SourceName) ∧
      (kv.1 = "outputOnly".toList →
        kv.2.SourceName = "/box/output_src".toList ∧
        kv.2.CompiledName = "/box/output".toList ∧
        kv.2.RunCommand = strs ["cat", "/box/output"]) := by
    decide
  intro key lang hmem hint
  exact h (key, lang) hmem hint

/-- Instance of `interpreted_compiled_path`: the entry `python3` has
`/box/main.py` as source and as compiled path. -/
theorem interpreted_compiled_path_witness :
    (langGet "python3".toList).SourceName = "/box/main.py".toList ∧
    (langGet "python3".toList).CompiledName = (langGet "python3".toList).SourceName :=
  ⟨by decide,
    (interpreted_compiled_path "python3".toList (langGet "python3".toList) (by decide)
      (by decide)).2.1 (by decide)⟩

/-- C25 as stated fails: `outputOnly` is interpreted, its `SourceName` is
`/box/output_src` and its `CompiledName` is `/box/output`. -/
theorem output_only_paths_differ :
    (langLookup Langs "outputOnly".toList).map
        (fun l => (l.Compiled, l.SourceName, l.CompiledName)) =
      some (false, "/box/output_src".toList, "/box/output".toList) ∧
    ∃ kv ∈ Langs, kv.2.Compiled = false ∧ kv.2.CompiledName ≠ kv.2.SourceName := by
  refine ⟨by decide, by decide⟩

/-! ## C26: the inferred scores and the leftover -/

theorem inferScores_scored_kept {ord : MapOrder} {ctx ctx1 : ArchiveCtx} (hinv : CtxInv ctx)
    (hord : ord.Valid) (h : inferScores ord ctx = some ctx1) :
    ∀ t ∈ ctx.scoredTests, mapGet ctx1.tests t = mapGet ctx.tests t := by
  intro t ht
  unfold inferScores at h
  split at h
  · simp only at h
    split at h
    · cases h
    · cases h
      simp only
      have hf := unscoredIDs_facts hinv (hord (mapKeys ctx.tests)).2.1
      exact assignLoop_other _ _ _ _ _ _ (fun hc => ((hf.2.1 t).mp hc).2 ht)
        (fun i hi => hinv.unscoredZero i ((hf.2.1 i).mp hi).2) hf.1
  · cases h
    rfl

/-- C26 (amended): for every archive whose scan succeeds, in which at least one
discovered test is unscored and the explicit scores sum to at most 100 (and to
at least `100 - maxInt64`, so that the leftover fits an `int`), inference leaves
the explicit scores as they are and the scores it gives to the unscored tests
sum exactly to `remaining = 100 - sum(explicit scores)`. -/
theorem inferred_sum_is_remaining (parse : PropsParser) (ord : MapOrder) (ar : List ZipFile)
    (ctx : ArchiveCtx)
    (hscan : scanArchive parse NewArchiveCtx ar = (none, ctx))
    (hord : ord.Valid)
    (hun : ∃ k ∈ mapKeys ctx.tests, k ∉ ctx.scoredTests)
    (hle : explicitSum ctx ≤ 100) (hge : 100 - maxInt64 ≤ explicitSum ctx) :
    ∃ ctx1, inferScores ord ctx = some ctx1 ∧
      (∀ t ∈ ctx.scoredTests, mapGet ctx1.tests t = mapGet ctx.tests t) ∧
      unscoredSum ctx ctx1 = 100 - explicitSum ctx := by
  have hinv : CtxInv ctx := scanArchive_inv ar _ _ CtxInv_new hscan
  have hf := unscoredIDs_facts hinv (hord (mapKeys ctx.tests)).2.1
  have hstrict : ctx.scoredTests.length < ctx.tests.length := by
    obtain ⟨k, hk, hks⟩ := hun
    have hmem := (hf.2.1 k).mpr ⟨hk, hks⟩
    have hpos : 0 < (unscoredIDs (ord.collect (mapKeys ctx.tests)) ctx.scoredTests).length :=
      List.length_pos_of_mem hmem
    have := hf.2.2
    omega
  obtain ⟨ctx1, h1, h2, _⟩ := inferScores_total hinv hord hstrict hle hge
  have hkept := inferScores_scored_kept hinv hord h1
  refine ⟨ctx1, h1, hkept, ?_⟩
  obtain ⟨ctx2, h3, _, _, hkeys⟩ := inferScores_some ord ctx
  rw [h1] at h3
  cases h3
  have hk := hkeys hord
  have hsum : scoreSum ctx1.tests =
      ((mapKeys ctx.tests).map (fun k => (mapGet ctx1.tests k).Score)).sum := by
    rw [scoreSum_eq_keys _ (inferScores_nodup h1 hinv.keysNodup), hk]
  have hsplit := ((keys_split_perm ctx).map (fun k => (mapGet ctx1.tests k).Score)).sum_eq
  rw [List.map_append, List.sum_append] at hsplit
  have hscored : (((mapKeys ctx.tests).filter (fun id => decide (id ∈ ctx.scoredTests))).map
      (fun k => (mapGet ctx1.tests k).Score)).sum = explicitSum ctx := by
    have hp := ((filter_scored_perm hinv).map (fun k => (mapGet ctx1.tests k).Score)).sum_eq
    rw [hp]
    unfold explicitSum
    congr 1
    apply List.map_congr_left
    intro t ht
    rw [hkept t ht]
  unfold unscoredSum
  rw [hscored, ← hsum, h2] at hsplit
  omega

/-- Instance of `inferred_sum_is_remaining`: four tests, test 1 scored 37; the
other three get 21 each, which is 63 in all. -/
theorem inferred_sum_is_remaining_witness :
    ∃ ctx1, inferScores storageOrder (scannedCtx sampleArchive) = some ctx1 ∧
      (∀ t ∈ (scannedCtx sampleArchive).scoredTests,
        mapGet ctx1.tests t = mapGet (scannedCtx sampleArchive).tests t) ∧
      unscoredSum (scannedCtx sampleArchive) ctx1 = 100 - explicitSum (scannedCtx sampleArchive) :=
  inferred_sum_is_remaining noProps storageOrder sampleArchive (scannedCtx sampleArchive)
    (by decide) (fun l => ⟨List.Perm.refl l, List.Perm.refl l, List.Perm.refl l,
      List.Perm.refl l⟩) (by decide) (by decide) (by decide)

/-- C26 as stated fails: with four complete tests of which test 1 is scored
120, the leftover is -20; the three unscored tests get -6 each, -18 in all, and
the import passes the scores 120, -6, -6, -6 to `CreateTest`. -/
theorem negative_leftover_not_split :
    (scanArchive noProps NewArchiveCtx overdrawnArchive).1 = none ∧
    (scannedCtx overdrawnArchive).scoredTests = [1] ∧
    mapKeys (scannedCtx overdrawnArchive).tests = [1, 2, 3, 4] ∧
    100 - explicitSum (scannedCtx overdrawnArchive) = -20 ∧
    (inferScores storageOrder (scannedCtx overdrawnArchive)).map
        (fun c => c.tests.map (fun p => (p.1, p.2.Score))) =
      some [(1, 120), (2, -6), (3, -6), (4, -6)] ∧
    (inferScores storageOrder (scannedCtx overdrawnArchive)).map
        (fun c => unscoredSum (scannedCtx overdrawnArchive) c) = some (-18) ∧
    createdScores (ProcessZipTestArchive noProps storageOrder okBase 1 overdrawnArchive).2 =
      [120, -6, -6, -6] := by
  refine ⟨by decide, by decide, by decide, by decide, by decide, by decide, by decide⟩

/-! ## C27: the choice of a statement variant -/

theorem variant_without_language (first : StatementVariant) (rest : List StatementVariant)
    (prefLang prefFormat : Str) (h : ∀ v ∈ first :: rest, v.Language ≠ prefLang) :
    appropriateDescriptionVariant (first :: rest) prefLang prefFormat =
      (first.Language, first.Format) := by
  have h1 : (first :: rest).find?
      (fun v => decide (v.Language = prefLang ∧ v.Format = prefFormat)) = none := by
    rw [List.find?_eq_none]
    intro v hv
    simp only [decide_eq_true_eq, not_and]
    intro e
    exact absurd e (h v hv)
  have h2 : (first :: rest).find? (fun v => decide (v.Language = prefLang)) = none := by
    rw [List.find?_eq_none]
    intro v hv
    simp only [decide_eq_true_eq]
    exact h v hv
  unfold appropriateDescriptionVariant
  simp only [h1, h2]

/-- C27, the code at the failing input: of the variants English PDF and
Romanian Markdown none has the preferred language `fr` and the second has the
preferred format `md`, yet the function returns the first variant, whose format
is `pdf`. -/
theorem format_fallback_tests_language :
    sampleVariants ≠ [] ∧
    (∀ v ∈ sampleVariants, v.Language ≠ "fr".toList) ∧
    (∃ v ∈ sampleVariants, v.Format = "md".toList) ∧
    appropriateDescriptionVariant sampleVariants "fr".toList "md".toList =
      ("en".toList, "pdf".toList) := by
  refine ⟨by decide, by decide, by decide, by decide⟩

/-! ## C28: the divisor of score inference -/

/-- C28: for every archive whose scan succeeds, when the number of explicitly
scored tests differs from the number of discovered tests the divisor
`n = len(tests) - len(scoredTests)` is at least 1 and is the number of unscored
test numbers collected in `testIDs`, whatever the order of the `range` over the
map; the division does not panic. -/
theorem inference_divisor_positive (parse : PropsParser) (ord : MapOrder) (ar : List ZipFile)
    (ctx : ArchiveCtx)
    (hscan : scanArchive parse NewArchiveCtx ar = (none, ctx))
    (hord : ord.Valid)
    (hbranch : ctx.scoredTests.length ≠ ctx.tests.length) :
    1 ≤ (ctx.tests.length : Int) - (ctx.scoredTests.length : Int) ∧
    ((unscoredIDs (ord.collect (mapKeys ctx.tests)) ctx.scoredTests).length : Int) =
      (ctx.tests.length : Int) - (ctx.scoredTests.length : Int) ∧
    (∀ i, i ∈ unscoredIDs (ord.collect (mapKeys ctx.tests)) ctx.scoredTests ↔
      (i ∈ mapKeys ctx.tests ∧ i ∉ ctx.scoredTests)) ∧
    inferScores ord ctx ≠ none := by
  have hinv : CtxInv ctx := scanArchive_inv ar _ _ CtxInv_new hscan
  have hf := unscoredIDs_facts hinv (hord (mapKeys ctx.tests)).2.1
  have hn : 1 ≤ (ctx.tests.length : Int) - (ctx.scoredTests.length : Int) := by
    have := hf.2.2
    omega
  refine ⟨hn, hf.2.2, hf.2.1, ?_⟩
  rw [inferScores_eq ord ctx (by omega)]
  simp

/-- Instance of `inference_divisor_positive`: four tests of which one is
scored; the divisor is 3. -/
theorem inference_divisor_positive_witness :
    ((scannedCtx sampleArchive).tests.length : Int) -
      ((scannedCtx sampleArchive).scoredTests.length : Int) = 3 ∧
    1 ≤ ((scannedCtx sampleArchive).tests.length : Int) -
      ((scannedCtx sampleArchive).scoredTests.length : Int) ∧
    ((unscoredIDs (reverseOrder.collect (mapKeys (scannedCtx sampleArchive).tests))
        (scannedCtx sampleArchive).scoredTests).length : Int) =
      ((scannedCtx sampleArchive).tests.length : Int) -
        ((scannedCtx sampleArchive).scoredTests.length : Int) :=
  ⟨by decide,
    (inference_divisor_positive noProps reverseOrder sampleArchive (scannedCtx sampleArchive)
      (by decide) (fun l => ⟨List.reverse_perm l, List.reverse_perm l, List.reverse_perm l,
        List.reverse_perm l⟩) (by decide)).1,
    (inference_divisor_positive noProps reverseOrder sampleArchive (scannedCtx sampleArchive)
      (by decide) (fun l => ⟨List.reverse_perm l, List.reverse_perm l, List.reverse_perm l,
        List.reverse_perm l⟩) (by decide)).2.1⟩

/-! ## C29: failed validation makes no storage call -/

/-- C29: if the processing of an archive entry returns an error,
`ProcessZipTestArchive` returns that error and has made no storage call; the
same holds for the error of the subtask coverage check and for the error
naming a test that lacks a half. Conversely, a storage call is made only after
the scan, the coverage check and the check of the halves have all passed. -/
theorem validation_failure_no_storage (parse : PropsParser) (ord : MapOrder) (base : BaseAPI)
    (pbID : Int) (ar : List ZipFile) :
    (∀ e ctx, scanArchive parse NewArchiveCtx ar = (some e, ctx) →
      ProcessZipTestArchive parse ord base pbID ar = (.returned (some e), [])) ∧
    (∀ ctx, scanArchive parse NewArchiveCtx ar = (none, ctx) → subtaskMismatch ctx = true →
      ProcessZipTestArchive parse ord base pbID ar = (.returned (some errMismatch), [])) ∧
    (∀ ctx k, scanArchive parse NewArchiveCtx ar = (none, ctx) → subtaskMismatch ctx = false →
      findMissingHalf ctx.tests (ord.check (mapKeys ctx.tests)) = some k →
      ProcessZipTestArchive parse ord base pbID ar =
        (.returned (some (errMissingHalf k)), [])) ∧
    ((ProcessZipTestArchive parse ord base pbID ar).2 ≠ [] →
      ∃ ctx, scanArchive parse NewArchiveCtx ar = (none, ctx) ∧ subtaskMismatch ctx = false ∧
        findMissingHalf ctx.tests (ord.check (mapKeys ctx.tests)) = none) := by
  refine ⟨?_, ?_, ?_, ?_⟩
  · intro e ctx h
    unfold ProcessZipTestArchive
    rw [h]
  · intro ctx h hm
    unfold ProcessZipTestArchive
    rw [h]
    simp only
    unfold finishArchive
    rw [if_pos hm]
  · intro ctx k h hm hk
    unfold ProcessZipTestArchive
    rw [h]
    simp only
    unfold finishArchive
    rw [hm, hk]
    simp
  · intro hcalls
    rcases hs : scanArchive parse NewArchiveCtx ar with ⟨_ | e, ctx⟩
    · refine ⟨ctx, rfl, ?_, ?_⟩
      · by_contra hm
        rw [Bool.not_eq_false] at hm
        apply hcalls
        unfold ProcessZipTestArchive
        rw [hs]
        simp only
        unfold finishArchive
        rw [if_pos hm]
      · cases hk : findMissingHalf ctx.tests (ord.check (mapKeys ctx.tests)) with
        | none => rfl
        | some k =>
          exfalso
          apply hcalls
          unfold ProcessZipTestArchive
          rw [hs]
          simp only
          unfold finishArchive
          split
          · rfl
          · rw [hk]
    · exfalso
      apply hcalls
      unfold ProcessZipTestArchive
      rw [hs]

/-- Instance of `validation_failure_no_storage`: a score file that scores test
3 twice, a second input for test 1, and a test known only from a score line
each end the import with the error and an empty list of storage calls. -/
theorem validation_failure_no_storage_witness :
    ProcessZipTestArchive noProps storageOrder okBase 1
        [dataFile "3-a.in", dataFile "3-a.ok", twiceThree] =
      (.returned (some ErrBadTestFile), []) ∧
    ProcessZipTestArchive noProps storageOrder okBase 1
        [dataFile "1-a.in", dataFile "1-b.in"] =
      (.returned (some (.Statusf 400 "Multiple input files for test 1".toList)), []) ∧
    ProcessZipTestArchive noProps storageOrder okBase 1 scoreOnlyArchive =
      (.returned (some (errMissingHalf 2)), []) ∧
    ProcessZipTestArchive sampleParser storageOrder okBase 1 lonelyInputArchive =
      (.returned (some errMismatch), []) :=
  ⟨(validation_failure_no_storage noProps storageOrder okBase 1
      [dataFile "3-a.in", dataFile "3-a.ok", twiceThree]).1 ErrBadTestFile
      (scanArchive noProps NewArchiveCtx [dataFile "3-a.in", dataFile "3-a.ok", twiceThree]).2
      (by decide),
    (validation_failure_no_storage noProps storageOrder okBase 1
      [dataFile "1-a.in", dataFile "1-b.in"]).1
      (.Statusf 400 "Multiple input files for test 1".toList)
      (scanArchive noProps NewArchiveCtx [dataFile "1-a.in", dataFile "1-b.in"]).2 (by decide),
    (validation_failure_no_storage noProps storageOrder okBase 1 scoreOnlyArchive).2.2.1
      (scanArchive noProps NewArchiveCtx scoreOnlyArchive).2 2 (by decide) (by decide)
      (by decide),
    (validation_failure_no_storage sampleParser storageOrder okBase 1 lonelyInputArchive).2.1
      (scanArchive sampleParser NewArchiveCtx lonelyInputArchive).2 (by decide) (by decide)⟩

/-! ## C30: the invariant of the archive context -/

theorem runCalls_inv (parse : PropsParser) (calls : List ArchiveCall) :
    ∀ (ctx ctx2 : ArchiveCtx), CtxInv ctx → runCalls parse ctx calls = (none, ctx2) →
      CtxInv ctx2 := by
  induction calls with
  | nil =>
    intro ctx ctx2 hinv h
    simp only [runCalls, Prod.mk.injEq, true_and] at h
    rw [← h]
    exact hinv
  | cons call rest ih =>
    intro ctx ctx2 hinv h
    cases call with
    | archiveFile file =>
      rw [runCalls] at h
      rcases hp : ProcessArchiveFile parse ctx file with ⟨_ | e, ctx1⟩
      · rw [hp] at h
        exact ih _ _ (ProcessArchiveFile_inv hinv hp) h
      · rw [hp] at h
        cases h
    | scoreFile file =>
      rw [runCalls] at h
      rcases hp : ProcessScoreFile ctx file with ⟨_ | e, ctx1⟩
      · rw [hp] at h
        exact ih _ _ (ProcessScoreFile_inv hinv hp) h
      · rw [hp] at h
        cases h

/-- C30: after any sequence of `ProcessArchiveFile` and `ProcessScoreFile`
calls on `NewArchiveCtx` that all returned no error, `scoredTests` has no
repeated number, each of its numbers is a key of `tests`, and every test whose
number is not in `scoredTests` has score 0; so no test number collected as
unscored has a positive score. -/
theorem archive_ctx_invariant (parse : PropsParser) (calls : List ArchiveCall)
    (ctx : ArchiveCtx)
    (hrun : runCalls parse NewArchiveCtx calls = (none, ctx)) :
    ctx.scoredTests.Nodup ∧
    (∀ t ∈ ctx.scoredTests, t ∈ mapKeys ctx.tests) ∧
    (∀ k ∈ mapKeys ctx.tests, k ∉ ctx.scoredTests → (mapGet ctx.tests k).Score = 0) ∧
    (∀ (visit : List Int), ∀ i ∈ unscoredIDs visit ctx.scoredTests,
      ¬ (mapGet ctx.tests i).Score > 0) := by
  have hinv := runCalls_inv parse calls _ _ CtxInv_new hrun
  refine ⟨hinv.scoredNodup, hinv.scoredSub, fun k _ hk => hinv.unscoredZero k hk, ?_⟩
  intro visit i hi
  have hp := (unscoredIDs_perm visit ctx.scoredTests).mem_iff.mp hi
  rw [List.mem_filter] at hp
  have hns : i ∉ ctx.scoredTests := by simpa using hp.2
  rw [hinv.unscoredZero i hns]
  decide

/-- Instance of `archive_ctx_invariant`: two data files of test 1, a score file
scoring tests 1 and 2, and the input of test 3. -/
theorem archive_ctx_invariant_witness :
    (runCalls noProps NewArchiveCtx sampleCalls).2.scoredTests = [1, 2] ∧
    mapKeys (runCalls noProps NewArchiveCtx sampleCalls).2.tests = [1, 2, 3] ∧
    (runCalls noProps NewArchiveCtx sampleCalls).2.scoredTests.Nodup ∧
    (∀ t ∈ (runCalls noProps NewArchiveCtx sampleCalls).2.scoredTests,
      t ∈ mapKeys (runCalls noProps NewArchiveCtx sampleCalls).2.tests) ∧
    (∀ k ∈ mapKeys (runCalls noProps NewArchiveCtx sampleCalls).2.tests,
      k ∉ (runCalls noProps NewArchiveCtx sampleCalls).2.scoredTests →
      (mapGet (runCalls noProps NewArchiveCtx sampleCalls).2.tests k).Score = 0) :=
  ⟨by decide, by decide,
    (archive_ctx_invariant noProps sampleCalls (runCalls noProps NewArchiveCtx sampleCalls).2
      (by decide)).1,
    (archive_ctx_invariant noProps sampleCalls (runCalls noProps NewArchiveCtx sampleCalls).2
      (by decide)).2.1,
    (archive_ctx_invariant noProps sampleCalls (runCalls noProps NewArchiveCtx sampleCalls).2
      (by decide)).2.2.1⟩

end Kilonova
